import Mathlib

/-!
# Fused L2 distance and 1-nearest-neighbour (`cpp/src_prims/distance/fused_l2_nn.h`)

A shallow embedding of the CUDA kernel `fusedL2NNkernel`, of `initKernel` and of the
host-side dispatchers `fusedL2NNImpl` / `fusedL2NN`.

Conventions of the embedding.

* `DataT` is an arbitrary linearly ordered commutative ring `α` (exact arithmetic);
  `OutT` is `Int` (it has to hold the sentinel `-1`); `IdxT` and the CUDA built-ins
  `blockIdx`, `threadIdx` are natural numbers, taken to be small enough not to wrap.
* Device memory (`x`, `y`, `xn`, `yn`, `min`, `minDist`, `mutex`) is a map from element
  index to value; a store is `Function.update`. The shared memory of a block is a list of
  `SmemPage` elements whose initial contents are arbitrary; a load outside the list yields
  0 and a store outside the list is dropped.
* `maxVal`, which `fusedL2NNImpl` sets to `std::numeric_limits<DataT>::max()`, is a
  parameter: the ring `α` has no largest element.
* A thread block runs in the phases delimited by `__syncthreads()`: in a phase the threads
  of the block are run one after the other in the order of `threadIdx.x`.
* A warp shuffle is a lockstep exchange: every lane reads the value its source lane held
  before the step.
* The lock-protected read-compare-write of `epilog` is one atomic step; the order in which
  the steps of the whole grid happen is chosen by a scheduler, a parameter of the model.
-/

namespace MLCommon
namespace Distance

/-! ## Pieces of `cuda_utils.h` -/

/-- Modelled from the spec: the constant `WarpSize` of `cuda_utils.h` (not part of the
sources at hand), the size of the "lane group" of workers that run in strict lockstep. -/
def WarpSize : Nat := 32

/-- Modelled from the spec: `ceildiv` of `cuda_utils.h` (not part of the sources at hand),
"grid shape = ceil(m/Mblk) × ceil(n/Nblk)". -/
def ceildiv (a b : Nat) : Nat := (a + b - 1) / b

/-- Modelled from the spec: `shfl(val, srcLane)` of `cuda_utils.h` (not part of the sources
at hand), the "true lockstep cross-lane exchange primitive": thread `tid` obtains the value
that lane `srcLane % WarpSize` of its own warp holds in `val`. -/
def shfl {β : Type} (val : Nat → β) (tid srcLane : Nat) : β :=
  val (tid / WarpSize * WarpSize + srcLane % WarpSize)

/-! ## Data model -/

/-- The key/value pair `KVP<OutT, DataT>`. -/
structure KVP (α : Type) where
  k : Int
  v : α
deriving DecidableEq, Repr

/-- The enum of `struct KernelPolicy`: the six template parameters. The derived constants
follow below. -/
structure KernelPolicy where
  Veclen : Nat
  Kblk : Nat
  AccRowsPerTh : Nat
  AccColsPerTh : Nat
  AccThRows : Nat
  AccThCols : Nat
deriving DecidableEq, Repr

namespace KernelPolicy

/-- Total threads per block. -/
def Nthreads (P : KernelPolicy) : Nat := P.AccThRows * P.AccThCols

/-- Output tile size along rows. -/
def Mblk (P : KernelPolicy) : Nat := P.AccRowsPerTh * P.AccThRows

/-- Output tile size along cols. -/
def Nblk (P : KernelPolicy) : Nat := P.AccColsPerTh * P.AccThCols

/-- Number of threads loading a single row. The enumerator is ill-formed in the source when
`Veclen` is 0 (a division by zero in a constant expression); what the division of `Nat` gives
there describes no program. -/
def LdgThK (P : KernelPolicy) : Nat := P.Kblk / P.Veclen

/-- Number of LDGs issued by a single thread for X (ill-formed in the source when `Nthreads`
is 0). -/
def LdgPerThX (P : KernelPolicy) : Nat := P.Mblk * P.LdgThK / P.Nthreads

/-- Number of LDGs issued by a single thread for Y (ill-formed in the source when `Nthreads`
is 0). -/
def LdgPerThY (P : KernelPolicy) : Nat := P.Nblk * P.LdgThK / P.Nthreads

/-- Number of rows of X covered per LDG (ill-formed in the source when `LdgPerThX` is 0). -/
def LdgRowsX (P : KernelPolicy) : Nat := P.Mblk / P.LdgPerThX

/-- Number of rows of Y covered per LDG (ill-formed in the source when `LdgPerThY` is 0). -/
def LdgRowsY (P : KernelPolicy) : Nat := P.Nblk / P.LdgPerThY

/-- Stride for accessing X/Y data in shared mem. -/
def SmemStride (P : KernelPolicy) : Nat := P.Kblk + P.Veclen

/-- Size of one page for storing X data. -/
def SmemPageX (P : KernelPolicy) : Nat := P.SmemStride * P.Mblk

/-- Size of one page for storing Y data. -/
def SmemPageY (P : KernelPolicy) : Nat := P.SmemStride * P.Nblk

/-- Size of one smem page. -/
def SmemPage (P : KernelPolicy) : Nat := P.SmemPageX + P.SmemPageY

/-- Size (in B) for smem needed: `SmemPage * sizeof(DataT)`; the template parameter `DataT`
enters through its size `sizeofDataT`. -/
def SmemSize (P : KernelPolicy) (sizeofDataT : Nat) : Nat := P.SmemPage * sizeofDataT

end KernelPolicy

/-- The policy `KernelPolicy<DataT, VecLen, 32, 4, 4, 16, 16>` of `fusedL2NNImpl`. -/
def Policy (VecLen : Nat) : KernelPolicy := ⟨VecLen, 32, 4, 4, 16, 16⟩

/-- The read-only kernel arguments `m, n, k, x, y, xn, yn, maxVal` of `FusedL2NN`; `x` and
`y` are indexed by element, row-major (`x[i][t]` is `x (i * k + t)`). -/
structure Params (α : Type) where
  m : Nat
  n : Nat
  k : Nat
  x : Nat → α
  y : Nat → α
  xn : Nat → α
  yn : Nat → α
  maxVal : α

/-- The buffers the kernels write: `min`, `minDist` and the lock words `mutex`
(the `workspace` of `fusedL2NN`). -/
structure Out (α : Type) where
  min : Nat → Int
  minDist : Nat → α
  mutex : Nat → Int

/-- One pass through the critical section of `epilog`: the row and the candidate of a
group leader. -/
structure Merge (α : Type) where
  rid : Nat
  val : KVP α

section Kernel

variable {α : Type} [LinearOrderedCommRing α]

/-! ## The constructor `FusedL2NN::FusedL2NN` -/

/-- Field `xrowid`. -/
def xrowid (P : KernelPolicy) (blkX tid : Nat) : Nat := blkX * P.Mblk + tid / P.LdgThK

/-- Field `yrowid`. -/
def yrowid (P : KernelPolicy) (blkY tid : Nat) : Nat := blkY * P.Nblk + tid / P.LdgThK

/-- Field `srowid`. -/
def srowid (P : KernelPolicy) (tid : Nat) : Nat := tid / P.LdgThK

/-- Field `scolid`. -/
def scolid (P : KernelPolicy) (tid : Nat) : Nat := (tid % P.LdgThK) * P.Veclen

/-- Field `accrowid`. -/
def accrowid (P : KernelPolicy) (tid : Nat) : Nat := tid / P.AccThCols

/-- Field `acccolid`. -/
def acccolid (P : KernelPolicy) (tid : Nat) : Nat := tid % P.AccThCols

/-- Offset of `sx` in the shared memory of the block (`sx = smem`). -/
def sx (_P : KernelPolicy) : Nat := 0

/-- Offset of `sy` in the shared memory of the block (`sy = &sx[SmemPageX]`). -/
def sy (P : KernelPolicy) : Nat := sx P + P.SmemPageX

/-- Offset of `sxNorm` in the shared memory of the block (`sxNorm = smem`). -/
def sxNorm (_P : KernelPolicy) : Nat := 0

/-- Offset of `syNorm` in the shared memory of the block (`syNorm = &sxNorm[Mblk]`). -/
def syNorm (P : KernelPolicy) : Nat := sxNorm P + P.Mblk

/-- Field `pageWr`: it is set to 0 and never changed. -/
def pageWr : Nat := 0

/-! ## Vector loads and stores -/

/-- The overloads of `sts`: store the `veclen` lanes of `x` at `addr`. -/
def sts (veclen addr : Nat) (x : Nat → α) (smem : List α) : List α :=
  (List.range veclen).foldl (fun s v => s.set (addr + v) (x v)) smem

/-- The overloads of `lds`: lane `v` of the vector read at `addr`. -/
def lds (smem : List α) (addr : Nat) : Nat → α := fun v => smem.getD (addr + v) 0

/-- The overloads of `ldg`: lane `v` of the vector read from global memory at `addr`. -/
def ldg (mem : Nat → α) (addr : Nat) : Nat → α := fun v => mem (addr + v)

/-! ## Loader -/

/-- The element index (relative to `_x`) at which `ldgstsX` issues its `i`-th load:
`x + i * LdgRowsX * k + koffset` with `x = _x + xrowid * k`. -/
def ldgAddrX (P : KernelPolicy) (k blkX tid kidx i : Nat) : Nat :=
  xrowid P blkX tid * k + i * P.LdgRowsX * k + (kidx + scolid P tid)

/-- The element index (relative to `_y`) at which `ldgstsY` issues its `i`-th load. -/
def ldgAddrY (P : KernelPolicy) (k blkY tid kidx i : Nat) : Nat :=
  yrowid P blkY tid * k + i * P.LdgRowsY * k + (kidx + scolid P tid)

/-- The guard of the `i`-th load of `ldgstsX`. -/
def ldgGuardX (P : KernelPolicy) (m k blkX tid kidx i : Nat) : Prop :=
  kidx + scolid P tid < k ∧ xrowid P blkX tid + i * P.LdgRowsX < m

/-- The guard of the `i`-th load of `ldgstsY`. -/
def ldgGuardY (P : KernelPolicy) (n k blkY tid kidx i : Nat) : Prop :=
  kidx + scolid P tid < k ∧ yrowid P blkY tid + i * P.LdgRowsY < n

instance (P : KernelPolicy) (m k blkX tid kidx i : Nat) :
    Decidable (ldgGuardX P m k blkX tid kidx i) := by
  unfold ldgGuardX; infer_instance

instance (P : KernelPolicy) (n k blkY tid kidx i : Nat) :
    Decidable (ldgGuardY P n k blkY tid kidx i) := by
  unfold ldgGuardY; infer_instance

/-- The registers `data[i]` of `ldgstsX` after the LDG loop. -/
def ldgDataX (P : KernelPolicy) (A : Params α) (blkX tid kidx i : Nat) : Nat → α :=
  if ldgGuardX P A.m A.k blkX tid kidx i then ldg A.x (ldgAddrX P A.k blkX tid kidx i)
  else fun _ => 0

/-- The registers `data[i]` of `ldgstsY` after the LDG loop. -/
def ldgDataY (P : KernelPolicy) (A : Params α) (blkY tid kidx i : Nat) : Nat → α :=
  if ldgGuardY P A.n A.k blkY tid kidx i then ldg A.y (ldgAddrY P A.k blkY tid kidx i)
  else fun _ => 0

/-- Method `ldgstsX` of one thread. -/
def ldgstsX (P : KernelPolicy) (A : Params α) (blkX tid kidx smem : Nat)
    (s : List α) : List α :=
  let saddr := smem + srowid P tid * P.SmemStride + scolid P tid
  (List.range P.LdgPerThX).foldl
    (fun s i => sts P.Veclen (saddr + i * P.LdgRowsX * P.SmemStride)
      (ldgDataX P A blkX tid kidx i) s) s

/-- Method `ldgstsY` of one thread. -/
def ldgstsY (P : KernelPolicy) (A : Params α) (blkY tid kidx smem : Nat)
    (s : List α) : List α :=
  let saddr := smem + srowid P tid * P.SmemStride + scolid P tid
  (List.range P.LdgPerThY).foldl
    (fun s i => sts P.Veclen (saddr + i * P.LdgRowsY * P.SmemStride)
      (ldgDataY P A blkY tid kidx i) s) s

/-- Method `ldgsts` of one thread. -/
def ldgsts (P : KernelPolicy) (A : Params α) (blkX blkY tid kidx : Nat)
    (s : List α) : List α :=
  ldgstsY P A blkY tid kidx (sy P + pageWr * P.SmemPage)
    (ldgstsX P A blkX tid kidx (sx P + pageWr * P.SmemPage) s)

/-- The phase `ldgsts(kidx); __syncthreads();` of a whole block. -/
def ldgstsBlock (P : KernelPolicy) (A : Params α) (blkX blkY kidx : Nat)
    (s : List α) : List α :=
  (List.range P.Nthreads).foldl (fun s tid => ldgsts P A blkX blkY tid kidx s) s

/-! ## Accumulator -/

/-- Method `ldsX`: the registers `regx[i][v]`. -/
def ldsX (P : KernelPolicy) (tid kidx smem : Nat) (s : List α) : Nat → Nat → α :=
  let saddr := smem + accrowid P tid * P.SmemStride + kidx
  fun i => lds s (saddr + i * P.AccThRows * P.SmemStride)

/-- Method `ldsY`: the registers `regy[i][v]`. -/
def ldsY (P : KernelPolicy) (tid kidx smem : Nat) (s : List α) : Nat → Nat → α :=
  let saddr := smem + acccolid P tid * P.SmemStride + kidx
  fun i => lds s (saddr + i * P.AccThCols * P.SmemStride)

/-- Method `accumulate`: the new `acc[i][j]`, given `regx`, `regy`. -/
def accumulate (P : KernelPolicy) (regx regy : Nat → Nat → α) (acc : Nat → Nat → α) :
    Nat → Nat → α :=
  fun i j =>
    if i < P.AccRowsPerTh ∧ j < P.AccColsPerTh then
      (List.range P.Veclen).foldl (fun a v => a + regx i v * regy j v) (acc i j)
    else acc i j

/-- The inner loop of `loop` for one thread: `for (ki = 0; ki < Kblk; ki += Veclen)`
doing `ldsXY(ki); accumulate();`. -/
def kiLoop (P : KernelPolicy) (tid : Nat) (s : List α) (acc : Nat → Nat → α) :
    Nat → Nat → α :=
  (List.range (ceildiv P.Kblk P.Veclen)).foldl
    (fun a it =>
      let ki := it * P.Veclen
      accumulate P (ldsX P tid ki (sx P + pageWr * P.SmemPage) s)
        (ldsY P tid ki (sy P + pageWr * P.SmemPage) s) a) acc

/-- The state of a block between two barriers: its shared memory and the accumulators
`acc[i][j]` of each of its threads. -/
structure Block (α : Type) where
  smem : List α
  acc : Nat → Nat → Nat → α

/-- Method `prolog`, for all threads of the block. -/
def prolog (s : List α) : Block α := ⟨s, fun _ _ _ => 0⟩

/-- One iteration of the outer loop of `loop` for the whole block. -/
def loopBody (P : KernelPolicy) (A : Params α) (blkX blkY kidx : Nat) (b : Block α) :
    Block α :=
  let s := ldgstsBlock P A blkX blkY kidx b.smem
  ⟨s, fun tid => kiLoop P tid s (b.acc tid)⟩

/-- Method `loop`: `for (kidx = 0; kidx < k; kidx += Kblk)`. -/
def loop (P : KernelPolicy) (A : Params α) (blkX blkY : Nat) (b : Block α) : Block α :=
  (List.range (ceildiv A.k P.Kblk)).foldl
    (fun b it => loopBody P A blkX blkY (it * P.Kblk) b) b

/-! ## Epilogue -/

/-- The values of `i` in `for (i = start; i < stop; i += step)`. -/
def strided (start stop step : Nat) : List Nat :=
  (List.range (ceildiv (stop - start) step)).map (fun it => start + it * step)

/-- The two loops of `epilog` staging the norms, for one thread. -/
def stageNorms (P : KernelPolicy) (A : Params α) (blkX blkY tid : Nat) (s : List α) :
    List α :=
  let s1 := (strided tid P.Mblk P.Nthreads).foldl
    (fun s i =>
      let idx := blkX * P.Mblk + i
      s.set (sxNorm P + i) (if idx < A.m then A.xn idx else A.maxVal)) s
  (strided tid P.Nblk P.Nthreads).foldl
    (fun s i =>
      let idx := blkY * P.Nblk + i
      s.set (syNorm P + i) (if idx < A.n then A.yn idx else A.maxVal)) s1

/-- The norm staging phase of `epilog` for the whole block. -/
def stageNormsBlock (P : KernelPolicy) (A : Params α) (blkX blkY : Nat) (s : List α) :
    List α :=
  (List.range P.Nthreads).foldl (fun s tid => stageNorms P A blkX blkY tid s) s

/-- The "compute" loop of `epilog`: `acc[i][j] = regxn[i] + regyn[j] - Two * acc[i][j]`. -/
def epilogAcc (P : KernelPolicy) (tid : Nat) (s : List α) (acc : Nat → Nat → α) :
    Nat → Nat → α :=
  let regxn : Nat → α := fun i => s.getD (sxNorm P + (i * P.AccThRows + accrowid P tid)) 0
  let regyn : Nat → α := fun i => s.getD (syNorm P + (i * P.AccThCols + acccolid P tid)) 0
  fun i j =>
    if i < P.AccRowsPerTh ∧ j < P.AccColsPerTh then regxn i + regyn j - 2 * acc i j
    else acc i j

/-- The per-thread column scan of the "reduce" part of `epilog`: `val[i]` before the
shuffles. -/
def scanCols (P : KernelPolicy) (n blkY tid : Nat) (maxVal : α) (acc : Nat → Nat → α)
    (i : Nat) : KVP α :=
  (List.range P.AccColsPerTh).foldl
    (fun val j =>
      let tmpk := acccolid P tid + j * P.AccThCols + blkY * P.Nblk
      if tmpk < n ∧ acc i j < val.v then ⟨tmpk, acc i j⟩ else val) ⟨-1, maxVal⟩

/-- One round of the shuffle loop, for all threads of the block at once. -/
def shflStep (val : Nat → KVP α) (j : Nat) : Nat → KVP α :=
  fun tid =>
    let lid := tid % WarpSize
    let tmpk := shfl (fun t => (val t).k) tid (lid + j)
    let tmpv := shfl (fun t => (val t).v) tid (lid + j)
    if tmpv < (val tid).v then ⟨tmpk, tmpv⟩ else val tid

/-- The values of `j` in `for (j = start; j > 0; j >>= 1)`. -/
def shflOffsets : Nat → Nat → List Nat
  | 0, _ => []
  | fuel + 1, j => if j > 0 then j :: shflOffsets fuel (j / 2) else []

/-- The shuffle loop `for (j = AccThCols / 2; j > 0; j >>= 1)`, for all threads of the
block at once. -/
def shflReduce (P : KernelPolicy) (val : Nat → KVP α) : Nat → KVP α :=
  (shflOffsets P.AccThCols (P.AccThCols / 2)).foldl shflStep val

/-- One round of the shuffle loop with the exchange primitive of `cuda_utils.h` taken as the
parameter `sh` (`sh val tid srcLane` is what thread `tid` receives): the body of the loop is
that of `shflStep`. -/
def shflStepWith (sh : (Nat → KVP α) → Nat → Nat → KVP α) (val : Nat → KVP α) (j : Nat) :
    Nat → KVP α :=
  fun tid =>
    let lid := tid % WarpSize
    let tmpk := (sh val tid (lid + j)).k
    let tmpv := (sh val tid (lid + j)).v
    if tmpv < (val tid).v then ⟨tmpk, tmpv⟩ else val tid

/-- The shuffle loop `for (j = AccThCols / 2; j > 0; j >>= 1)` with the exchange primitive
taken as the parameter `sh`. -/
def shflReduceWith (sh : (Nat → KVP α) → Nat → Nat → KVP α) (P : KernelPolicy)
    (val : Nat → KVP α) : Nat → KVP α :=
  (shflOffsets P.AccThCols (P.AccThCols / 2)).foldl (shflStepWith sh) val

/-- The state of the block after `prolog(); loop();`, started on shared memory `s`. -/
def mainLoop (P : KernelPolicy) (A : Params α) (blkX blkY : Nat) (s : List α) : Block α :=
  loop P A blkX blkY (prolog s)

/-- The accumulators `acc[i][j]` of thread `tid` after the "compute" loop of `epilog`. -/
def tileAcc (P : KernelPolicy) (A : Params α) (blkX blkY : Nat) (s : List α) (tid : Nat) :
    Nat → Nat → α :=
  let b := mainLoop P A blkX blkY s
  epilogAcc P tid (stageNormsBlock P A blkX blkY b.smem) (b.acc tid)

/-- The candidates `val[i]` of all threads of the block after the "reduce" part of
`epilog`. -/
def tileVal (P : KernelPolicy) (A : Params α) (blkX blkY : Nat) (s : List α) (i : Nat) :
    Nat → KVP α :=
  shflReduce P (fun tid => scanCols P A.n blkY tid A.maxVal (tileAcc P A blkX blkY s tid) i)

/-- The rows merged by thread `tid` with the candidates it merges, in program order:
the last part of `epilog`. -/
def threadMerges (P : KernelPolicy) (A : Params α) (blkX blkY : Nat) (s : List α)
    (tid : Nat) : List (Merge α) :=
  let lid := tid % WarpSize
  if lid % P.AccThCols = 0 then
    let ridx := blkX * P.Mblk + accrowid P tid
    (List.range P.AccRowsPerTh).filterMap (fun i =>
      let rid := ridx + i * P.AccThRows
      if rid < A.m then some ⟨rid, tileVal P A blkX blkY s i tid⟩ else none)
  else []

/-- The merges of one block, started on shared memory `s`. -/
def blockMerges (P : KernelPolicy) (A : Params α) (s : List α) (blkX blkY : Nat) :
    List (Merge α) :=
  (List.range P.Nthreads).flatMap (threadMerges P A blkX blkY s)

/-- The array `extern __shared__ char smem[]` of a block at its start: the launch gives
it `SmemSize` bytes, that is `SmemPage` elements; `s` gives their contents. -/
def smemInit (P : KernelPolicy) (s : Nat → α) : List α := (List.range P.SmemPage).map s

/-- The merges of the whole grid. The shared memory of a block is not initialised;
`s blkX blkY` gives its contents at the start of block `(blkX, blkY)`. -/
def gridMerges (P : KernelPolicy) (A : Params α) (s : Nat → Nat → Nat → α)
    (gridX gridY : Nat) : List (Merge α) :=
  (List.range gridX).flatMap (fun blkX =>
    (List.range gridY).flatMap (fun blkY => blockMerges P A (smemInit P (s blkX blkY)) blkX blkY))

/-- The critical section of `epilog`:
`while (atomicCAS(mutex + rid, 0, 1) == 1); ... atomicCAS(mutex + rid, 1, 0);`.
The section runs without interleaving, so a lock word found at 1 is never released and the
thread spins forever: the result is `none`. -/
def mergeStep (e : Merge α) (o : Out α) : Option (Out α) :=
  if o.mutex e.rid = 1 then none
  else
    let mutex1 := if o.mutex e.rid = 0 then Function.update o.mutex e.rid 1 else o.mutex
    let tmpv := o.minDist e.rid
    let min1 := if e.val.v < tmpv then Function.update o.min e.rid e.val.k else o.min
    let minDist1 := if e.val.v < tmpv then Function.update o.minDist e.rid e.val.v
      else o.minDist
    let mutex2 := if mutex1 e.rid = 1 then Function.update mutex1 e.rid 0 else mutex1
    some ⟨min1, minDist1, mutex2⟩

/-- Run the critical sections in the given order. -/
def runMerges : List (Merge α) → Out α → Option (Out α)
  | [], o => some o
  | e :: es, o => (mergeStep e o).bind (runMerges es)

/-- Kernel `fusedL2NNkernel` on a grid of `gridX × gridY` blocks. The scheduler `sched`
fixes the order in which the critical sections of the grid are run. -/
def fusedL2NNkernel (P : KernelPolicy) (A : Params α) (s : Nat → Nat → Nat → α)
    (sched : List (Merge α) → List (Merge α)) (gridX gridY : Nat) (o : Out α) :
    Option (Out α) :=
  runMerges (sched (gridMerges P A s gridX gridY)) o

/-- Kernel `initKernel` on `nblks` blocks of `blockDim` threads. -/
def initKernel (m : Nat) (maxVal : α) (nblks blockDim : Nat) (o : Out α) : Out α :=
  (List.range (nblks * blockDim)).foldl
    (fun o tid =>
      if tid < m then
        { o with min := Function.update o.min tid (-1),
                 minDist := Function.update o.minDist tid maxVal }
      else o) o

/-! ## Host side -/

/-- The outcome of a kernel launch as seen by `cudaGetLastError()`. -/
inductive cudaError_t where
  | cudaSuccess
  | cudaErrorInvalidConfiguration
deriving DecidableEq, Repr

/-- A kernel launch `<<<grid, blk>>>` as submitted by the host: the extents of the grid
and the number of threads of a block. -/
structure Launch where
  gridX : Nat
  gridY : Nat
  blk : Nat
deriving DecidableEq, Repr

/-- Modelled from the spec: what the platform reports for a submitted launch (the platform
is not part of the sources at hand): "an empty grid dimension must not be submitted", such a
launch is an "invalid argument shape" and runs no block. -/
def Launch.status (l : Launch) : cudaError_t :=
  if l.gridX = 0 ∨ l.gridY = 0 ∨ l.blk = 0 then cudaError_t.cudaErrorInvalidConfiguration
  else cudaError_t.cudaSuccess

/-- What a call of `fusedL2NNImpl` leaves behind: the buffers, the launches it submitted
(in order) and the error code that `CUDA_CHECK` raised (`cudaSuccess` when the call returned
normally). -/
structure Run (α : Type) where
  out : Out α
  launches : List Launch
  status : cudaError_t

/-- The call `cudaMemsetAsync(workspace, 0, sizeof(int) * m, stream)`. -/
def memsetWorkspace (m : Nat) (o : Out α) : Out α :=
  { o with mutex := fun i => if i < m then 0 else o.mutex i }

/-- Modelled from the spec: the macro `CUDA_CHECK` of `cuda_utils.h` (not part of the sources
at hand) applied to `cudaGetLastError()` after a launch: launch errors "propagate immediately
as an error signal after each dispatch step" and "are never retried internally". A status
other than `cudaSuccess` ends the call with `raise`, otherwise the call goes on with `next`. -/
def CUDA_CHECK {β : Type} (status : cudaError_t) (raise : cudaError_t → β) (next : β) : β :=
  if status ≠ cudaError_t.cudaSuccess then raise status else next

/-- Function `fusedL2NNImpl<DataT, OutT, IdxT, VecLen>`. The result is `none` when a thread
of the kernel spins forever. -/
def fusedL2NNImpl (VecLen : Nat) (A : Params α) (s : Nat → Nat → Nat → α)
    (sched : List (Merge α) → List (Merge α)) (o : Out α) : Option (Run α) :=
  let P := Policy VecLen
  let grid : Launch := ⟨ceildiv A.m P.Mblk, ceildiv A.n P.Nblk, P.Nthreads⟩
  let blk := P.Nthreads
  let nblks := ceildiv A.m P.Nthreads
  let o1 := memsetWorkspace A.m o
  let init : Launch := ⟨nblks, 1, blk⟩
  CUDA_CHECK init.status (fun err => some ⟨o1, [init], err⟩)
    (let o2 := initKernel A.m A.maxVal nblks P.Nthreads o1
     CUDA_CHECK grid.status (fun err => some ⟨o2, [init, grid], err⟩)
       ((fusedL2NNkernel P A s sched grid.gridX grid.gridY o2).map
         (fun o3 => ⟨o3, [init, grid], cudaError_t.cudaSuccess⟩)))

/-- The vector width that `fusedL2NN` instantiates `fusedL2NNImpl` with. -/
def chooseVeclen (k : Nat) : Nat :=
  if k % 4 = 0 then 4 else if k % 2 = 0 then 2 else 1

/-- Function `fusedL2NN`. -/
def fusedL2NN (A : Params α) (s : Nat → Nat → Nat → α)
    (sched : List (Merge α) → List (Merge α)) (o : Out α) : Option (Run α) :=
  if A.k % 4 = 0 then fusedL2NNImpl 4 A s sched o
  else if A.k % 2 = 0 then fusedL2NNImpl 2 A s sched o
  else fusedL2NNImpl 1 A s sched o

end Kernel

/-! ## Definitions used in the statements and proofs -/

section Spec

variable {α : Type} [LinearOrderedCommRing α]

/-- The value staged for row `row` of `x` and column `t`: zero padding outside. -/
def padX (A : Params α) (row t : Nat) : α :=
  if row < A.m ∧ t < A.k then A.x (row * A.k + t) else 0

/-- The value staged for row `row` of `y` and column `t`: zero padding outside. -/
def padY (A : Params α) (row t : Nat) : α :=
  if row < A.n ∧ t < A.k then A.y (row * A.k + t) else 0

/-- The dot product of row `r` of `x` and row `c` of `y` as staged by the loader. -/
def padDot (A : Params α) (r c : Nat) : α :=
  ∑ t in Finset.range A.k, padX A r t * padY A c t

/-- The norm of row `r` of `x` as staged by `epilog`: `maxVal` outside. -/
def padXn (A : Params α) (r : Nat) : α := if r < A.m then A.xn r else A.maxVal

/-- The norm of row `c` of `y` as staged by `epilog`: `maxVal` outside. -/
def padYn (A : Params α) (c : Nat) : α := if c < A.n then A.yn c else A.maxVal

/-- The distance that `epilog` computes for row `r` of `x` and row `c` of `y`. -/
def epiDist (A : Params α) (r c : Nat) : α := padXn A r + padYn A c - 2 * padDot A r c

/-- The parameters with the roles of `x` and `y` exchanged (as far as the loader goes). -/
def swapXY (A : Params α) : Params α := { A with m := A.n, x := A.y }

/-- The thread that stages element `(r, c)` of a tile of `x` or `y`. -/
def stagingThread (V r c : Nat) : Nat := (r % (8 * V)) * (32 / V) + c / V

/-- The comparison of the shuffle loop and of the merge: `b` replaces `a` when its distance
is strictly smaller. -/
def sel (a b : KVP α) : KVP α := if b.v < a.v then b else a

/-- The first round of the shuffle loop at a lane that has its partner in the warp. -/
def red1 (val : Nat → KVP α) (t : Nat) : KVP α := sel (val t) (val (t + 8))

/-- The first two rounds of the shuffle loop. -/
def red2 (val : Nat → KVP α) (t : Nat) : KVP α := sel (red1 val t) (red1 val (t + 4))

/-- The first three rounds of the shuffle loop. -/
def red3 (val : Nat → KVP α) (t : Nat) : KVP α := sel (red2 val t) (red2 val (t + 2))

/-- The four rounds of the shuffle loop, as seen by a group leader. -/
def red4 (val : Nat → KVP α) (t : Nat) : KVP α := sel (red3 val t) (red3 val (t + 1))

/-- The scratch element that `ldgstsX` stores lane `v` of `data[i]` to:
`smem + srowid * SmemStride + scolid + i * LdgRowsX * SmemStride`, lane `v`, with
`smem = sx + pageWr * SmemPage`. -/
def stsAddrX (P : KernelPolicy) (tid i v : Nat) : Nat :=
  sx P + pageWr * P.SmemPage + srowid P tid * P.SmemStride + scolid P tid +
    i * P.LdgRowsX * P.SmemStride + v

/-- The scratch element that `ldgstsY` stores lane `v` of `data[i]` to, with
`smem = sy + pageWr * SmemPage`. -/
def stsAddrY (P : KernelPolicy) (tid i v : Nat) : Nat :=
  sy P + pageWr * P.SmemPage + srowid P tid * P.SmemStride + scolid P tid +
    i * P.LdgRowsY * P.SmemStride + v

/-- The scratch element that `ldsX(kidx, sx + pageWr * SmemPage)` reads lane `v` of
`regx[i]` from. -/
def ldsAddrX (P : KernelPolicy) (tid kidx i v : Nat) : Nat :=
  sx P + pageWr * P.SmemPage + accrowid P tid * P.SmemStride + kidx +
    i * P.AccThRows * P.SmemStride + v

/-- The scratch element that `ldsY(kidx, sy + pageWr * SmemPage)` reads lane `v` of
`regy[i]` from. -/
def ldsAddrY (P : KernelPolicy) (tid kidx i v : Nat) : Nat :=
  sy P + pageWr * P.SmemPage + acccolid P tid * P.SmemStride + kidx +
    i * P.AccThCols * P.SmemStride + v

/-- The dot product of row `r` of `x` and row `c` of `y`, as the specification states it:
the sum over `t < k` of `X[r][t] * Y[c][t]`. -/
def dotXY (A : Params α) (r c : Nat) : α :=
  ∑ t in Finset.range A.k, A.x (r * A.k + t) * A.y (c * A.k + t)

/-- The squared Euclidean distance between row `i` of `x` and row `j` of `y`, as the
specification states it: the sum over `t < k` of `(X[i][t] - Y[j][t])^2`. -/
def sqDist (A : Params α) (i j : Nat) : α :=
  ∑ t in Finset.range A.k, (A.x (i * A.k + t) - A.y (j * A.k + t)) ^ 2

/-- The squared L2 norm of row `i` of the row-major matrix `z` with `k` columns. -/
def sqNorm (z : Nat → α) (k i : Nat) : α := ∑ t in Finset.range k, z (i * k + t) ^ 2

/-- What the run has established for row `i` of the outputs `o`. -/
def RowDone (A : Params α) (o : Out α) (i : Nat) : Prop :=
  o.minDist i ≤ A.maxVal ∧
  (∀ c, c < A.n → o.minDist i ≤ epiDist A i c) ∧
  ((o.min i = -1 ∧ o.minDist i = A.maxVal) ∨
    ∃ c : Nat, c < A.n ∧ o.min i = (c : Int) ∧ o.minDist i = epiDist A i c ∧
      epiDist A i c < A.maxVal)

/-- The outputs of `fusedL2NNImpl` right before the launch of `fusedL2NNkernel`. -/
def initOut (A : Params α) (o : Out α) : Out α :=
  initKernel A.m A.maxVal (ceildiv A.m 256) 256 (memsetWorkspace A.m o)

end Spec

/-! ## Concrete inputs -/

/-- One row `[3]` of `x`, one row `[5]` of `y`. -/
def unitParams : Params Int :=
  { m := 1, n := 1, k := 1, x := fun _ => 3, y := fun _ => 5, xn := fun _ => 9,
    yn := fun _ => 25, maxVal := 100 }

/-- Candidates whose distance falls with the thread index: thread `t` holds index `t` and
distance `100 - t`. -/
def descVal : Nat → KVP Int := fun t => ⟨t, 100 - t⟩

/-- The parameter tuple `(Veclen, Kblk, rpt, cpt, tr, tc) = (3, 32, 4, 4, 16, 16)`: no divisor
of the enum is zero, and `Kblk` is not divisible by `Veclen`. -/
def truncPolicy : KernelPolicy := ⟨3, 32, 4, 4, 16, 16⟩

/-- Output buffers holding zeros. -/
def zeroOut : Out Int := { min := fun _ => 0, minDist := fun _ => 0, mutex := fun _ => 0 }

/-- Shared memory holding zeros at the start of every block. -/
def zeroSmem : Nat → Nat → Nat → Int := fun _ _ _ => 0

/-- The input of the scenario: `k = 2`, `X = [[0,0],[1,1],[5,5]]`, `Y = [[0,0],[1,0]]`, with
the squared norms of the rows; `maxVal` is left open. -/
def scenarioParams (maxVal : Int) : Params Int :=
  { m := 3, n := 2, k := 2,
    x := fun a => [0, 0, 1, 1, 5, 5].getD a 0,
    y := fun a => [0, 0, 1, 0].getD a 0,
    xn := fun i => [0, 2, 50].getD i 0,
    yn := fun j => [0, 1].getD j 0,
    maxVal := maxVal }

/-- One row `[0]` of `x` and seventeen rows of `y`: rows 1 and 16 are `[0]`, the other
fifteen are `[1]`; the norms are the squared norms of the rows. -/
def tieParams : Params Int :=
  { m := 1, n := 17, k := 1,
    x := fun _ => 0,
    y := fun a => if a = 1 ∨ a = 16 then 0 else 1,
    xn := fun _ => 0,
    yn := fun a => if a = 1 ∨ a = 16 then 0 else 1,
    maxVal := 100 }

/-- One row `[0]` of `x` and sixty-five rows `[0]` of `y`: every column is at distance 0,
and the columns fall into two tiles along N. -/
def twoTileParams : Params Int :=
  { m := 1, n := 65, k := 1, x := fun _ => 0, y := fun _ => 0, xn := fun _ => 0,
    yn := fun _ => 0, maxVal := 100 }

/-- Two rows of `x` and no row of `y`. -/
def noColsParams : Params Int :=
  { m := 2, n := 0, k := 1, x := fun _ => 0, y := fun _ => 0, xn := fun _ => 0,
    yn := fun _ => 0, maxVal := 100 }

/-- No row of `x` and one row of `y`. -/
def noRowsParams : Params Int :=
  { m := 0, n := 1, k := 1, x := fun _ => 0, y := fun _ => 0, xn := fun _ => 0,
    yn := fun _ => 0, maxVal := 100 }

/-! ## Shared memory as a list -/

section Memory

variable {α : Type} [Zero α]

theorem getD_set_eq {α : Type} (s : List α) (i a : Nat) (v d : α) :
    (s.set i v).getD a d = if i = a ∧ a < s.length then v else s.getD a d := by
  by_cases h : i = a
  · subst h
    by_cases hl : i < s.length
    · simp [List.getD_eq_getElem?_getD, hl]
    · have h1 : s.length ≤ i := not_lt.1 hl
      simp [List.getD_eq_getElem?_getD, hl, List.getElem?_eq_none, h1]
  · simp [List.getD_eq_getElem?_getD, h, List.getElem?_set_ne h]

theorem foldl_length {α : Type} {ι : Type} (step : List α → ι → List α)
    (h : ∀ s t, (step s t).length = s.length) (l : List ι) (s : List α) :
    (l.foldl step s).length = s.length := by
  induction l generalizing s with
  | nil => rfl
  | cons t l ih => simp [List.foldl_cons, ih, h]

theorem foldl_getD_keep {ι : Type} (step : List α → ι → List α) (a : Nat) (l : List ι)
    (h : ∀ t ∈ l, ∀ s, (step s t).getD a 0 = s.getD a 0) (s : List α) :
    (l.foldl step s).getD a 0 = s.getD a 0 := by
  induction l generalizing s with
  | nil => rfl
  | cons t l ih =>
    rw [List.foldl_cons, ih (fun t ht => h t (List.mem_cons_of_mem _ ht)),
      h t (List.mem_cons_self _ _)]

theorem foldl_getD_keep_or {ι : Type} (step : List α → ι → List α) (a : Nat) (w : α)
    (l : List ι)
    (h : ∀ t ∈ l, ∀ s, (step s t).getD a 0 = w ∨ (step s t).getD a 0 = s.getD a 0)
    (s : List α) :
    (l.foldl step s).getD a 0 = w ∨ (l.foldl step s).getD a 0 = s.getD a 0 := by
  induction l generalizing s with
  | nil => exact Or.inr rfl
  | cons t l ih =>
    rw [List.foldl_cons]
    rcases ih (fun t ht => h t (List.mem_cons_of_mem _ ht)) (step s t) with h1 | h1
    · exact Or.inl h1
    · rw [h1]; exact h t (List.mem_cons_self _ _) s

theorem foldl_getD_hit {ι : Type} (step : List α → ι → List α) (a : Nat) (w : α) (L : Nat)
    (l : List ι) (hlen : ∀ s t, (step s t).length = s.length)
    (h : ∀ t ∈ l, ∀ s, (step s t).getD a 0 = w ∨ (step s t).getD a 0 = s.getD a 0)
    (hex : ∃ t ∈ l, ∀ s, s.length = L → (step s t).getD a 0 = w)
    (s : List α) (hs : s.length = L) :
    (l.foldl step s).getD a 0 = w := by
  induction l generalizing s with
  | nil => obtain ⟨t, ht, _⟩ := hex; simp at ht
  | cons t l ih =>
    rw [List.foldl_cons]
    obtain ⟨t0, ht0, hw⟩ := hex
    have hl' : (step s t).length = L := by rw [hlen, hs]
    by_cases hin : ∃ t1 ∈ l, ∀ s, s.length = L → (step s t1).getD a 0 = w
    · exact ih (fun t ht => h t (List.mem_cons_of_mem _ ht)) hin _ hl'
    · have : t0 = t := by
        rcases List.mem_cons.1 ht0 with h0 | h0
        · exact h0
        · exact absurd ⟨t0, h0, hw⟩ hin
      subst this
      rcases foldl_getD_keep_or step a w l (fun t ht => h t (List.mem_cons_of_mem _ ht))
        (step s t0) with h1 | h1
      · exact h1
      · rw [h1]; exact hw s hs

theorem foldl_getD_hit_mem {ι : Type} (step : List α → ι → List α)
    (a : Nat) (w : α) (L : Nat)
    (l : List ι) (hlen : ∀ s, ∀ t ∈ l, (step s t).length = s.length)
    (h : ∀ t ∈ l, ∀ s, (step s t).getD a 0 = w ∨ (step s t).getD a 0 = s.getD a 0)
    (hex : ∃ t ∈ l, ∀ s, s.length = L → (step s t).getD a 0 = w)
    (s : List α) (hs : s.length = L) :
    (l.foldl step s).getD a 0 = w := by
  induction l generalizing s with
  | nil => obtain ⟨t, ht, _⟩ := hex; simp at ht
  | cons t l ih =>
    rw [List.foldl_cons]
    obtain ⟨t0, ht0, hw⟩ := hex
    have hl' : (step s t).length = L := by rw [hlen s t (List.mem_cons_self _ _), hs]
    by_cases hin : ∃ t1 ∈ l, ∀ s, s.length = L → (step s t1).getD a 0 = w
    · exact ih (fun s t ht => hlen s t (List.mem_cons_of_mem _ ht))
        (fun t ht => h t (List.mem_cons_of_mem _ ht)) hin _ hl'
    · have : t0 = t := by
        rcases List.mem_cons.1 ht0 with h0 | h0
        · exact h0
        · exact absurd ⟨t0, h0, hw⟩ hin
      subst this
      rcases foldl_getD_keep_or step a w l (fun t ht => h t (List.mem_cons_of_mem _ ht))
        (step s t0) with h1 | h1
      · exact h1
      · rw [h1]; exact hw s hs

theorem sts_length {α : Type} (V addr : Nat) (x : Nat → α) (s : List α) :
    (sts V addr x s).length = s.length := by
  unfold sts
  exact foldl_length _ (fun s t => by simp) _ _

theorem sts_getD (V addr : Nat) (x : Nat → α) (s : List α) (a : Nat) :
    (sts V addr x s).getD a 0 =
      if addr ≤ a ∧ a < addr + V ∧ a < s.length then x (a - addr) else s.getD a 0 := by
  unfold sts
  induction V with
  | zero =>
    have h : ¬ (addr ≤ a ∧ a < addr + 0 ∧ a < s.length) := by omega
    rw [if_neg h]; rfl
  | succ V ih =>
    rw [List.range_succ, List.foldl_append, List.foldl_cons, List.foldl_nil, getD_set_eq, ih]
    have hl : (List.foldl (fun s v => s.set (addr + v) (x v)) s (List.range V)).length
        = s.length := foldl_length _ (fun s t => by simp) _ _
    rw [hl]
    by_cases h1 : addr + V = a
    · subst h1
      by_cases h2 : addr + V < s.length
      · simp [h2]
      · simp [h2]
    · by_cases h2 : addr ≤ a ∧ a < addr + V ∧ a < s.length
      · have h3 : addr ≤ a ∧ a < addr + (V + 1) ∧ a < s.length := ⟨h2.1, by omega, h2.2.2⟩
        simp [h1, h2, h3]
      · have h3 : ¬ (addr ≤ a ∧ a < addr + (V + 1) ∧ a < s.length) := by
          intro h; apply h2; exact ⟨h.1, by omega, h.2.2⟩
        simp [h1, h2, h3]

end Memory

/-! ## Index arithmetic of the policy -/

theorem lt_iff_add_lt_of_dvd (V a k v : Nat) (ha : V ∣ a) (hk : V ∣ k) (hv : v < V) :
    a < k ↔ a + v < k := by
  obtain ⟨p, rfl⟩ := ha
  obtain ⟨q, rfl⟩ := hk
  constructor
  · intro h
    have hpq : p < q := Nat.lt_of_mul_lt_mul_left h
    calc V * p + v < V * p + V := by omega
      _ = V * (p + 1) := by ring
      _ ≤ V * q := Nat.mul_le_mul_left V hpq
  · intro h; omega

theorem policy_dvd_koffset (V : Nat) (hV : V = 1 ∨ V = 2 ∨ V = 4) (tid kidx : Nat)
    (hkidx : kidx % 32 = 0) : V ∣ kidx + scolid (Policy V) tid := by
  have h1 : V ∣ scolid (Policy V) tid := by
    unfold scolid; exact Dvd.intro_left _ rfl
  have h2 : V ∣ kidx := by
    rcases hV with rfl | rfl | rfl <;> omega
  exact Nat.dvd_add h2 h1

theorem sts_addr_decomp (V : Nat) (hV : V = 1 ∨ V = 2 ∨ V = 4) (tid i r c v : Nat)
    (hc : c < 32) (hv : v < V)
    (h : srowid (Policy V) tid * (Policy V).SmemStride + scolid (Policy V) tid +
      i * (Policy V).LdgRowsX * (Policy V).SmemStride + v = r * (32 + V) + c) :
    r = srowid (Policy V) tid + i * (Policy V).LdgRowsX ∧ c = scolid (Policy V) tid + v := by
  rcases hV with rfl | rfl | rfl <;>
    simp only [Policy, KernelPolicy.SmemStride, KernelPolicy.LdgRowsX, KernelPolicy.LdgPerThX,
      KernelPolicy.LdgThK, KernelPolicy.Mblk, KernelPolicy.Nthreads, srowid, scolid,
      Nat.reduceMul, Nat.reduceDiv, Nat.reduceAdd] at h ⊢ <;> omega

theorem stagingThread_lt (V : Nat) (hV : V = 1 ∨ V = 2 ∨ V = 4) (r c : Nat) (hc : c < 32) :
    stagingThread V r c < 256 := by
  rcases hV with rfl | rfl | rfl <;> simp only [stagingThread, Nat.reduceMul, Nat.reduceDiv] <;>
    omega

theorem smemPage_eq (V : Nat) : (Policy V).SmemPage = 128 * (32 + V) := by
  simp [KernelPolicy.SmemPage, KernelPolicy.SmemPageX, KernelPolicy.SmemPageY,
    KernelPolicy.SmemStride, KernelPolicy.Mblk, KernelPolicy.Nblk, Policy]
  ring

theorem ceildiv_Kblk (V : Nat) (hV : V = 1 ∨ V = 2 ∨ V = 4) :
    ceildiv (Policy V).Kblk (Policy V).Veclen * V = 32 := by
  rcases hV with rfl | rfl | rfl <;> rfl

theorem le_ceildiv_mul (k : Nat) : k ≤ ceildiv k 32 * 32 := by
  unfold ceildiv; omega

theorem strided_eq (tid : Nat) (htid : tid < 256) :
    strided tid 64 256 = if tid < 64 then [tid] else [] := by
  unfold strided ceildiv
  split_ifs with h
  · have : (64 - tid + 256 - 1) / 256 = 1 := by omega
    rw [this]; simp [List.range_succ]
  · have : (64 - tid + 256 - 1) / 256 = 0 := by omega
    rw [this]; simp

/-! ## The kernel, phase by phase -/

section Phases

variable {α : Type} [LinearOrderedCommRing α]

theorem ldgDataX_eq (V : Nat) (hV : V = 1 ∨ V = 2 ∨ V = 4) (A : Params α) (hk : V ∣ A.k)
    (blkX tid kidx i v : Nat) (hkidx : kidx % 32 = 0) (hv : v < V) :
    ldgDataX (Policy V) A blkX tid kidx i v =
      padX A (blkX * 64 + (srowid (Policy V) tid + i * (Policy V).LdgRowsX))
        (kidx + (scolid (Policy V) tid + v)) := by
  have hg := lt_iff_add_lt_of_dvd V _ _ v (policy_dvd_koffset V hV tid kidx hkidx) hk hv
  have hx : xrowid (Policy V) blkX tid = blkX * 64 + srowid (Policy V) tid := rfl
  unfold ldgDataX padX ldgGuardX ldgAddrX ldg
  simp only [hx]
  by_cases h1 : kidx + scolid (Policy V) tid < A.k
  · by_cases h2 : blkX * 64 + srowid (Policy V) tid + i * (Policy V).LdgRowsX < A.m
    · have h3 : kidx + (scolid (Policy V) tid + v) < A.k := by have := hg.1 h1; omega
      have h4 : blkX * 64 + (srowid (Policy V) tid + i * (Policy V).LdgRowsX) < A.m := by omega
      rw [if_pos ⟨h1, h2⟩, if_pos ⟨h4, h3⟩]
      congr 1; ring
    · have h4 : ¬ blkX * 64 + (srowid (Policy V) tid + i * (Policy V).LdgRowsX) < A.m := by omega
      rw [if_neg (fun h => h2 h.2), if_neg (fun h => h4 h.1)]
  · have h3 : ¬ kidx + (scolid (Policy V) tid + v) < A.k := by
      intro h; apply h1; apply hg.2; omega
    rw [if_neg (fun h => h1 h.1), if_neg (fun h => h3 h.2)]

theorem ldgstsX_length (P : KernelPolicy) (A : Params α) (blkX tid kidx b : Nat)
    (s : List α) : (ldgstsX P A blkX tid kidx b s).length = s.length := by
  unfold ldgstsX
  exact foldl_length _ (fun s t => sts_length _ _ _ _) _ _

theorem ldgstsX_step_or (V : Nat) (hV : V = 1 ∨ V = 2 ∨ V = 4) (A : Params α) (hk : V ∣ A.k)
    (blkX tid kidx b r c i : Nat) (hkidx : kidx % 32 = 0) (hc : c < 32) (s : List α) :
    (sts (Policy V).Veclen (b + srowid (Policy V) tid * (Policy V).SmemStride +
        scolid (Policy V) tid + i * (Policy V).LdgRowsX * (Policy V).SmemStride)
        (ldgDataX (Policy V) A blkX tid kidx i) s).getD (b + r * (32 + V) + c) 0 =
      if b + srowid (Policy V) tid * (Policy V).SmemStride +
        scolid (Policy V) tid + i * (Policy V).LdgRowsX * (Policy V).SmemStride ≤
          b + r * (32 + V) + c ∧ b + r * (32 + V) + c <
        b + srowid (Policy V) tid * (Policy V).SmemStride +
        scolid (Policy V) tid + i * (Policy V).LdgRowsX * (Policy V).SmemStride + V ∧
        b + r * (32 + V) + c < s.length
      then padX A (blkX * 64 + r) (kidx + c) else s.getD (b + r * (32 + V) + c) 0 := by
  have hVec : (Policy V).Veclen = V := rfl
  rw [sts_getD, hVec]
  split_ifs with h
  · obtain ⟨h1, h2, _⟩ := h
    obtain ⟨v, hv⟩ := Nat.exists_eq_add_of_le h1
    have hvV : v < V := by omega
    have hd := sts_addr_decomp V hV tid i r c v hc hvV (by omega)
    have hsub : b + r * (32 + V) + c - (b + srowid (Policy V) tid * (Policy V).SmemStride +
        scolid (Policy V) tid + i * (Policy V).LdgRowsX * (Policy V).SmemStride) = v := by
      omega
    rw [hsub, ldgDataX_eq V hV A hk blkX tid kidx i v hkidx hvV, hd.1, hd.2]
  · rfl

theorem ldgstsX_getD_or (V : Nat) (hV : V = 1 ∨ V = 2 ∨ V = 4) (A : Params α) (hk : V ∣ A.k)
    (blkX tid kidx b r c : Nat) (hkidx : kidx % 32 = 0) (hc : c < 32) (s : List α) :
    (ldgstsX (Policy V) A blkX tid kidx b s).getD (b + r * (32 + V) + c) 0 =
        padX A (blkX * 64 + r) (kidx + c) ∨
      (ldgstsX (Policy V) A blkX tid kidx b s).getD (b + r * (32 + V) + c) 0 =
        s.getD (b + r * (32 + V) + c) 0 := by
  unfold ldgstsX
  apply foldl_getD_keep_or
  intro i _ s
  rw [ldgstsX_step_or V hV A hk blkX tid kidx b r c i hkidx hc s]
  split_ifs
  · exact Or.inl rfl
  · exact Or.inr rfl

theorem ldgstsX_getD_keep (V : Nat) (hV : V = 1 ∨ V = 2 ∨ V = 4) (A : Params α)
    (blkX tid kidx b a : Nat) (htid : tid < 256) (ha : a < b ∨ b + 64 * (32 + V) ≤ a)
    (s : List α) :
    (ldgstsX (Policy V) A blkX tid kidx b s).getD a 0 = s.getD a 0 := by
  unfold ldgstsX
  apply foldl_getD_keep
  intro i hi s
  rw [sts_getD]
  have hi' : i < (Policy V).LdgPerThX := List.mem_range.1 hi
  have : ¬ (b + srowid (Policy V) tid * (Policy V).SmemStride + scolid (Policy V) tid +
      i * (Policy V).LdgRowsX * (Policy V).SmemStride ≤ a ∧
      a < b + srowid (Policy V) tid * (Policy V).SmemStride + scolid (Policy V) tid +
      i * (Policy V).LdgRowsX * (Policy V).SmemStride + (Policy V).Veclen ∧ a < s.length) := by
    rcases hV with rfl | rfl | rfl <;>
      simp only [Policy, KernelPolicy.SmemStride, KernelPolicy.LdgRowsX,
        KernelPolicy.LdgPerThX, KernelPolicy.LdgThK, KernelPolicy.Mblk, KernelPolicy.Nthreads,
        srowid, scolid, Nat.reduceMul, Nat.reduceDiv, Nat.reduceAdd] at hi' ⊢ <;> omega
  rw [if_neg this]

theorem ldgstsX_getD_hit (V : Nat) (hV : V = 1 ∨ V = 2 ∨ V = 4) (A : Params α) (hk : V ∣ A.k)
    (blkX kidx b r c : Nat) (hkidx : kidx % 32 = 0) (hr : r < 64) (hc : c < 32) (s : List α)
    (hs : b + 64 * (32 + V) ≤ s.length) :
    (ldgstsX (Policy V) A blkX (stagingThread V r c) kidx b s).getD (b + r * (32 + V) + c) 0 =
        padX A (blkX * 64 + r) (kidx + c) := by
  unfold ldgstsX
  refine foldl_getD_hit _ _ _ s.length _ (fun s t => sts_length _ _ _ _) ?_ ?_ s rfl
  · intro i _ s
    rw [ldgstsX_step_or V hV A hk blkX _ kidx b r c i hkidx hc s]
    split_ifs
    · exact Or.inl rfl
    · exact Or.inr rfl
  · refine ⟨r / (8 * V), ?_, ?_⟩
    · rw [List.mem_range]
      rcases hV with rfl | rfl | rfl <;>
        simp only [Policy, KernelPolicy.LdgPerThX, KernelPolicy.LdgThK, KernelPolicy.Mblk,
          KernelPolicy.Nthreads, Nat.reduceMul, Nat.reduceDiv] <;> omega
    · intro s' hs'
      rw [ldgstsX_step_or V hV A hk blkX _ kidx b r c _ hkidx hc s', if_pos]
      rw [hs']
      rcases hV with rfl | rfl | rfl <;>
        simp only [Policy, KernelPolicy.SmemStride, KernelPolicy.LdgRowsX,
          KernelPolicy.LdgPerThX, KernelPolicy.LdgThK, KernelPolicy.Mblk,
          KernelPolicy.Nthreads, srowid, scolid, stagingThread, Nat.reduceMul,
          Nat.reduceDiv, Nat.reduceAdd] at hs ⊢ <;> omega

theorem ldgstsY_eq (V : Nat) (A : Params α) (blkY tid kidx b : Nat) (s : List α) :
    ldgstsY (Policy V) A blkY tid kidx b s = ldgstsX (Policy V) (swapXY A) blkY tid kidx b s :=
  rfl

theorem padX_swapXY (A : Params α) (row t : Nat) : padX (swapXY A) row t = padY A row t := rfl

theorem ldgsts_eq (V : Nat) (A : Params α) (blkX blkY tid kidx : Nat) (s : List α) :
    ldgsts (Policy V) A blkX blkY tid kidx s =
      ldgstsX (Policy V) (swapXY A) blkY tid kidx (64 * (32 + V))
        (ldgstsX (Policy V) A blkX tid kidx 0 s) := by
  unfold ldgsts
  rw [ldgstsY_eq]
  have h1 : sx (Policy V) + pageWr * (Policy V).SmemPage = 0 := by simp [sx, pageWr]
  have h2 : sy (Policy V) + pageWr * (Policy V).SmemPage = 64 * (32 + V) := by
    simp [sy, sx, pageWr, KernelPolicy.SmemPageX, KernelPolicy.SmemStride, KernelPolicy.Mblk,
      Policy]
    ring
  rw [h1, h2]

theorem ldgsts_length (V : Nat) (A : Params α) (blkX blkY tid kidx : Nat) (s : List α) :
    (ldgsts (Policy V) A blkX blkY tid kidx s).length = s.length := by
  rw [ldgsts_eq, ldgstsX_length, ldgstsX_length]

theorem ldgstsBlock_length (V : Nat) (A : Params α) (blkX blkY kidx : Nat) (s : List α) :
    (ldgstsBlock (Policy V) A blkX blkY kidx s).length = s.length := by
  unfold ldgstsBlock
  exact foldl_length _ (fun s t => ldgsts_length V A blkX blkY t kidx s) _ _

theorem ldgstsBlock_getD_X (V : Nat) (hV : V = 1 ∨ V = 2 ∨ V = 4) (A : Params α)
    (hk : V ∣ A.k) (blkX blkY kidx r c : Nat) (hkidx : kidx % 32 = 0) (hr : r < 64)
    (hc : c < 32) (s : List α) (hs : s.length = (Policy V).SmemPage) :
    (ldgstsBlock (Policy V) A blkX blkY kidx s).getD (r * (32 + V) + c) 0 =
      padX A (blkX * 64 + r) (kidx + c) := by
  unfold ldgstsBlock
  have hN : (Policy V).Nthreads = 256 := rfl
  rw [hN]
  have hY : ∀ tid, tid < 256 → ∀ s' : List α,
      (ldgstsX (Policy V) (swapXY A) blkY tid kidx (64 * (32 + V)) s').getD
        (r * (32 + V) + c) 0 = s'.getD (r * (32 + V) + c) 0 := by
    intro tid htid s'
    apply ldgstsX_getD_keep V hV _ blkY tid kidx _ _ htid
    left
    have : r * (32 + V) ≤ 63 * (32 + V) := Nat.mul_le_mul_right _ (by omega)
    rcases hV with rfl | rfl | rfl <;> omega
  refine foldl_getD_hit _ _ _ s.length _ (fun s t => ldgsts_length V A blkX blkY t kidx s)
    ?_ ?_ s rfl
  · intro tid htid s'
    rw [ldgsts_eq, hY tid (List.mem_range.1 htid)]
    have := ldgstsX_getD_or V hV A hk blkX tid kidx 0 r c hkidx hc s'
    simpa using this
  · refine ⟨stagingThread V r c, List.mem_range.2 (stagingThread_lt V hV r c hc), ?_⟩
    intro s' hs'
    rw [ldgsts_eq, hY _ (stagingThread_lt V hV r c hc)]
    have := ldgstsX_getD_hit V hV A hk blkX kidx 0 r c hkidx hr hc s'
      (by rw [hs', hs, smemPage_eq]; omega)
    simpa using this

theorem ldgstsBlock_getD_Y (V : Nat) (hV : V = 1 ∨ V = 2 ∨ V = 4) (A : Params α)
    (hk : V ∣ A.k) (blkX blkY kidx r c : Nat) (hkidx : kidx % 32 = 0) (hr : r < 64)
    (hc : c < 32) (s : List α) (hs : s.length = (Policy V).SmemPage) :
    (ldgstsBlock (Policy V) A blkX blkY kidx s).getD (64 * (32 + V) + r * (32 + V) + c) 0 =
      padY A (blkY * 64 + r) (kidx + c) := by
  unfold ldgstsBlock
  have hN : (Policy V).Nthreads = 256 := rfl
  rw [hN]
  have hX : ∀ tid, tid < 256 → ∀ s' : List α,
      (ldgstsX (Policy V) A blkX tid kidx 0 s').getD
        (64 * (32 + V) + r * (32 + V) + c) 0 = s'.getD (64 * (32 + V) + r * (32 + V) + c) 0 := by
    intro tid htid s'
    apply ldgstsX_getD_keep V hV _ blkX tid kidx _ _ htid
    right
    omega
  have hk' : V ∣ (swapXY A).k := hk
  refine foldl_getD_hit _ _ _ s.length _ (fun s t => ldgsts_length V A blkX blkY t kidx s)
    ?_ ?_ s rfl
  · intro tid htid s'
    rw [ldgsts_eq]
    rcases ldgstsX_getD_or V hV (swapXY A) hk' blkY tid kidx (64 * (32 + V)) r c hkidx hc
      (ldgstsX (Policy V) A blkX tid kidx 0 s') with h | h
    · left; rw [h, padX_swapXY]
    · right; rw [h, hX tid (List.mem_range.1 htid)]
  · refine ⟨stagingThread V r c, List.mem_range.2 (stagingThread_lt V hV r c hc), ?_⟩
    intro s' hs'
    rw [ldgsts_eq]
    rw [ldgstsX_getD_hit V hV (swapXY A) hk' blkY kidx (64 * (32 + V)) r c hkidx hr hc _
      (by rw [ldgstsX_length, hs', hs, smemPage_eq]; omega), padX_swapXY]

theorem foldl_range_add (f : Nat → α) (n : Nat) (a0 : α) :
    (List.range n).foldl (fun a v => a + f v) a0 = a0 + ∑ v in Finset.range n, f v := by
  induction n with
  | zero => simp
  | succ n ih =>
    rw [List.range_succ, List.foldl_append, List.foldl_cons, List.foldl_nil, ih,
      Finset.sum_range_succ, add_assoc]

theorem foldl_range_fun_add (step : (Nat → Nat → α) → Nat → (Nat → Nat → α)) (i j : Nat)
    (h : Nat → α) (n : Nat) (hstep : ∀ a, ∀ t < n, step a t i j = a i j + h t)
    (a0 : Nat → Nat → α) :
    (List.range n).foldl step a0 i j = a0 i j + ∑ t in Finset.range n, h t := by
  induction n with
  | zero => simp
  | succ n ih =>
    rw [List.range_succ, List.foldl_append, List.foldl_cons, List.foldl_nil,
      hstep _ n (Nat.lt_succ_self n), ih (fun a t ht => hstep a t (Nat.lt_succ_of_lt ht)),
      Finset.sum_range_succ, add_assoc]

theorem sum_range_flatten (f : Nat → α) (n V : Nat) :
    ∑ t in Finset.range n, ∑ v in Finset.range V, f (t * V + v) =
      ∑ c in Finset.range (n * V), f c := by
  induction n with
  | zero => simp
  | succ n ih =>
    rw [Finset.sum_range_succ, ih, Nat.succ_mul, Finset.sum_range_add]

theorem sum_range_zero_tail (f : Nat → α) (k N : Nat) (hkN : k ≤ N)
    (hf : ∀ t, k ≤ t → f t = 0) :
    ∑ t in Finset.range N, f t = ∑ t in Finset.range k, f t := by
  obtain ⟨d, rfl⟩ := Nat.exists_eq_add_of_le hkN
  rw [Finset.sum_range_add]
  have : ∑ x in Finset.range d, f (k + x) = 0 :=
    Finset.sum_eq_zero (fun x _ => hf _ (Nat.le_add_right k x))
  rw [this, add_zero]

theorem kiLoop_eq (V : Nat) (hV : V = 1 ∨ V = 2 ∨ V = 4) (tid i j : Nat) (hi : i < 4)
    (hj : j < 4) (s : List α) (pX pY : Nat → α)
    (hX : ∀ c < 32, s.getD ((tid / 16 + i * 16) * (32 + V) + c) 0 = pX c)
    (hY : ∀ c < 32, s.getD (64 * (32 + V) + (tid % 16 + j * 16) * (32 + V) + c) 0 = pY c)
    (acc : Nat → Nat → α) :
    kiLoop (Policy V) tid s acc i j = acc i j + ∑ c in Finset.range 32, pX c * pY c := by
  unfold kiLoop
  rw [foldl_range_fun_add _ i j
    (fun it => ∑ v in Finset.range V, pX (it * V + v) * pY (it * V + v))]
  · rw [sum_range_flatten (fun c => pX c * pY c), ceildiv_Kblk V hV]
  · intro a it hit
    have hVec : (Policy V).Veclen = V := rfl
    have hit' : it * V < 32 ∧ (it + 1) * V ≤ 32 := by
      have := ceildiv_Kblk V hV
      rcases hV with rfl | rfl | rfl <;>
        simp only [Policy, ceildiv, Nat.reduceAdd, Nat.reduceSub, Nat.reduceDiv] at hit <;> omega
    simp only [accumulate, hVec]
    rw [if_pos ⟨hi, hj⟩, foldl_range_add]
    congr 1
    apply Finset.sum_congr rfl
    intro v hv
    have hv' : v < V := Finset.mem_range.1 hv
    have hc : it * V + v < 32 := by
      have : (it + 1) * V = it * V + V := by ring
      omega
    have e1 : sx (Policy V) + pageWr * (Policy V).SmemPage +
        accrowid (Policy V) tid * (Policy V).SmemStride + it * V +
        i * (Policy V).AccThRows * (Policy V).SmemStride + v =
        (tid / 16 + i * 16) * (32 + V) + (it * V + v) := by
      simp only [sx, pageWr, accrowid, Policy, KernelPolicy.SmemStride]
      ring
    have e2 : sy (Policy V) + pageWr * (Policy V).SmemPage +
        acccolid (Policy V) tid * (Policy V).SmemStride + it * V +
        j * (Policy V).AccThCols * (Policy V).SmemStride + v =
        64 * (32 + V) + (tid % 16 + j * 16) * (32 + V) + (it * V + v) := by
      simp only [sy, sx, pageWr, acccolid, Policy, KernelPolicy.SmemStride,
        KernelPolicy.SmemPageX, KernelPolicy.Mblk]
      ring
    simp only [ldsX, ldsY, lds]
    rw [e1, e2, hX _ hc, hY _ hc]

theorem loop_inv (V : Nat) (hV : V = 1 ∨ V = 2 ∨ V = 4) (A : Params α) (hk : V ∣ A.k)
    (blkX blkY : Nat) (s0 : List α) (hs0 : s0.length = (Policy V).SmemPage) (n : Nat) :
    ((List.range n).foldl (fun b it => loopBody (Policy V) A blkX blkY
        (it * (Policy V).Kblk) b) (prolog s0)).smem.length = (Policy V).SmemPage ∧
    ∀ tid i j, tid < 256 → i < 4 → j < 4 →
      ((List.range n).foldl (fun b it => loopBody (Policy V) A blkX blkY
        (it * (Policy V).Kblk) b) (prolog s0)).acc tid i j =
      ∑ t in Finset.range (n * 32),
        padX A (blkX * 64 + (tid / 16 + i * 16)) t * padY A (blkY * 64 + (tid % 16 + j * 16)) t := by
  induction n with
  | zero =>
    refine ⟨hs0, ?_⟩
    intro tid i j _ _ _
    simp [prolog]
  | succ n ih =>
    rw [List.range_succ, List.foldl_append, List.foldl_cons, List.foldl_nil]
    obtain ⟨ihl, iha⟩ := ih
    have hK : (Policy V).Kblk = 32 := rfl
    generalize (List.range n).foldl (fun b it => loopBody (Policy V) A blkX blkY
        (it * (Policy V).Kblk) b) (prolog s0) = b at ihl iha ⊢
    refine ⟨?_, ?_⟩
    · simp only [loopBody]; rw [ldgstsBlock_length]; exact ihl
    · intro tid i j htid hi hj
      simp only [loopBody]
      rw [kiLoop_eq V hV tid i j hi hj _
        (fun c => padX A (blkX * 64 + (tid / 16 + i * 16)) (n * 32 + c))
        (fun c => padY A (blkY * 64 + (tid % 16 + j * 16)) (n * 32 + c))]
      · rw [iha tid i j htid hi hj, Nat.succ_mul, Finset.sum_range_add]
      · intro c hc
        rw [hK]
        exact ldgstsBlock_getD_X V hV A hk blkX blkY (n * 32) (tid / 16 + i * 16) c
          (by omega) (by omega) hc _ ihl
      · intro c hc
        rw [hK]
        exact ldgstsBlock_getD_Y V hV A hk blkX blkY (n * 32) (tid % 16 + j * 16) c
          (by omega) (by omega) hc _ ihl

theorem mainLoop_length (V : Nat) (hV : V = 1 ∨ V = 2 ∨ V = 4) (A : Params α) (hk : V ∣ A.k)
    (blkX blkY : Nat) (s0 : List α) (hs0 : s0.length = (Policy V).SmemPage) :
    (mainLoop (Policy V) A blkX blkY s0).smem.length = (Policy V).SmemPage :=
  (loop_inv V hV A hk blkX blkY s0 hs0 _).1

theorem mainLoop_acc (V : Nat) (hV : V = 1 ∨ V = 2 ∨ V = 4) (A : Params α) (hk : V ∣ A.k)
    (blkX blkY : Nat) (s0 : List α) (hs0 : s0.length = (Policy V).SmemPage)
    (tid i j : Nat) (htid : tid < 256) (hi : i < 4) (hj : j < 4) :
    (mainLoop (Policy V) A blkX blkY s0).acc tid i j =
      padDot A (blkX * 64 + (tid / 16 + i * 16)) (blkY * 64 + (tid % 16 + j * 16)) := by
  have h := (loop_inv V hV A hk blkX blkY s0 hs0 (ceildiv A.k 32)).2 tid i j htid hi hj
  unfold mainLoop loop
  have hK : (Policy V).Kblk = 32 := rfl
  rw [hK] at h ⊢
  rw [h]
  unfold padDot
  apply sum_range_zero_tail _ _ _ (le_ceildiv_mul A.k)
  intro t ht
  have : padX A (blkX * 64 + (tid / 16 + i * 16)) t = 0 := by
    unfold padX
    rw [if_neg (fun h => by omega)]
  rw [this, zero_mul]

theorem stageNorms_eq {α : Type} (V : Nat) (A : Params α) (blkX blkY tid : Nat) (htid : tid < 256)
    (s : List α) :
    stageNorms (Policy V) A blkX blkY tid s =
      if tid < 64 then
        (s.set tid (padXn A (blkX * 64 + tid))).set (64 + tid) (padYn A (blkY * 64 + tid))
      else s := by
  have hM : (Policy V).Mblk = 64 := rfl
  have hN : (Policy V).Nblk = 64 := rfl
  have hT : (Policy V).Nthreads = 256 := rfl
  unfold stageNorms
  simp only [hM, hN, hT, strided_eq tid htid, syNorm, sxNorm]
  split_ifs with h
  · simp [padXn, padYn]
  · simp

theorem stageNorms_length {α : Type} (V : Nat) (A : Params α) (blkX blkY tid : Nat) (htid : tid < 256)
    (s : List α) : (stageNorms (Policy V) A blkX blkY tid s).length = s.length := by
  rw [stageNorms_eq V A blkX blkY tid htid]
  split_ifs <;> simp

theorem stageNormsBlock_getD_X (V : Nat) (A : Params α) (blkX blkY i : Nat) (hi : i < 64)
    (s : List α) (hs : 128 ≤ s.length) :
    (stageNormsBlock (Policy V) A blkX blkY s).getD i 0 = padXn A (blkX * 64 + i) := by
  unfold stageNormsBlock
  have hT : (Policy V).Nthreads = 256 := rfl
  rw [hT]
  refine foldl_getD_hit_mem _ _ _ s.length _
    (fun s t ht => stageNorms_length V A blkX blkY t (List.mem_range.1 ht) s) ?_ ?_ s rfl
  · intro tid htid s'
    rw [stageNorms_eq V A blkX blkY tid (List.mem_range.1 htid)]
    split_ifs with h
    · rw [getD_set_eq, getD_set_eq]
      rw [if_neg (by omega)]
      split_ifs with h2
      · left; rw [h2.1]
      · right; rfl
    · right; rfl
  · refine ⟨i, List.mem_range.2 (by omega), ?_⟩
    intro s' hs'
    rw [stageNorms_eq V A blkX blkY i (by omega), if_pos hi, getD_set_eq, getD_set_eq,
      if_neg (by omega), if_pos ⟨rfl, by omega⟩]

theorem stageNormsBlock_getD_Y (V : Nat) (A : Params α) (blkX blkY i : Nat) (hi : i < 64)
    (s : List α) (hs : 128 ≤ s.length) :
    (stageNormsBlock (Policy V) A blkX blkY s).getD (64 + i) 0 = padYn A (blkY * 64 + i) := by
  unfold stageNormsBlock
  have hT : (Policy V).Nthreads = 256 := rfl
  rw [hT]
  refine foldl_getD_hit_mem _ _ _ s.length _
    (fun s t ht => stageNorms_length V A blkX blkY t (List.mem_range.1 ht) s) ?_ ?_ s rfl
  · intro tid htid s'
    rw [stageNorms_eq V A blkX blkY tid (List.mem_range.1 htid)]
    split_ifs with h
    · rw [getD_set_eq, getD_set_eq]
      split_ifs with h2 h3
      · left; have : tid = i := by omega
        rw [this]
      · omega
      · right; rfl
    · right; rfl
  · refine ⟨i, List.mem_range.2 (by omega), ?_⟩
    intro s' hs'
    rw [stageNorms_eq V A blkX blkY i (by omega), if_pos hi, getD_set_eq,
      if_pos ⟨rfl, by simp; omega⟩]

theorem tileAcc_eq (V : Nat) (hV : V = 1 ∨ V = 2 ∨ V = 4) (A : Params α) (hk : V ∣ A.k)
    (blkX blkY : Nat) (s0 : List α) (hs0 : s0.length = (Policy V).SmemPage)
    (tid i j : Nat) (htid : tid < 256) (hi : i < 4) (hj : j < 4) :
    tileAcc (Policy V) A blkX blkY s0 tid i j =
      epiDist A (blkX * 64 + (tid / 16 + i * 16)) (blkY * 64 + (tid % 16 + j * 16)) := by
  have hlen := mainLoop_length V hV A hk blkX blkY s0 hs0
  have h128 : 128 ≤ (mainLoop (Policy V) A blkX blkY s0).smem.length := by
    rw [hlen, smemPage_eq]; omega
  unfold tileAcc epilogAcc
  simp only []
  rw [if_pos ⟨hi, hj⟩, mainLoop_acc V hV A hk blkX blkY s0 hs0 tid i j htid hi hj]
  have e1 : sxNorm (Policy V) + (i * (Policy V).AccThRows + accrowid (Policy V) tid) =
      tid / 16 + i * 16 := by
    simp only [sxNorm, accrowid, Policy]; omega
  have e2 : syNorm (Policy V) + (j * (Policy V).AccThCols + acccolid (Policy V) tid) =
      64 + (tid % 16 + j * 16) := by
    simp only [syNorm, sxNorm, acccolid, Policy, KernelPolicy.Mblk]; omega
  rw [e1, e2, stageNormsBlock_getD_X V A blkX blkY _ (by omega) _ h128,
    stageNormsBlock_getD_Y V A blkX blkY _ (by omega) _ h128]
  rfl

theorem sel_v_le_left (a b : KVP α) : (sel a b).v ≤ a.v := by
  unfold sel; split_ifs with h
  · exact le_of_lt h
  · exact le_refl _

theorem sel_v_le_right (a b : KVP α) : (sel a b).v ≤ b.v := by
  unfold sel; split_ifs with h
  · exact le_refl _
  · exact not_lt.1 h

theorem sel_eq_or (a b : KVP α) : sel a b = a ∨ sel a b = b := by
  unfold sel; split_ifs
  · exact Or.inr rfl
  · exact Or.inl rfl

theorem shflStep_eq (val : Nat → KVP α) (j tid : Nat) (h : tid % 32 + j < 32) :
    shflStep val j tid = sel (val tid) (val (tid + j)) := by
  have hsrc : tid / WarpSize * WarpSize + (tid % WarpSize + j) % WarpSize = tid + j := by
    unfold WarpSize; omega
  unfold shflStep shfl sel
  simp only [hsrc]

theorem shflReduce_leader (V : Nat) (val : Nat → KVP α) (tid : Nat) (h : tid % 16 = 0) :
    shflReduce (Policy V) val tid = red4 val tid := by
  have hoff : shflOffsets (Policy V).AccThCols ((Policy V).AccThCols / 2) = [8, 4, 2, 1] := by
    simp [Policy, shflOffsets]
  unfold shflReduce
  rw [hoff]
  simp only [List.foldl_cons, List.foldl_nil]
  have h1 : ∀ t, t % 32 + 8 < 32 → shflStep val 8 t = red1 val t :=
    fun t ht => shflStep_eq val 8 t ht
  have h2 : ∀ t, t % 32 + 12 < 32 → shflStep (shflStep val 8) 4 t = red2 val t := by
    intro t ht
    rw [shflStep_eq _ 4 t (by omega), h1 t (by omega), h1 (t + 4) (by omega)]; rfl
  have h3 : ∀ t, t % 32 + 14 < 32 → shflStep (shflStep (shflStep val 8) 4) 2 t = red3 val t := by
    intro t ht
    rw [shflStep_eq _ 2 t (by omega), h2 t (by omega), h2 (t + 2) (by omega)]; rfl
  rw [shflStep_eq _ 1 tid (by omega), h3 tid (by omega), h3 (tid + 1) (by omega)]; rfl

theorem red4_le (val : Nat → KVP α) (t q : Nat) (hq : q < 16) :
    (red4 val t).v ≤ (val (t + q)).v := by
  have l1 : ∀ t, (red1 val t).v ≤ (val t).v ∧ (red1 val t).v ≤ (val (t + 8)).v :=
    fun t => ⟨sel_v_le_left _ _, sel_v_le_right _ _⟩
  have l2 : ∀ t, (red2 val t).v ≤ (red1 val t).v ∧ (red2 val t).v ≤ (red1 val (t + 4)).v :=
    fun t => ⟨sel_v_le_left _ _, sel_v_le_right _ _⟩
  have l3 : ∀ t, (red3 val t).v ≤ (red2 val t).v ∧ (red3 val t).v ≤ (red2 val (t + 2)).v :=
    fun t => ⟨sel_v_le_left _ _, sel_v_le_right _ _⟩
  have l4 : ∀ t, (red4 val t).v ≤ (red3 val t).v ∧ (red4 val t).v ≤ (red3 val (t + 1)).v :=
    fun t => ⟨sel_v_le_left _ _, sel_v_le_right _ _⟩
  -- the lane `t + q` is reached through the bits of `q`, lowest bit first
  have b1 : (red4 val t).v ≤ (red3 val (t + q % 2)).v := by
    rcases Nat.mod_two_eq_zero_or_one q with h | h <;> rw [h]
    · exact (l4 t).1
    · exact (l4 t).2
  have b2 : (red3 val (t + q % 2)).v ≤ (red2 val (t + q % 4)).v := by
    have : q % 4 = q % 2 ∨ q % 4 = q % 2 + 2 := by omega
    rcases this with h | h <;> rw [h]
    · exact (l3 _).1
    · exact (l3 _).2
  have b3 : (red2 val (t + q % 4)).v ≤ (red1 val (t + q % 8)).v := by
    have : q % 8 = q % 4 ∨ q % 8 = q % 4 + 4 := by omega
    rcases this with h | h <;> rw [h]
    · exact (l2 _).1
    · exact (l2 _).2
  have b4 : (red1 val (t + q % 8)).v ≤ (val (t + q)).v := by
    have : q = q % 8 ∨ q = q % 8 + 8 := by omega
    rcases this with h | h
    · rw [← h]; exact (l1 _).1
    · have h' : t + q = t + q % 8 + 8 := by omega
      rw [h']; exact (l1 _).2
  exact le_trans b1 (le_trans b2 (le_trans b3 b4))

theorem red4_mem (val : Nat → KVP α) (t : Nat) : ∃ q, q < 16 ∧ red4 val t = val (t + q) := by
  have m1 : ∀ t, ∃ q, q < 16 ∧ q % 8 = 0 ∧ red1 val t = val (t + q) := by
    intro t
    rcases sel_eq_or (val t) (val (t + 8)) with h | h
    · exact ⟨0, by omega, by omega, h⟩
    · exact ⟨8, by omega, by omega, h⟩
  have m2 : ∀ t, ∃ q, q < 16 ∧ q % 4 = 0 ∧ red2 val t = val (t + q) := by
    intro t
    rcases sel_eq_or (red1 val t) (red1 val (t + 4)) with h | h
    · obtain ⟨q, h1, h2, h3⟩ := m1 t
      exact ⟨q, h1, by omega, h.trans h3⟩
    · obtain ⟨q, h1, h2, h3⟩ := m1 (t + 4)
      exact ⟨4 + q, by omega, by omega, h.trans (by rw [h3, Nat.add_assoc])⟩
  have m3 : ∀ t, ∃ q, q < 16 ∧ q % 2 = 0 ∧ red3 val t = val (t + q) := by
    intro t
    rcases sel_eq_or (red2 val t) (red2 val (t + 2)) with h | h
    · obtain ⟨q, h1, h2, h3⟩ := m2 t
      exact ⟨q, h1, by omega, h.trans h3⟩
    · obtain ⟨q, h1, h2, h3⟩ := m2 (t + 2)
      exact ⟨2 + q, by omega, by omega, h.trans (by rw [h3, Nat.add_assoc])⟩
  rcases sel_eq_or (red3 val t) (red3 val (t + 1)) with h | h
  · obtain ⟨q, h1, h2, h3⟩ := m3 t
    exact ⟨q, h1, h.trans h3⟩
  · obtain ⟨q, h1, h2, h3⟩ := m3 (t + 1)
    exact ⟨1 + q, by omega, h.trans (by rw [h3, Nat.add_assoc])⟩

theorem scanCols_inv (P : KernelPolicy) (n blkY tid : Nat) (M : α) (acc : Nat → Nat → α)
    (i J : Nat) :
    ((List.range J).foldl (fun (val : KVP α) j =>
      if acccolid P tid + j * P.AccThCols + blkY * P.Nblk < n ∧ acc i j < val.v then
        (⟨((acccolid P tid + j * P.AccThCols + blkY * P.Nblk : Nat) : Int), acc i j⟩ : KVP α)
      else val) ⟨-1, M⟩).v ≤ M ∧
    (∀ j, j < J → acccolid P tid + j * P.AccThCols + blkY * P.Nblk < n →
      ((List.range J).foldl (fun (val : KVP α) j =>
      if acccolid P tid + j * P.AccThCols + blkY * P.Nblk < n ∧ acc i j < val.v then
        (⟨((acccolid P tid + j * P.AccThCols + blkY * P.Nblk : Nat) : Int), acc i j⟩ : KVP α)
      else val) ⟨-1, M⟩).v ≤ acc i j) ∧
    ((((List.range J).foldl (fun (val : KVP α) j =>
      if acccolid P tid + j * P.AccThCols + blkY * P.Nblk < n ∧ acc i j < val.v then
        (⟨((acccolid P tid + j * P.AccThCols + blkY * P.Nblk : Nat) : Int), acc i j⟩ : KVP α)
      else val) ⟨-1, M⟩).k = -1 ∧
      ((List.range J).foldl (fun (val : KVP α) j =>
      if acccolid P tid + j * P.AccThCols + blkY * P.Nblk < n ∧ acc i j < val.v then
        (⟨((acccolid P tid + j * P.AccThCols + blkY * P.Nblk : Nat) : Int), acc i j⟩ : KVP α)
      else val) ⟨-1, M⟩).v = M) ∨
     ∃ j, j < J ∧ acccolid P tid + j * P.AccThCols + blkY * P.Nblk < n ∧
      ((List.range J).foldl (fun (val : KVP α) j =>
      if acccolid P tid + j * P.AccThCols + blkY * P.Nblk < n ∧ acc i j < val.v then
        (⟨((acccolid P tid + j * P.AccThCols + blkY * P.Nblk : Nat) : Int), acc i j⟩ : KVP α)
      else val) ⟨-1, M⟩).k = ((acccolid P tid + j * P.AccThCols + blkY * P.Nblk : Nat) : Int) ∧
      ((List.range J).foldl (fun (val : KVP α) j =>
      if acccolid P tid + j * P.AccThCols + blkY * P.Nblk < n ∧ acc i j < val.v then
        (⟨((acccolid P tid + j * P.AccThCols + blkY * P.Nblk : Nat) : Int), acc i j⟩ : KVP α)
      else val) ⟨-1, M⟩).v = acc i j ∧ acc i j < M) := by
  induction J with
  | zero =>
    refine ⟨le_refl _, ?_, Or.inl ⟨rfl, rfl⟩⟩
    intro j hj; omega
  | succ J ih =>
    rw [List.range_succ, List.foldl_append, List.foldl_cons, List.foldl_nil]
    generalize (List.range J).foldl (fun (val : KVP α) j =>
      if acccolid P tid + j * P.AccThCols + blkY * P.Nblk < n ∧ acc i j < val.v then
        (⟨((acccolid P tid + j * P.AccThCols + blkY * P.Nblk : Nat) : Int), acc i j⟩ : KVP α)
      else val) ⟨-1, M⟩ = val at ih ⊢
    obtain ⟨ih1, ih2, ih3⟩ := ih
    split_ifs with h
    · obtain ⟨hn, hlt⟩ := h
      refine ⟨le_trans (le_of_lt hlt) ih1, ?_, ?_⟩
      · intro j hj hc
        rcases Nat.lt_succ_iff_lt_or_eq.1 hj with h1 | h1
        · exact le_trans (le_of_lt hlt) (ih2 j h1 hc)
        · rw [h1]
      · right
        exact ⟨J, Nat.lt_succ_self J, hn, rfl, rfl, lt_of_lt_of_le hlt ih1⟩
    · refine ⟨ih1, ?_, ?_⟩
      · intro j hj hc
        rcases Nat.lt_succ_iff_lt_or_eq.1 hj with h1 | h1
        · exact ih2 j h1 hc
        · rw [h1]
          rw [h1] at hc
          exact not_lt.1 (fun hlt => h ⟨hc, hlt⟩)
      · rcases ih3 with h3 | ⟨j, hj, h3⟩
        · exact Or.inl h3
        · exact Or.inr ⟨j, Nat.lt_succ_of_lt hj, h3⟩

theorem scanCols_spec (V n blkY tid : Nat) (M : α) (acc : Nat → Nat → α) (i : Nat) :
    (scanCols (Policy V) n blkY tid M acc i).v ≤ M ∧
    (∀ j, j < 4 → blkY * 64 + (tid % 16 + j * 16) < n →
      (scanCols (Policy V) n blkY tid M acc i).v ≤ acc i j) ∧
    (((scanCols (Policy V) n blkY tid M acc i).k = -1 ∧
        (scanCols (Policy V) n blkY tid M acc i).v = M) ∨
      ∃ j, j < 4 ∧ blkY * 64 + (tid % 16 + j * 16) < n ∧
        (scanCols (Policy V) n blkY tid M acc i).k = ((blkY * 64 + (tid % 16 + j * 16) : Nat) : Int) ∧
        (scanCols (Policy V) n blkY tid M acc i).v = acc i j ∧ acc i j < M) := by
  have hcol : ∀ j, acccolid (Policy V) tid + j * (Policy V).AccThCols +
      blkY * (Policy V).Nblk = blkY * 64 + (tid % 16 + j * 16) := by
    intro j
    simp only [acccolid, Policy, KernelPolicy.Nblk]; omega
  have hJ : (Policy V).AccColsPerTh = 4 := rfl
  have inv := scanCols_inv (Policy V) n blkY tid M acc i 4
  unfold scanCols
  rw [hJ]
  simp only [hcol] at inv ⊢
  exact inv

theorem reduce_leader (V n blkY : Nat) (M : α) (acc : Nat → Nat → Nat → α) (tid i : Nat)
    (hl : tid % 16 = 0) :
    (shflReduce (Policy V) (fun t => scanCols (Policy V) n blkY t M (acc t) i) tid).v ≤ M ∧
    (∀ q j, q < 16 → j < 4 → blkY * 64 + (q + j * 16) < n →
      (shflReduce (Policy V) (fun t => scanCols (Policy V) n blkY t M (acc t) i) tid).v ≤
        acc (tid + q) i j) ∧
    (((shflReduce (Policy V) (fun t => scanCols (Policy V) n blkY t M (acc t) i) tid).k = -1 ∧
        (shflReduce (Policy V) (fun t => scanCols (Policy V) n blkY t M (acc t) i) tid).v = M) ∨
      ∃ q j, q < 16 ∧ j < 4 ∧ blkY * 64 + (q + j * 16) < n ∧
        (shflReduce (Policy V) (fun t => scanCols (Policy V) n blkY t M (acc t) i) tid).k =
          ((blkY * 64 + (q + j * 16) : Nat) : Int) ∧
        (shflReduce (Policy V) (fun t => scanCols (Policy V) n blkY t M (acc t) i) tid).v =
          acc (tid + q) i j ∧ acc (tid + q) i j < M) := by
  rw [shflReduce_leader V _ tid hl]
  have hq : ∀ q, q < 16 → (tid + q) % 16 = q := fun q hq => by omega
  refine ⟨?_, ?_, ?_⟩
  · exact le_trans (red4_le _ tid 0 (by omega)) (scanCols_spec V n blkY _ M _ i).1
  · intro q j hq' hj hc
    have := (scanCols_spec V n blkY (tid + q) M (acc (tid + q)) i).2.1 j hj
      (by rw [hq q hq']; exact hc)
    exact le_trans (red4_le _ tid q hq') this
  · obtain ⟨q, hq', hmem⟩ := red4_mem (fun t => scanCols (Policy V) n blkY t M (acc t) i) tid
    rw [hmem]
    rcases (scanCols_spec V n blkY (tid + q) M (acc (tid + q)) i).2.2 with
      h3 | ⟨j, hj, hc, h4, h5, h6⟩
    · exact Or.inl h3
    · rw [hq q hq'] at hc h4
      exact Or.inr ⟨q, j, hq', hj, hc, h4, h5, h6⟩

theorem tileVal_leader (V : Nat) (hV : V = 1 ∨ V = 2 ∨ V = 4) (A : Params α) (hk : V ∣ A.k)
    (blkX blkY : Nat) (s0 : List α) (hs0 : s0.length = (Policy V).SmemPage)
    (tid i : Nat) (htid : tid < 256) (hl : tid % 16 = 0) (hi : i < 4) :
    (tileVal (Policy V) A blkX blkY s0 i tid).v ≤ A.maxVal ∧
    (∀ c, blkY * 64 ≤ c → c < blkY * 64 + 64 → c < A.n →
      (tileVal (Policy V) A blkX blkY s0 i tid).v ≤
        epiDist A (blkX * 64 + (tid / 16 + i * 16)) c) ∧
    (((tileVal (Policy V) A blkX blkY s0 i tid).k = -1 ∧
        (tileVal (Policy V) A blkX blkY s0 i tid).v = A.maxVal) ∨
      ∃ c : Nat, blkY * 64 ≤ c ∧ c < blkY * 64 + 64 ∧ c < A.n ∧
        (tileVal (Policy V) A blkX blkY s0 i tid).k = (c : Int) ∧
        (tileVal (Policy V) A blkX blkY s0 i tid).v =
          epiDist A (blkX * 64 + (tid / 16 + i * 16)) c ∧
        epiDist A (blkX * 64 + (tid / 16 + i * 16)) c < A.maxVal) := by
  have hacc : ∀ q j, q < 16 → j < 4 → tileAcc (Policy V) A blkX blkY s0 (tid + q) i j =
      epiDist A (blkX * 64 + (tid / 16 + i * 16)) (blkY * 64 + (q + j * 16)) := by
    intro q j hq hj
    rw [tileAcc_eq V hV A hk blkX blkY s0 hs0 (tid + q) i j (by omega) hi hj]
    have e1 : (tid + q) / 16 = tid / 16 := by omega
    have e2 : (tid + q) % 16 = q := by omega
    rw [e1, e2]
  obtain ⟨h1, h2, h3⟩ := reduce_leader V A.n blkY A.maxVal (tileAcc (Policy V) A blkX blkY s0)
    tid i hl
  refine ⟨h1, ?_, ?_⟩
  · intro c c1 c2 c3
    have hq : (c - blkY * 64) % 16 < 16 := Nat.mod_lt _ (by omega)
    have hj : (c - blkY * 64) / 16 < 4 := by omega
    have hc : blkY * 64 + ((c - blkY * 64) % 16 + (c - blkY * 64) / 16 * 16) = c := by omega
    have := h2 _ _ hq hj (by rw [hc]; exact c3)
    rw [hacc _ _ hq hj, hc] at this
    exact this
  · rcases h3 with h | ⟨q, j, hq, hj, hc, h4, h5, h6⟩
    · exact Or.inl h
    · rw [hacc q j hq hj] at h5 h6
      exact Or.inr ⟨blkY * 64 + (q + j * 16), by omega, by omega, hc, h4, h5, h6⟩

theorem scanCols_congr (V n blkY tid : Nat) (M : α) (acc acc' : Nat → Nat → α) (i : Nat)
    (h : ∀ j, j < 4 → acc i j = acc' i j) :
    scanCols (Policy V) n blkY tid M acc i = scanCols (Policy V) n blkY tid M acc' i := by
  unfold scanCols
  have hJ : (Policy V).AccColsPerTh = 4 := rfl
  rw [hJ]
  have hr : List.range 4 = [0, 1, 2, 3] := rfl
  simp only [hr, List.foldl_cons, List.foldl_nil, h 0 (by omega), h 1 (by omega),
    h 2 (by omega), h 3 (by omega)]

theorem red4_congr (val val' : Nat → KVP α) (t : Nat)
    (h : ∀ q, q < 16 → val (t + q) = val' (t + q)) : red4 val t = red4 val' t := by
  have h0 := h 0 (by omega)
  simp only [Nat.add_zero] at h0
  simp only [red4, red3, red2, red1, Nat.add_assoc, Nat.reduceAdd, h0, h 1 (by omega),
    h 2 (by omega), h 3 (by omega), h 4 (by omega), h 5 (by omega), h 6 (by omega),
    h 7 (by omega), h 8 (by omega), h 9 (by omega), h 10 (by omega), h 11 (by omega),
    h 12 (by omega), h 13 (by omega), h 14 (by omega), h 15 (by omega)]

theorem tileVal_leader_eq (V : Nat) (hV : V = 1 ∨ V = 2 ∨ V = 4) (A : Params α) (hk : V ∣ A.k)
    (blkX blkY : Nat) (s0 : List α) (hs0 : s0.length = (Policy V).SmemPage)
    (tid i : Nat) (htid : tid < 256) (hl : tid % 16 = 0) (hi : i < 4) :
    tileVal (Policy V) A blkX blkY s0 i tid =
      red4 (fun t => scanCols (Policy V) A.n blkY t A.maxVal
        (fun i j => epiDist A (blkX * 64 + (t / 16 + i * 16)) (blkY * 64 + (t % 16 + j * 16))) i)
        tid := by
  unfold tileVal
  rw [shflReduce_leader V _ tid hl]
  apply red4_congr
  intro q hq
  apply scanCols_congr
  intro j hj
  exact tileAcc_eq V hV A hk blkX blkY s0 hs0 (tid + q) i j (by omega) hi hj

theorem mem_threadMerges (P : KernelPolicy) (A : Params α) (blkX blkY : Nat) (s : List α)
    (tid : Nat) (e : Merge α) :
    e ∈ threadMerges P A blkX blkY s tid ↔
      (tid % WarpSize) % P.AccThCols = 0 ∧ ∃ i, i < P.AccRowsPerTh ∧
        blkX * P.Mblk + accrowid P tid + i * P.AccThRows < A.m ∧
        e = ⟨blkX * P.Mblk + accrowid P tid + i * P.AccThRows, tileVal P A blkX blkY s i tid⟩ := by
  unfold threadMerges
  simp only []
  split_ifs with h
  · simp only [List.mem_filterMap, List.mem_range, h, true_and]
    constructor
    · rintro ⟨i, hi, hx⟩
      split_ifs at hx with h2
      · exact ⟨i, hi, h2, (Option.some.inj hx).symm⟩
    · rintro ⟨i, hi, h2, rfl⟩
      exact ⟨i, hi, by rw [if_pos h2]⟩
  · simp [h]

theorem mem_gridMerges (P : KernelPolicy) (A : Params α) (s : Nat → Nat → Nat → α)
    (gridX gridY : Nat) (e : Merge α) :
    e ∈ gridMerges P A s gridX gridY ↔
      ∃ blkX, blkX < gridX ∧ ∃ blkY, blkY < gridY ∧ ∃ tid, tid < P.Nthreads ∧
        (tid % WarpSize) % P.AccThCols = 0 ∧ ∃ i, i < P.AccRowsPerTh ∧
        blkX * P.Mblk + accrowid P tid + i * P.AccThRows < A.m ∧
        e = ⟨blkX * P.Mblk + accrowid P tid + i * P.AccThRows,
          tileVal P A blkX blkY (smemInit P (s blkX blkY)) i tid⟩ := by
  unfold gridMerges blockMerges
  simp only [List.mem_flatMap, List.mem_range, mem_threadMerges]

theorem mergeStep_eq (e : Merge α) (o : Out α) (h : o.mutex e.rid = 0) :
    mergeStep e o = some
      { min := if e.val.v < o.minDist e.rid then Function.update o.min e.rid e.val.k
          else o.min,
        minDist := if e.val.v < o.minDist e.rid then Function.update o.minDist e.rid e.val.v
          else o.minDist,
        mutex := o.mutex } := by
  unfold mergeStep
  have h1 : ¬ o.mutex e.rid = 1 := by rw [h]; decide
  rw [if_neg h1]
  simp only [h, if_true, Function.update_same]
  congr 2
  funext j
  by_cases hj : j = e.rid
  · subst hj; simp [h]
  · simp [Function.update_noteq hj]

theorem runMerges_spec (es : List (Merge α)) (o : Out α)
    (hm : ∀ e ∈ es, o.mutex e.rid = 0) :
    ∃ o', runMerges es o = some o' ∧ o'.mutex = o.mutex ∧
      (∀ i, o'.minDist i ≤ o.minDist i) ∧
      (∀ e ∈ es, o'.minDist e.rid ≤ e.val.v) ∧
      (∀ i, (o'.min i = o.min i ∧ o'.minDist i = o.minDist i) ∨
        ∃ e ∈ es, e.rid = i ∧ o'.min i = e.val.k ∧ o'.minDist i = e.val.v) := by
  induction es generalizing o with
  | nil =>
    exact ⟨o, rfl, rfl, fun _ => le_refl _, fun e he => by simp at he,
      fun i => Or.inl ⟨rfl, rfl⟩⟩
  | cons e es ih =>
    have he := hm e (List.mem_cons_self _ _)
    obtain ⟨o', h1, h2, h3, h4, h5⟩ := ih
      { min := if e.val.v < o.minDist e.rid then Function.update o.min e.rid e.val.k
          else o.min,
        minDist := if e.val.v < o.minDist e.rid then Function.update o.minDist e.rid e.val.v
          else o.minDist,
        mutex := o.mutex } (fun e' he' => hm e' (List.mem_cons_of_mem _ he'))
    have hstep : ∀ i, (if e.val.v < o.minDist e.rid then Function.update o.minDist e.rid e.val.v
        else o.minDist) i ≤ o.minDist i := by
      intro i
      split_ifs with hlt
      · by_cases hi : i = e.rid
        · subst hi; rw [Function.update_same]; exact le_of_lt hlt
        · rw [Function.update_noteq hi]
      · exact le_refl _
    have hstep2 : (if e.val.v < o.minDist e.rid then Function.update o.minDist e.rid e.val.v
        else o.minDist) e.rid ≤ e.val.v := by
      split_ifs with hlt
      · rw [Function.update_same]
      · exact not_lt.1 hlt
    refine ⟨o', ?_, h2, ?_, ?_, ?_⟩
    · show (mergeStep e o).bind (runMerges es) = some o'
      rw [mergeStep_eq e o he]; exact h1
    · intro i; exact le_trans (h3 i) (hstep i)
    · intro e' he'
      rcases List.mem_cons.1 he' with h | h
      · subst h; exact le_trans (h3 _) hstep2
      · exact h4 e' h
    · intro i
      rcases h5 i with ⟨h6, h7⟩ | ⟨e', he', h6⟩
      · by_cases hlt : e.val.v < o.minDist e.rid
        · simp only [hlt, if_true] at h6 h7
          by_cases hi : i = e.rid
          · right
            refine ⟨e, List.mem_cons_self _ _, hi.symm, ?_, ?_⟩
            · rw [h6, hi, Function.update_same]
            · rw [h7, hi, Function.update_same]
          · left
            rw [Function.update_noteq hi] at h6 h7
            exact ⟨h6, h7⟩
        · simp only [hlt, if_false] at h6 h7
          exact Or.inl ⟨h6, h7⟩
      · exact Or.inr ⟨e', List.mem_cons_of_mem _ he', h6⟩

theorem initKernel_spec {α : Type} (m : Nat) (M : α) (nblks blockDim : Nat) (o : Out α) :
    (initKernel m M nblks blockDim o).mutex = o.mutex ∧
    ∀ i, (initKernel m M nblks blockDim o).min i =
        (if i < m ∧ i < nblks * blockDim then -1 else o.min i) ∧
      (initKernel m M nblks blockDim o).minDist i =
        (if i < m ∧ i < nblks * blockDim then M else o.minDist i) := by
  unfold initKernel
  generalize nblks * blockDim = N
  induction N with
  | zero => simp
  | succ N ih =>
    rw [List.range_succ, List.foldl_append, List.foldl_cons, List.foldl_nil]
    generalize (List.range N).foldl (fun (o : Out α) tid =>
      if tid < m then
        { o with min := Function.update o.min tid (-1),
                 minDist := Function.update o.minDist tid M }
      else o) o = o1 at ih ⊢
    obtain ⟨ih1, ih2⟩ := ih
    split_ifs with h
    · refine ⟨ih1, ?_⟩
      intro i
      by_cases hi : i = N
      · subst hi
        simp [h]
      · simp only [Function.update_noteq hi, ih2 i]
        have : (i < m ∧ i < N + 1) ↔ (i < m ∧ i < N) := by omega
        simp only [this, and_self]
    · refine ⟨ih1, ?_⟩
      intro i
      have : (i < m ∧ i < N + 1) ↔ (i < m ∧ i < N) := by omega
      simp only [this]
      exact ih2 i

end Phases

/-! ## The whole run -/

section Run

variable {α : Type} [LinearOrderedCommRing α]

theorem smemInit_length {α : Type} (P : KernelPolicy) (s : Nat → α) :
    (smemInit P s).length = P.SmemPage := by
  simp [smemInit]

theorem gridMerges_rid_lt (P : KernelPolicy) (A : Params α) (s : Nat → Nat → Nat → α)
    (gridX gridY : Nat) (e : Merge α) (he : e ∈ gridMerges P A s gridX gridY) : e.rid < A.m := by
  obtain ⟨blkX, _, blkY, _, tid, _, _, i, _, hrid, rfl⟩ := (mem_gridMerges P A s gridX gridY e).1 he
  exact hrid

theorem gridMerges_leader (V : Nat) (hV : V = 1 ∨ V = 2 ∨ V = 4) (A : Params α) (hk : V ∣ A.k)
    (s : Nat → Nat → Nat → α) (gridX gridY : Nat) (e : Merge α)
    (he : e ∈ gridMerges (Policy V) A s gridX gridY) :
    e.rid < A.m ∧ e.val.v ≤ A.maxVal ∧
    ((e.val.k = -1 ∧ e.val.v = A.maxVal) ∨
      ∃ c : Nat, c < A.n ∧ e.val.k = (c : Int) ∧ e.val.v = epiDist A e.rid c ∧
        epiDist A e.rid c < A.maxVal) := by
  obtain ⟨blkX, _, blkY, _, tid, htid, hl, i, hi, hrid, rfl⟩ :=
    (mem_gridMerges (Policy V) A s gridX gridY e).1 he
  have hl' : tid % 16 = 0 := by
    have : (tid % 32) % 16 = 0 := hl
    omega
  obtain ⟨h1, _, h3⟩ := tileVal_leader V hV A hk blkX blkY (smemInit (Policy V) (s blkX blkY))
    (smemInit_length _ _) tid i htid hl' hi
  have hr : blkX * (Policy V).Mblk + accrowid (Policy V) tid + i * (Policy V).AccThRows =
      blkX * 64 + (tid / 16 + i * 16) := by
    simp only [Policy, KernelPolicy.Mblk, accrowid]; omega
  simp only [hr] at hrid ⊢
  refine ⟨hrid, h1, ?_⟩
  rcases h3 with h | ⟨c, _, _, hc, h4, h5, h6⟩
  · exact Or.inl h
  · exact Or.inr ⟨c, hc, h4, h5, h6⟩

theorem gridMerges_cover (V : Nat) (hV : V = 1 ∨ V = 2 ∨ V = 4) (A : Params α) (hk : V ∣ A.k)
    (s : Nat → Nat → Nat → α) (i c : Nat) (hi : i < A.m) (hc : c < A.n) :
    ∃ e ∈ gridMerges (Policy V) A s (ceildiv A.m (Policy V).Mblk) (ceildiv A.n (Policy V).Nblk),
      e.rid = i ∧ e.val.v ≤ epiDist A i c := by
  have hM : (Policy V).Mblk = 64 := rfl
  have hN : (Policy V).Nblk = 64 := rfl
  have hr : (i / 64) * (Policy V).Mblk + accrowid (Policy V) (i % 16 * 16) +
      (i % 64 / 16) * (Policy V).AccThRows = i := by
    simp only [Policy, KernelPolicy.Mblk, accrowid]; omega
  refine ⟨⟨i, tileVal (Policy V) A (i / 64) (c / 64) (smemInit (Policy V) (s (i / 64) (c / 64)))
    (i % 64 / 16) (i % 16 * 16)⟩, ?_, rfl, ?_⟩
  · rw [mem_gridMerges]
    refine ⟨i / 64, ?_, c / 64, ?_, i % 16 * 16, ?_, ?_, i % 64 / 16, ?_, ?_, ?_⟩
    · rw [hM]; unfold ceildiv; omega
    · rw [hN]; unfold ceildiv; omega
    · show i % 16 * 16 < 16 * 16; omega
    · show (i % 16 * 16) % 32 % 16 = 0; omega
    · show i % 64 / 16 < 4; omega
    · rw [hr]; exact hi
    · rw [hr]
  · obtain ⟨_, h2, _⟩ := tileVal_leader V hV A hk (i / 64) (c / 64)
      (smemInit (Policy V) (s (i / 64) (c / 64))) (smemInit_length _ _) (i % 16 * 16)
      (i % 64 / 16) (by omega) (by omega) (by omega)
    have hrow : i / 64 * 64 + (i % 16 * 16 / 16 + i % 64 / 16 * 16) = i := by omega
    rw [hrow] at h2
    exact h2 c (by omega) (by omega) hc

theorem kernel_run (P : KernelPolicy) (A : Params α) (s : Nat → Nat → Nat → α)
    (sched : List (Merge α) → List (Merge α)) (hsched : ∀ l, (sched l).Perm l)
    (gridX gridY : Nat) (o : Out α) (hmutex : ∀ i, i < A.m → o.mutex i = 0) :
    ∃ o', fusedL2NNkernel P A s sched gridX gridY o = some o' ∧ o'.mutex = o.mutex ∧
      (∀ i, o'.minDist i ≤ o.minDist i) ∧
      (∀ e ∈ gridMerges P A s gridX gridY, o'.minDist e.rid ≤ e.val.v) ∧
      (∀ i, (o'.min i = o.min i ∧ o'.minDist i = o.minDist i) ∨
        ∃ e ∈ gridMerges P A s gridX gridY, e.rid = i ∧ o'.min i = e.val.k ∧
          o'.minDist i = e.val.v) := by
  have hmem : ∀ e, e ∈ sched (gridMerges P A s gridX gridY) ↔ e ∈ gridMerges P A s gridX gridY :=
    fun e => (hsched _).mem_iff
  obtain ⟨o', h1, h2, h3, h4, h5⟩ := runMerges_spec (sched (gridMerges P A s gridX gridY)) o
    (fun e he => hmutex _ (gridMerges_rid_lt P A s gridX gridY e ((hmem e).1 he)))
  refine ⟨o', h1, h2, h3, fun e he => h4 e ((hmem e).2 he), ?_⟩
  intro i
  rcases h5 i with h | ⟨e, he, h⟩
  · exact Or.inl h
  · exact Or.inr ⟨e, (hmem e).1 he, h⟩

theorem ceildiv_eq_zero (a b : Nat) (hb : 0 < b) : ceildiv a b = 0 ↔ a = 0 := by
  unfold ceildiv
  constructor
  · intro h
    by_contra ha
    have : b ≤ a + b - 1 := by omega
    have := Nat.div_pos this hb
    omega
  · intro h; subst h
    exact Nat.div_eq_of_lt (by omega)

theorem le_ceildiv_mul_gen (a b : Nat) (hb : 0 < b) : a ≤ ceildiv a b * b := by
  unfold ceildiv
  have h1 := Nat.div_add_mod (a + b - 1) b
  have h2 := Nat.mod_lt (a + b - 1) hb
  have h3 : b * ((a + b - 1) / b) = (a + b - 1) / b * b := Nat.mul_comm _ _
  omega

theorem initOut_spec {α : Type} (A : Params α) (o : Out α) :
    (∀ i, i < A.m → (initOut A o).min i = -1 ∧ (initOut A o).minDist i = A.maxVal ∧
      (initOut A o).mutex i = 0) ∧
    (∀ i, A.m ≤ i → (initOut A o).min i = o.min i ∧ (initOut A o).minDist i = o.minDist i ∧
      (initOut A o).mutex i = o.mutex i) := by
  obtain ⟨h1, h2⟩ := initKernel_spec A.m A.maxVal (ceildiv A.m 256) 256 (memsetWorkspace A.m o)
  have hle := le_ceildiv_mul_gen A.m 256 (by omega)
  constructor
  · intro i hi
    have hc : i < A.m ∧ i < ceildiv A.m 256 * 256 := ⟨hi, by omega⟩
    refine ⟨?_, ?_, ?_⟩
    · unfold initOut; rw [(h2 i).1, if_pos hc]
    · unfold initOut; rw [(h2 i).2, if_pos hc]
    · unfold initOut; rw [h1]; simp [memsetWorkspace, hi]
  · intro i hi
    have hc : ¬ (i < A.m ∧ i < ceildiv A.m 256 * 256) := by omega
    refine ⟨?_, ?_, ?_⟩
    · unfold initOut; rw [(h2 i).1, if_neg hc]; rfl
    · unfold initOut; rw [(h2 i).2, if_neg hc]; rfl
    · unfold initOut; rw [h1]
      have : ¬ i < A.m := by omega
      simp [memsetWorkspace, this]

theorem fusedL2NNImpl_cases (V : Nat) (A : Params α) (s : Nat → Nat → Nat → α)
    (sched : List (Merge α) → List (Merge α)) (o : Out α) :
    fusedL2NNImpl V A s sched o =
      if A.m = 0 then
        some ⟨memsetWorkspace A.m o, [⟨ceildiv A.m 256, 1, 256⟩],
          cudaError_t.cudaErrorInvalidConfiguration⟩
      else if A.n = 0 then
        some ⟨initOut A o, [⟨ceildiv A.m 256, 1, 256⟩, ⟨ceildiv A.m 64, ceildiv A.n 64, 256⟩],
          cudaError_t.cudaErrorInvalidConfiguration⟩
      else
        (fusedL2NNkernel (Policy V) A s sched (ceildiv A.m 64) (ceildiv A.n 64)
          (initOut A o)).map
          (fun o3 => ⟨o3, [⟨ceildiv A.m 256, 1, 256⟩, ⟨ceildiv A.m 64, ceildiv A.n 64, 256⟩],
            cudaError_t.cudaSuccess⟩) := by
  have hM : (Policy V).Mblk = 64 := rfl
  have hN : (Policy V).Nblk = 64 := rfl
  have hT : (Policy V).Nthreads = 256 := rfl
  unfold fusedL2NNImpl initOut CUDA_CHECK
  simp only [hM, hN, hT, Launch.status]
  have z1 := ceildiv_eq_zero A.m 256 (by omega)
  have z2 := ceildiv_eq_zero A.m 64 (by omega)
  have z3 := ceildiv_eq_zero A.n 64 (by omega)
  by_cases hm : A.m = 0
  · have h1 : ceildiv A.m 256 = 0 := z1.2 hm
    rw [if_pos hm]
    simp [h1]
  · have h1 : ceildiv A.m 256 ≠ 0 := fun h => hm (z1.1 h)
    have h2 : ceildiv A.m 64 ≠ 0 := fun h => hm (z2.1 h)
    by_cases hn : A.n = 0
    · have h3 : ceildiv A.n 64 = 0 := z3.2 hn
      rw [if_neg hm, if_pos hn]
      simp [h1, h2, h3]
    · have h3 : ceildiv A.n 64 ≠ 0 := fun h => hn (z3.1 h)
      rw [if_neg hm, if_neg hn]
      simp [h1, h2, h3]

theorem chooseVeclen_mem (k : Nat) :
    chooseVeclen k = 1 ∨ chooseVeclen k = 2 ∨ chooseVeclen k = 4 := by
  unfold chooseVeclen; split_ifs <;> simp

theorem chooseVeclen_dvd (k : Nat) : chooseVeclen k ∣ k := by
  unfold chooseVeclen
  split_ifs with h1 h2
  · exact Nat.dvd_of_mod_eq_zero h1
  · exact Nat.dvd_of_mod_eq_zero h2
  · exact one_dvd k

theorem fusedL2NN_eq (A : Params α) (s : Nat → Nat → Nat → α)
    (sched : List (Merge α) → List (Merge α)) (o : Out α) :
    fusedL2NN A s sched o = fusedL2NNImpl (chooseVeclen A.k) A s sched o := by
  unfold fusedL2NN chooseVeclen
  split_ifs <;> rfl

theorem fusedL2NNImpl_spec (V : Nat) (hV : V = 1 ∨ V = 2 ∨ V = 4) (A : Params α)
    (hk : V ∣ A.k) (s : Nat → Nat → Nat → α) (sched : List (Merge α) → List (Merge α))
    (hsched : ∀ l, (sched l).Perm l) (o : Out α) :
    ∃ r, fusedL2NNImpl V A s sched o = some r ∧
      (∀ i, A.m ≤ i → r.out.min i = o.min i ∧ r.out.minDist i = o.minDist i ∧
        r.out.mutex i = o.mutex i) ∧
      (∀ i, i < A.m → r.out.mutex i = 0 ∧ RowDone A r.out i) ∧
      (r.status = cudaError_t.cudaSuccess ↔ 1 ≤ A.m ∧ 1 ≤ A.n) := by
  rw [fusedL2NNImpl_cases]
  obtain ⟨hin, hout⟩ := initOut_spec A o
  by_cases hm : A.m = 0
  · rw [if_pos hm]
    refine ⟨_, rfl, ?_, ?_, ?_⟩
    · intro i _
      have : ¬ i < A.m := by omega
      simp [memsetWorkspace, this]
    · intro i hi; omega
    · simp [hm]
  · rw [if_neg hm]
    by_cases hn : A.n = 0
    · rw [if_pos hn]
      refine ⟨_, rfl, hout, ?_, ?_⟩
      · intro i hi
        obtain ⟨h1, h2, h3⟩ := hin i hi
        refine ⟨h3, ?_, ?_, Or.inl ⟨h1, h2⟩⟩
        · show (initOut A o).minDist i ≤ A.maxVal
          rw [h2]
        · intro c hc; omega
      · simp [hn]
    · rw [if_neg hn]
      obtain ⟨o3, h1, h2, h3, h4, h5⟩ := kernel_run (Policy V) A s sched hsched
        (ceildiv A.m 64) (ceildiv A.n 64) (initOut A o) (fun i hi => (hin i hi).2.2)
      rw [h1]
      refine ⟨_, rfl, ?_, ?_, ?_⟩
      · intro i hi
        show o3.min i = o.min i ∧ o3.minDist i = o.minDist i ∧ o3.mutex i = o.mutex i
        obtain ⟨g1, g2, g3⟩ := hout i hi
        rw [h2]
        refine ⟨?_, ?_, g3⟩
        · rcases h5 i with h | ⟨e, he, hr, _⟩
          · rw [h.1, g1]
          · have := gridMerges_rid_lt _ A s _ _ e he
            omega
        · rcases h5 i with h | ⟨e, he, hr, _⟩
          · rw [h.2, g2]
          · have := gridMerges_rid_lt _ A s _ _ e he
            omega
      · intro i hi
        show o3.mutex i = 0 ∧ RowDone A o3 i
        obtain ⟨g1, g2, g3⟩ := hin i hi
        refine ⟨by rw [h2]; exact g3, ?_, ?_, ?_⟩
        · exact le_trans (h3 i) (le_of_eq g2)
        · intro c hc
          obtain ⟨e, he, hr, hv⟩ := gridMerges_cover V hV A hk s i c hi hc
          have := h4 e he
          rw [hr] at this
          exact le_trans this hv
        · rcases h5 i with h | ⟨e, he, hr, hk', hv'⟩
          · exact Or.inl ⟨by rw [h.1, g1], by rw [h.2, g2]⟩
          · obtain ⟨_, _, hl⟩ := gridMerges_leader V hV A hk s _ _ e he
            rw [hr] at hl
            rw [hk', hv']
            exact hl
      · simp
        omega

theorem fusedL2NN_spec (A : Params α) (s : Nat → Nat → Nat → α)
    (sched : List (Merge α) → List (Merge α)) (hsched : ∀ l, (sched l).Perm l) (o : Out α) :
    ∃ r, fusedL2NN A s sched o = some r ∧
      (∀ i, A.m ≤ i → r.out.min i = o.min i ∧ r.out.minDist i = o.minDist i ∧
        r.out.mutex i = o.mutex i) ∧
      (∀ i, i < A.m → r.out.mutex i = 0 ∧ RowDone A r.out i) ∧
      (r.status = cudaError_t.cudaSuccess ↔ 1 ≤ A.m ∧ 1 ≤ A.n) := by
  rw [fusedL2NN_eq]
  exact fusedL2NNImpl_spec _ (chooseVeclen_mem A.k) A (chooseVeclen_dvd A.k) s sched hsched o

theorem epiDist_eq_sqDist (A : Params α) (i c : Nat) (hi : i < A.m) (hc : c < A.n)
    (hxn : A.xn i = sqNorm A.x A.k i) (hyn : A.yn c = sqNorm A.y A.k c) :
    epiDist A i c = sqDist A i c := by
  unfold epiDist padXn padYn padDot sqDist
  rw [if_pos hi, if_pos hc, hxn, hyn]
  unfold sqNorm
  rw [Finset.mul_sum, ← Finset.sum_add_distrib, ← Finset.sum_sub_distrib]
  apply Finset.sum_congr rfl
  intro t ht
  have ht' : t < A.k := Finset.mem_range.1 ht
  unfold padX padY
  rw [if_pos ⟨hi, ht'⟩, if_pos ⟨hc, ht'⟩]
  ring

theorem mem_blockMerges (P : KernelPolicy) (A : Params α) (s : List α) (blkX blkY : Nat)
    (e : Merge α) :
    e ∈ blockMerges P A s blkX blkY ↔
      ∃ tid, tid < P.Nthreads ∧
        (tid % WarpSize) % P.AccThCols = 0 ∧ ∃ i, i < P.AccRowsPerTh ∧
        blkX * P.Mblk + accrowid P tid + i * P.AccThRows < A.m ∧
        e = ⟨blkX * P.Mblk + accrowid P tid + i * P.AccThRows, tileVal P A blkX blkY s i tid⟩ := by
  unfold blockMerges
  simp only [List.mem_flatMap, List.mem_range, mem_threadMerges]

theorem runMerges_keep (es : List (Merge α)) (o : Out α) (i : Nat)
    (hm : ∀ e ∈ es, o.mutex e.rid = 0)
    (hge : ∀ e ∈ es, e.rid = i → o.minDist i ≤ e.val.v) :
    ∃ o', runMerges es o = some o' ∧ o'.min i = o.min i ∧ o'.minDist i = o.minDist i := by
  induction es generalizing o with
  | nil => exact ⟨o, rfl, rfl, rfl⟩
  | cons e es ih =>
    have he := hm e (List.mem_cons_self _ _)
    have hstep : runMerges (e :: es) o = (mergeStep e o).bind (runMerges es) := rfl
    rw [hstep, mergeStep_eq e o he]
    have hrow : ¬ (e.val.v < o.minDist e.rid ∧ e.rid = i) := by
      rintro ⟨hlt, rfl⟩
      exact absurd hlt (not_lt.2 (hge e (List.mem_cons_self _ _) rfl))
    have hmin1 : (if e.val.v < o.minDist e.rid then Function.update o.min e.rid e.val.k
        else o.min) i = o.min i := by
      split_ifs with hlt
      · rw [Function.update_noteq (fun h => hrow ⟨hlt, h.symm⟩)]
      · rfl
    have hdist1 : (if e.val.v < o.minDist e.rid then Function.update o.minDist e.rid e.val.v
        else o.minDist) i = o.minDist i := by
      split_ifs with hlt
      · rw [Function.update_noteq (fun h => hrow ⟨hlt, h.symm⟩)]
      · rfl
    obtain ⟨o', g1, g2, g3⟩ := ih
      { min := if e.val.v < o.minDist e.rid then Function.update o.min e.rid e.val.k
          else o.min,
        minDist := if e.val.v < o.minDist e.rid then Function.update o.minDist e.rid e.val.v
          else o.minDist,
        mutex := o.mutex } (fun e' he' => hm e' (List.mem_cons_of_mem _ he'))
      (fun e' he' hr => by
        show (if e.val.v < o.minDist e.rid then Function.update o.minDist e.rid e.val.v
          else o.minDist) i ≤ e'.val.v
        rw [hdist1]; exact hge e' (List.mem_cons_of_mem _ he') hr)
    exact ⟨o', g1, g2.trans hmin1, g3.trans hdist1⟩

theorem runMerges_first_wins (e : Merge α) (es : List (Merge α)) (o : Out α)
    (hm : ∀ e' ∈ e :: es, o.mutex e'.rid = 0) (hlt : e.val.v < o.minDist e.rid)
    (hge : ∀ e' ∈ es, e'.rid = e.rid → e.val.v ≤ e'.val.v) :
    ∃ o', runMerges (e :: es) o = some o' ∧ o'.min e.rid = e.val.k ∧
      o'.minDist e.rid = e.val.v := by
  have he := hm e (List.mem_cons_self _ _)
  have hstep : runMerges (e :: es) o = (mergeStep e o).bind (runMerges es) := rfl
  rw [hstep, mergeStep_eq e o he]
  obtain ⟨o', h1, h2, h3⟩ := runMerges_keep es
    { min := if e.val.v < o.minDist e.rid then Function.update o.min e.rid e.val.k
        else o.min,
      minDist := if e.val.v < o.minDist e.rid then Function.update o.minDist e.rid e.val.v
        else o.minDist,
      mutex := o.mutex } e.rid (fun e' he' => hm e' (List.mem_cons_of_mem _ he'))
    (fun e' he' hr => by
      simp only [hlt, if_true, Function.update_same]
      exact hge e' he' hr)
  refine ⟨o', h1, ?_, ?_⟩
  · rw [h2]; simp [hlt]
  · rw [h3]; simp [hlt]

theorem runMerges_uniform (L : List (Merge α)) (o : Out α) (i : Nat) (kv : KVP α)
    (hne : L ≠ []) (hm : o.mutex i = 0) (hrid : ∀ e ∈ L, e.rid = i)
    (hv : ∀ e ∈ L, e.val.v = kv.v) (hhead : ∀ e, L.head? = some e → e.val.k = kv.k)
    (hlt : kv.v < o.minDist i) :
    ∃ o', runMerges L o = some o' ∧ o'.min i = kv.k ∧ o'.minDist i = kv.v := by
  cases L with
  | nil => exact absurd rfl hne
  | cons e es =>
    have hr := hrid e (List.mem_cons_self _ _)
    have hve := hv e (List.mem_cons_self _ _)
    obtain ⟨o', h1, h2, h3⟩ := runMerges_first_wins e es o
      (fun e' he' => by rw [hrid e' he']; exact hm)
      (by rw [hr, hve]; exact hlt)
      (fun e' he' _ => by rw [hve, hv e' (List.mem_cons_of_mem _ he')])
    rw [hr] at h2 h3
    exact ⟨o', h1, by rw [h2]; exact hhead e rfl, by rw [h3, hve]⟩

theorem fusedL2NN_prov (A : Params α) (s : Nat → Nat → Nat → α)
    (sched : List (Merge α) → List (Merge α)) (hsched : ∀ l, (sched l).Perm l) (o : Out α) :
    ∃ r, fusedL2NN A s sched o = some r ∧
      ∀ i, i < A.m → (r.out.min i = -1 ∧ r.out.minDist i = A.maxVal) ∨
        ∃ e ∈ gridMerges (Policy (chooseVeclen A.k)) A s (ceildiv A.m 64) (ceildiv A.n 64),
          e.rid = i ∧ r.out.min i = e.val.k ∧ r.out.minDist i = e.val.v := by
  rw [fusedL2NN_eq, fusedL2NNImpl_cases]
  obtain ⟨hin, _⟩ := initOut_spec A o
  by_cases hm : A.m = 0
  · rw [if_pos hm]
    exact ⟨_, rfl, fun i hi => by omega⟩
  · rw [if_neg hm]
    by_cases hn : A.n = 0
    · rw [if_pos hn]
      exact ⟨_, rfl, fun i hi => Or.inl ⟨(hin i hi).1, (hin i hi).2.1⟩⟩
    · rw [if_neg hn]
      obtain ⟨o3, h1, _, _, _, h5⟩ := kernel_run (Policy (chooseVeclen A.k)) A s sched hsched
        (ceildiv A.m 64) (ceildiv A.n 64) (initOut A o) (fun i hi => (hin i hi).2.2)
      rw [h1]
      refine ⟨_, rfl, ?_⟩
      intro i hi
      show (o3.min i = -1 ∧ o3.minDist i = A.maxVal) ∨ _
      rcases h5 i with h | h
      · exact Or.inl ⟨by rw [h.1, (hin i hi).1], by rw [h.2, (hin i hi).2.1]⟩
      · exact Or.inr h

theorem ldgX_bounds (V : Nat) (hV : V = 1 ∨ V = 2 ∨ V = 4) (m k : Nat) (hk : V ∣ k)
    (blkX tid kidx i : Nat) (hkidx : kidx % 32 = 0)
    (hg : ldgGuardX (Policy V) m k blkX tid kidx i) :
    ldgAddrX (Policy V) k blkX tid kidx i =
        (xrowid (Policy V) blkX tid + i * (Policy V).LdgRowsX) * k +
          (kidx + scolid (Policy V) tid) ∧
      kidx + scolid (Policy V) tid + V ≤ k ∧
      ldgAddrX (Policy V) k blkX tid kidx i + V ≤ m * k := by
  obtain ⟨h1, h2⟩ := hg
  have hV0 : 0 < V := by rcases hV with rfl | rfl | rfl <;> omega
  have hlt := (lt_iff_add_lt_of_dvd V _ _ (V - 1) (policy_dvd_koffset V hV tid kidx hkidx) hk
    (by omega)).1 h1
  have hko : kidx + scolid (Policy V) tid + V ≤ k := by omega
  have haddr : ldgAddrX (Policy V) k blkX tid kidx i =
      (xrowid (Policy V) blkX tid + i * (Policy V).LdgRowsX) * k +
        (kidx + scolid (Policy V) tid) := by
    unfold ldgAddrX; ring
  refine ⟨haddr, hko, ?_⟩
  rw [haddr]
  have hrow : (xrowid (Policy V) blkX tid + i * (Policy V).LdgRowsX + 1) * k ≤ m * k :=
    Nat.mul_le_mul_right k h2
  have hexp : (xrowid (Policy V) blkX tid + i * (Policy V).LdgRowsX + 1) * k =
      (xrowid (Policy V) blkX tid + i * (Policy V).LdgRowsX) * k + k := by ring
  omega

end Run

/-! ## Properties of the specification -/

section
variable {α : Type} [LinearOrderedCommRing α]

/-- C1: in exact arithmetic, for `m ≥ 1`, `n ≥ 1`, norms `xn`, `yn` equal to the squared
L2 norms of the rows and `maxVal` above every pairwise distance, whatever the order in which
the tiles merge, `fusedL2NN` returns and leaves in `minDist[i]` the minimum over `j < n` of
the squared distance between row `i` of `x` and row `j` of `y`, and in `min[i]` a column
`j < n` attaining it. -/
theorem fusedL2NN_nearest_neighbour (A : Params α) (s : Nat → Nat → Nat → α)
    (sched : List (Merge α) → List (Merge α)) (o : Out α)
    (hsched : ∀ l, (sched l).Perm l) (hm : 1 ≤ A.m) (hn : 1 ≤ A.n)
    (hxn : ∀ i, i < A.m → A.xn i = sqNorm A.x A.k i)
    (hyn : ∀ j, j < A.n → A.yn j = sqNorm A.y A.k j)
    (hmax : ∀ i, i < A.m → ∀ j, j < A.n → sqDist A i j < A.maxVal) :
    ∃ r, fusedL2NN A s sched o = some r ∧ r.status = cudaError_t.cudaSuccess ∧
      ∀ i, i < A.m →
        (∀ j, j < A.n → r.out.minDist i ≤ sqDist A i j) ∧
        ∃ j : Nat, j < A.n ∧ r.out.min i = (j : Int) ∧ r.out.minDist i = sqDist A i j := by
  obtain ⟨r, h1, _, h3, h4⟩ := fusedL2NN_spec A s sched hsched o
  refine ⟨r, h1, h4.2 ⟨hm, hn⟩, ?_⟩
  intro i hi
  obtain ⟨_, _, hlow, hatt⟩ := h3 i hi
  have hd : ∀ j, j < A.n → epiDist A i j = sqDist A i j :=
    fun j hj => epiDist_eq_sqDist A i j hi hj (hxn i hi) (hyn j hj)
  refine ⟨fun j hj => by rw [← hd j hj]; exact hlow j hj, ?_⟩
  rcases hatt with ⟨_, hv⟩ | ⟨c, hc, hk, hv, _⟩
  · have h0 := hlow 0 (by omega)
    rw [hd 0 (by omega), hv] at h0
    exact absurd (hmax i hi 0 (by omega)) (not_lt.2 h0)
  · exact ⟨c, hc, hk, by rw [hv, hd c hc]⟩

end

/-- The nearest neighbour of the single row of `unitParams`, identity scheduler. -/
theorem fusedL2NN_nearest_neighbour_witness :
    ∃ r, fusedL2NN unitParams zeroSmem id zeroOut = some r ∧
      r.status = cudaError_t.cudaSuccess ∧
      ∀ i, i < unitParams.m →
        (∀ j, j < unitParams.n → r.out.minDist i ≤ sqDist unitParams i j) ∧
        ∃ j : Nat, j < unitParams.n ∧ r.out.min i = (j : Int) ∧
          r.out.minDist i = sqDist unitParams i j :=
  fusedL2NN_nearest_neighbour unitParams zeroSmem id zeroOut (fun l => List.Perm.refl l)
    (by decide) (by decide) (by decide) (by decide) (by decide)

/-- The outputs on the input of the scenario, for any `maxVal` above 50. -/
theorem scenario_rows (M : Int) (hM50 : 50 < M) (s : Nat → Nat → Nat → Int)
    (sched : List (Merge Int) → List (Merge Int))
    (hsched : ∀ l, (sched l).Perm l) (o : Out Int) :
    ∃ r, fusedL2NN (scenarioParams M) s sched o = some r ∧
      r.out.min 0 = 0 ∧ r.out.min 1 = 1 ∧ r.out.min 2 = 1 ∧
      r.out.minDist 0 = 0 ∧ r.out.minDist 1 = 1 ∧ r.out.minDist 2 = 41 := by
  obtain ⟨r, h1, _, h3, _⟩ := fusedL2NN_spec (scenarioParams M) s sched hsched o
  have e00 : epiDist (scenarioParams M) 0 0 = 0 := by
    simp [epiDist, padXn, padYn, padDot, padX, padY, scenarioParams, Finset.sum_range_succ]
  have e01 : epiDist (scenarioParams M) 0 1 = 1 := by
    simp [epiDist, padXn, padYn, padDot, padX, padY, scenarioParams, Finset.sum_range_succ]
  have e10 : epiDist (scenarioParams M) 1 0 = 2 := by
    simp [epiDist, padXn, padYn, padDot, padX, padY, scenarioParams, Finset.sum_range_succ]
  have e11 : epiDist (scenarioParams M) 1 1 = 1 := by
    simp [epiDist, padXn, padYn, padDot, padX, padY, scenarioParams, Finset.sum_range_succ]
  have e20 : epiDist (scenarioParams M) 2 0 = 50 := by
    simp [epiDist, padXn, padYn, padDot, padX, padY, scenarioParams, Finset.sum_range_succ]
  have e21 : epiDist (scenarioParams M) 2 1 = 41 := by
    simp [epiDist, padXn, padYn, padDot, padX, padY, scenarioParams, Finset.sum_range_succ]
  have hM : (scenarioParams M).maxVal = M := rfl
  have hn : (scenarioParams M).n = 2 := rfl
  obtain ⟨_, _, l0, a0⟩ := h3 0 (by show (_ : Nat) < 3; omega)
  obtain ⟨_, _, l1, a1⟩ := h3 1 (by show (_ : Nat) < 3; omega)
  obtain ⟨_, _, l2, a2⟩ := h3 2 (by show (_ : Nat) < 3; omega)
  have l00 := l0 0 (by show (_ : Nat) < 2; omega)
  have l01 := l0 1 (by show (_ : Nat) < 2; omega)
  have l10 := l1 0 (by show (_ : Nat) < 2; omega)
  have l11 := l1 1 (by show (_ : Nat) < 2; omega)
  have l20 := l2 0 (by show (_ : Nat) < 2; omega)
  have l21 := l2 1 (by show (_ : Nat) < 2; omega)
  rw [e00] at l00
  rw [e01] at l01
  rw [e10] at l10
  rw [e11] at l11
  rw [e20] at l20
  rw [e21] at l21
  refine ⟨r, h1, ?_⟩
  have r0 : r.out.min 0 = 0 ∧ r.out.minDist 0 = 0 := by
    rcases a0 with ⟨_, hv⟩ | ⟨c, hc, hk, hv, _⟩
    · rw [hM] at hv; omega
    · rw [hn] at hc
      interval_cases c
      · rw [e00] at hv; exact ⟨by simpa using hk, hv⟩
      · rw [e01] at hv; omega
  have r1 : r.out.min 1 = 1 ∧ r.out.minDist 1 = 1 := by
    rcases a1 with ⟨_, hv⟩ | ⟨c, hc, hk, hv, _⟩
    · rw [hM] at hv; omega
    · rw [hn] at hc
      interval_cases c
      · rw [e10] at hv; omega
      · rw [e11] at hv; exact ⟨by simpa using hk, hv⟩
  have r2 : r.out.min 2 = 1 ∧ r.out.minDist 2 = 41 := by
    rcases a2 with ⟨_, hv⟩ | ⟨c, hc, hk, hv, _⟩
    · rw [hM] at hv; omega
    · rw [hn] at hc
      interval_cases c
      · rw [e20] at hv; omega
      · rw [e21] at hv; exact ⟨by simpa using hk, hv⟩
  exact ⟨r0.1, r1.1, r2.1, r0.2, r1.2, r2.2⟩

/-- C2 (as amended): on the input `k = 2`, `X = [[0,0],[1,1],[5,5]]`, `Y = [[0,0],[1,0]]`
with the squared row norms and any `maxVal` above 50, whatever the order of the merges,
`fusedL2NN` ends with `MinIndex = [0,1,1]` and `MinDist = [0,1,41]`. -/
theorem scenario_result (M : Int) (s : Nat → Nat → Nat → Int)
    (sched : List (Merge Int) → List (Merge Int)) (o : Out Int)
    (hM : 50 < M) (hsched : ∀ l, (sched l).Perm l) :
    ∃ r, fusedL2NN (scenarioParams M) s sched o = some r ∧
      r.out.min 0 = 0 ∧ r.out.min 1 = 1 ∧ r.out.min 2 = 1 ∧
      r.out.minDist 0 = 0 ∧ r.out.minDist 1 = 1 ∧ r.out.minDist 2 = 41 :=
  scenario_rows M hM s sched hsched o

/-- The scenario with `maxVal = 1000`, the merges taken in reverse grid order. -/
theorem scenario_result_witness :
    ∃ r, fusedL2NN (scenarioParams 1000) zeroSmem List.reverse zeroOut = some r ∧
      r.out.min 0 = 0 ∧ r.out.min 1 = 1 ∧ r.out.min 2 = 1 ∧
      r.out.minDist 0 = 0 ∧ r.out.minDist 1 = 1 ∧ r.out.minDist 2 = 41 :=
  scenario_result 1000 zeroSmem List.reverse zeroOut (by decide) (fun l => List.reverse_perm l)

/-- C2 (counterexample): on the input of the scenario the code ends with `MinIndex = [0,1,1]`
and `MinDist = [0,1,41]`, not with `MinIndex = [0,0,1]` and `MinDist = [0,1,32]`. -/
theorem scenario_counterexample :
    (fusedL2NN (scenarioParams 1000) zeroSmem id zeroOut).map
        (fun r => ([r.out.min 0, r.out.min 1, r.out.min 2],
          [r.out.minDist 0, r.out.minDist 1, r.out.minDist 2])) =
      some ([0, 1, 1], [0, 1, 41]) ∧
    (fusedL2NN (scenarioParams 1000) zeroSmem id zeroOut).map
        (fun r => ([r.out.min 0, r.out.min 1, r.out.min 2],
          [r.out.minDist 0, r.out.minDist 1, r.out.minDist 2])) ≠
      some ([0, 0, 1], [0, 1, 32]) := by
  obtain ⟨r, h, h0, h1, h2, h3, h4, h5⟩ :=
    scenario_rows 1000 (by decide) zeroSmem id (fun l => List.Perm.refl l) zeroOut
  rw [h, Option.map_some', h0, h1, h2, h3, h4, h5]
  exact ⟨rfl, by decide⟩

section
variable {α : Type} [LinearOrderedCommRing α]

/-- C3: for every `m`, `n`, `k` and every input, whatever the order of the merges,
`fusedL2NN` returns and every `min[i]` with `i < m` is `-1` or lies in `[0, n)`; every
candidate that a tile merges belongs to a row `rid < m` and carries `-1` or a column in
`[0, n)` (never a padded column); the entries of `min` and `minDist` at indices `≥ m` are
left as they were. -/
theorem min_index_range (A : Params α) (s : Nat → Nat → Nat → α)
    (sched : List (Merge α) → List (Merge α)) (o : Out α)
    (hsched : ∀ l, (sched l).Perm l) :
    ∃ r, fusedL2NN A s sched o = some r ∧
      (∀ i, i < A.m → r.out.min i = -1 ∨ (0 ≤ r.out.min i ∧ r.out.min i < (A.n : Int))) ∧
      (∀ e ∈ gridMerges (Policy (chooseVeclen A.k)) A s
          (ceildiv A.m (Policy (chooseVeclen A.k)).Mblk)
          (ceildiv A.n (Policy (chooseVeclen A.k)).Nblk),
        e.rid < A.m ∧ (e.val.k = -1 ∨ (0 ≤ e.val.k ∧ e.val.k < (A.n : Int)))) ∧
      (∀ i, A.m ≤ i → r.out.min i = o.min i ∧ r.out.minDist i = o.minDist i) := by
  obtain ⟨r, h1, h2, h3, _⟩ := fusedL2NN_spec A s sched hsched o
  refine ⟨r, h1, ?_, ?_, fun i hi => ⟨(h2 i hi).1, (h2 i hi).2.1⟩⟩
  · intro i hi
    obtain ⟨_, _, _, hatt⟩ := h3 i hi
    rcases hatt with ⟨hk, _⟩ | ⟨c, hc, hk, _, _⟩
    · exact Or.inl hk
    · right; rw [hk]; exact ⟨Int.natCast_nonneg c, by exact_mod_cast hc⟩
  · intro e he
    obtain ⟨g1, _, g3⟩ := gridMerges_leader _ (chooseVeclen_mem A.k) A (chooseVeclen_dvd A.k)
      s _ _ e he
    refine ⟨g1, ?_⟩
    rcases g3 with ⟨hk, _⟩ | ⟨c, hc, hk, _, _⟩
    · exact Or.inl hk
    · right; rw [hk]; exact ⟨Int.natCast_nonneg c, by exact_mod_cast hc⟩

end

/-- The range of the indices on the input of the scenario, identity scheduler. -/
theorem min_index_range_witness :
    ∃ r, fusedL2NN (scenarioParams 1000) zeroSmem id zeroOut = some r ∧
      (∀ i, i < (scenarioParams 1000).m →
        r.out.min i = -1 ∨ (0 ≤ r.out.min i ∧ r.out.min i < ((scenarioParams 1000).n : Int))) ∧
      (∀ e ∈ gridMerges (Policy (chooseVeclen (scenarioParams 1000).k)) (scenarioParams 1000)
          zeroSmem
          (ceildiv (scenarioParams 1000).m (Policy (chooseVeclen (scenarioParams 1000).k)).Mblk)
          (ceildiv (scenarioParams 1000).n (Policy (chooseVeclen (scenarioParams 1000).k)).Nblk),
        e.rid < (scenarioParams 1000).m ∧
          (e.val.k = -1 ∨ (0 ≤ e.val.k ∧ e.val.k < ((scenarioParams 1000).n : Int)))) ∧
      (∀ i, (scenarioParams 1000).m ≤ i →
        r.out.min i = zeroOut.min i ∧ r.out.minDist i = zeroOut.minDist i) :=
  min_index_range (scenarioParams 1000) zeroSmem id zeroOut (fun l => List.Perm.refl l)

section
variable {α : Type} [LinearOrderedCommRing α]

/-- C4 (as amended): in every tile and for every output row of it, when some in-range column
of the tile has a distance below `maxVal`, the candidate that the group leader holds after
the column scan and the shuffle loop carries the minimum of the distances of the in-range
columns of the tile and the index of one in-range column of the tile that attains it
(which of several tied columns is not fixed to be the lowest). -/
theorem leader_candidate_attains_min (V : Nat) (A : Params α) (blkX blkY : Nat) (s : List α)
    (tid i : Nat) (hl : tid % WarpSize % (Policy V).AccThCols = 0)
    (hmin : ∃ q j, q < 16 ∧ j < 4 ∧ blkY * 64 + (q + j * 16) < A.n ∧
      tileAcc (Policy V) A blkX blkY s (tid + q) i j < A.maxVal) :
    (∀ q j, q < 16 → j < 4 → blkY * 64 + (q + j * 16) < A.n →
      (tileVal (Policy V) A blkX blkY s i tid).v ≤ tileAcc (Policy V) A blkX blkY s (tid + q) i j) ∧
    ∃ q j, q < 16 ∧ j < 4 ∧ blkY * 64 + (q + j * 16) < A.n ∧
      (tileVal (Policy V) A blkX blkY s i tid).k = ((blkY * 64 + (q + j * 16) : Nat) : Int) ∧
      (tileVal (Policy V) A blkX blkY s i tid).v =
        tileAcc (Policy V) A blkX blkY s (tid + q) i j := by
  have hl' : tid % 16 = 0 := by
    have : tid % 32 % 16 = 0 := hl
    omega
  obtain ⟨_, h2, h3⟩ := reduce_leader V A.n blkY A.maxVal (tileAcc (Policy V) A blkX blkY s)
    tid i hl'
  refine ⟨h2, ?_⟩
  rcases h3 with ⟨_, hv⟩ | ⟨q, j, hq, hj, hc, hk, hv, _⟩
  · obtain ⟨q, j, hq, hj, hc, hlt⟩ := hmin
    have := h2 q j hq hj hc
    unfold tileVal at this
    rw [hv] at this
    exact absurd hlt (not_lt.2 this)
  · exact ⟨q, j, hq, hj, hc, hk, hv⟩

end

/-- The distances of row 0 of `tieParams`. -/
theorem tie_epiDist (c : Nat) (hc : c < 17) :
    epiDist tieParams 0 c = if c = 1 ∨ c = 16 then 0 else 1 := by
  simp [epiDist, padXn, padYn, padDot, padX, tieParams, hc]

/-- The accumulators of tile `(0, 0)` of `tieParams` after the compute loop of `epilog`. -/
theorem tie_tileAcc (q j : Nat) (hq : q < 16) (hj : j < 4) (hc : q + j * 16 < 17) :
    tileAcc (Policy 1) tieParams 0 0 (smemInit (Policy 1) (zeroSmem 0 0)) q 0 j =
      if q + j * 16 = 1 ∨ q + j * 16 = 16 then 0 else 1 := by
  rw [tileAcc_eq 1 (Or.inl rfl) tieParams (one_dvd _) 0 0 _ (smemInit_length _ _) q 0 j
    (by omega) (by omega) hj]
  have e1 : 0 * 64 + (q / 16 + 0 * 16) = 0 := by omega
  have e2 : 0 * 64 + (q % 16 + j * 16) = q + j * 16 := by omega
  rw [e1, e2, tie_epiDist _ hc]

/-- The leader of row 0 in tile `(0, 0)` of `tieParams`: column 1 is below `maxVal`. -/
theorem leader_candidate_attains_min_witness :
    (∀ q j, q < 16 → j < 4 → 0 * 64 + (q + j * 16) < tieParams.n →
      (tileVal (Policy 1) tieParams 0 0 (smemInit (Policy 1) (zeroSmem 0 0)) 0 0).v ≤
        tileAcc (Policy 1) tieParams 0 0 (smemInit (Policy 1) (zeroSmem 0 0)) (0 + q) 0 j) ∧
    ∃ q j, q < 16 ∧ j < 4 ∧ 0 * 64 + (q + j * 16) < tieParams.n ∧
      (tileVal (Policy 1) tieParams 0 0 (smemInit (Policy 1) (zeroSmem 0 0)) 0 0).k =
        ((0 * 64 + (q + j * 16) : Nat) : Int) ∧
      (tileVal (Policy 1) tieParams 0 0 (smemInit (Policy 1) (zeroSmem 0 0)) 0 0).v =
        tileAcc (Policy 1) tieParams 0 0 (smemInit (Policy 1) (zeroSmem 0 0)) (0 + q) 0 j :=
  leader_candidate_attains_min 1 tieParams 0 0 (smemInit (Policy 1) (zeroSmem 0 0)) 0 0
    (by decide)
    ⟨1, 0, by decide, by decide, by decide, by
      rw [tie_tileAcc 1 0 (by decide) (by decide) (by decide)]; decide⟩

/-- C4 (counterexample): in tile `(0, 0)` of `tieParams` the in-range columns 1 (thread 1,
`j = 0`) and 16 (thread 0, `j = 1`) of output row 0 both have distance 0, no in-range column
has a smaller one, and the leader of the row (thread 0) ends with the candidate
`(16, 0)`: it carries index 16, not the lowest tied index 1. -/
theorem tie_break_counterexample :
    tileAcc (Policy 1) tieParams 0 0 (smemInit (Policy 1) (zeroSmem 0 0)) 1 0 0 = 0 ∧
    tileAcc (Policy 1) tieParams 0 0 (smemInit (Policy 1) (zeroSmem 0 0)) 0 0 1 = 0 ∧
    (∀ q, q < 16 → ∀ j, j < 4 → q + j * 16 < 17 →
      0 ≤ tileAcc (Policy 1) tieParams 0 0 (smemInit (Policy 1) (zeroSmem 0 0)) q 0 j) ∧
    tileVal (Policy 1) tieParams 0 0 (smemInit (Policy 1) (zeroSmem 0 0)) 0 0 = ⟨16, 0⟩ := by
  refine ⟨?_, ?_, ?_, ?_⟩
  · rw [tie_tileAcc 1 0 (by decide) (by decide) (by decide)]; decide
  · rw [tie_tileAcc 0 1 (by decide) (by decide) (by decide)]; decide
  · intro q hq j hj hc
    rw [tie_tileAcc q j hq hj hc]
    split_ifs <;> decide
  · rw [tileVal_leader_eq 1 (Or.inl rfl) tieParams (one_dvd _) 0 0 _ (smemInit_length _ _) 0 0
      (by decide) (by decide) (by decide)]
    decide

section
variable {α : Type} [LinearOrderedCommRing α]

/-- C5 (as amended): for fixed inputs and freshly initialised outputs and locks, any two
orders of the lock-protected merges end with identical `minDist` arrays and identical lock
words, and with the same `min[i]` at every row `i` for which no two merged candidates carry
the same distance with different indices. (When two tiles offer the same distance for a
row, the index of the one merged first is kept.) -/
theorem merge_order_determinism (A : Params α) (s : Nat → Nat → Nat → α)
    (sched1 sched2 : List (Merge α) → List (Merge α)) (o : Out α)
    (h1 : ∀ l, (sched1 l).Perm l) (h2 : ∀ l, (sched2 l).Perm l) :
    ∃ r1 r2, fusedL2NN A s sched1 o = some r1 ∧ fusedL2NN A s sched2 o = some r2 ∧
      (∀ i, r1.out.minDist i = r2.out.minDist i) ∧
      (∀ i, r1.out.mutex i = r2.out.mutex i) ∧
      ∀ i, (∀ e1 ∈ gridMerges (Policy (chooseVeclen A.k)) A s (ceildiv A.m 64) (ceildiv A.n 64),
          ∀ e2 ∈ gridMerges (Policy (chooseVeclen A.k)) A s (ceildiv A.m 64) (ceildiv A.n 64),
          e1.rid = i → e2.rid = i → e1.val.v = e2.val.v → e1.val.k = e2.val.k) →
        r1.out.min i = r2.out.min i := by
  obtain ⟨r1, a1, a2, a3, _⟩ := fusedL2NN_spec A s sched1 h1 o
  obtain ⟨r2, b1, b2, b3, _⟩ := fusedL2NN_spec A s sched2 h2 o
  obtain ⟨r1', a1', a4⟩ := fusedL2NN_prov A s sched1 h1 o
  obtain ⟨r2', b1', b4⟩ := fusedL2NN_prov A s sched2 h2 o
  have e1 : r1' = r1 := Option.some.inj (a1'.symm.trans a1)
  have e2 : r2' = r2 := Option.some.inj (b1'.symm.trans b1)
  subst e1 e2
  have hdist : ∀ i, r1'.out.minDist i = r2'.out.minDist i := by
    intro i
    by_cases hi : i < A.m
    · obtain ⟨_, _, la, aa⟩ := a3 i hi
      obtain ⟨_, _, lb, ab⟩ := b3 i hi
      rcases aa with ⟨_, va⟩ | ⟨ca, hca, _, va, lta⟩
      · rcases ab with ⟨_, vb⟩ | ⟨cb, hcb, _, vb, ltb⟩
        · rw [va, vb]
        · have := la cb hcb
          rw [va] at this
          exact absurd ltb (not_lt.2 this)
      · rcases ab with ⟨_, vb⟩ | ⟨cb, hcb, _, vb, ltb⟩
        · have := lb ca hca
          rw [vb] at this
          exact absurd lta (not_lt.2 this)
        · have g1 := la cb hcb
          have g2 := lb ca hca
          rw [← vb] at g1
          rw [← va] at g2
          exact le_antisymm g1 g2
    · rw [(a2 i (by omega)).2.1, (b2 i (by omega)).2.1]
  refine ⟨r1', r2', a1, b1, hdist, ?_, ?_⟩
  · intro i
    by_cases hi : i < A.m
    · rw [(a3 i hi).1, (b3 i hi).1]
    · rw [(a2 i (by omega)).2.2, (b2 i (by omega)).2.2]
  · intro i huniq
    by_cases hi : i < A.m
    · have hlead : ∀ e ∈ gridMerges (Policy (chooseVeclen A.k)) A s (ceildiv A.m 64)
          (ceildiv A.n 64), e.val.v = A.maxVal → e.val.k = -1 := by
        intro e he hv
        obtain ⟨_, _, g3⟩ := gridMerges_leader _ (chooseVeclen_mem A.k) A (chooseVeclen_dvd A.k)
          s _ _ e he
        rcases g3 with ⟨hk, _⟩ | ⟨c, _, _, hv', hlt⟩
        · exact hk
        · rw [← hv', hv] at hlt
          exact absurd hlt (lt_irrefl _)
      rcases a4 i hi with ⟨ka, va⟩ | ⟨ea, hea, ra, ka, va⟩
      · rcases b4 i hi with ⟨kb, vb⟩ | ⟨eb, heb, rb, kb, vb⟩
        · rw [ka, kb]
        · rw [ka, kb, hlead eb heb (by rw [← vb, ← hdist i, va])]
      · rcases b4 i hi with ⟨kb, vb⟩ | ⟨eb, heb, rb, kb, vb⟩
        · rw [ka, kb, hlead ea hea (by rw [← va, hdist i, vb])]
        · rw [ka, kb]
          exact huniq ea hea eb heb ra rb (by rw [← va, ← vb, hdist i])
    · rw [(a2 i (by omega)).1, (b2 i (by omega)).1]

end

/-- Grid order against reverse grid order on the input of the scenario. -/
theorem merge_order_determinism_witness :
    ∃ r1 r2, fusedL2NN (scenarioParams 1000) zeroSmem id zeroOut = some r1 ∧
      fusedL2NN (scenarioParams 1000) zeroSmem List.reverse zeroOut = some r2 ∧
      (∀ i, r1.out.minDist i = r2.out.minDist i) ∧
      (∀ i, r1.out.mutex i = r2.out.mutex i) ∧
      ∀ i, (∀ e1 ∈ gridMerges (Policy (chooseVeclen (scenarioParams 1000).k))
            (scenarioParams 1000) zeroSmem (ceildiv (scenarioParams 1000).m 64)
            (ceildiv (scenarioParams 1000).n 64),
          ∀ e2 ∈ gridMerges (Policy (chooseVeclen (scenarioParams 1000).k))
            (scenarioParams 1000) zeroSmem (ceildiv (scenarioParams 1000).m 64)
            (ceildiv (scenarioParams 1000).n 64),
          e1.rid = i → e2.rid = i → e1.val.v = e2.val.v → e1.val.k = e2.val.k) →
        r1.out.min i = r2.out.min i :=
  merge_order_determinism (scenarioParams 1000) zeroSmem id List.reverse zeroOut
    (fun l => List.Perm.refl l) (fun l => List.reverse_perm l)

/-- The only merge of tile `(0, b)` of `twoTileParams` is the one of row 0, with the
candidate `(64 * b, 0)`. -/
theorem twoTile_events (b : Nat) (hb : b < 2) (e : Merge Int)
    (he : e ∈ blockMerges (Policy 1) twoTileParams (smemInit (Policy 1) (zeroSmem 0 b)) 0 b) :
    e.rid = 0 ∧ e.val = ⟨64 * b, 0⟩ := by
  obtain ⟨tid, htid, hl, i, hi, hrid, rfl⟩ := (mem_blockMerges _ _ _ _ _ _).1 he
  have hl' : tid % 32 % 16 = 0 := hl
  have hrid' : 0 * 64 + tid / 16 + i * 16 < 1 := hrid
  have ht : tid = 0 := by omega
  have hi0 : i = 0 := by omega
  subst ht hi0
  refine ⟨rfl, ?_⟩
  show tileVal (Policy 1) twoTileParams 0 b (smemInit (Policy 1) (zeroSmem 0 b)) 0 0 = _
  rw [tileVal_leader_eq 1 (Or.inl rfl) twoTileParams (one_dvd _) 0 b _ (smemInit_length _ _) 0 0
    (by decide) (by decide) (by decide)]
  interval_cases b <;> decide

/-- Each tile of `twoTileParams` merges something. -/
theorem twoTile_nonempty (b : Nat) :
    blockMerges (Policy 1) twoTileParams (smemInit (Policy 1) (zeroSmem 0 b)) 0 b ≠ [] := by
  intro h
  have : (⟨0 * (Policy 1).Mblk + accrowid (Policy 1) 0 + 0 * (Policy 1).AccThRows,
      tileVal (Policy 1) twoTileParams 0 b (smemInit (Policy 1) (zeroSmem 0 b)) 0 0⟩ : Merge Int) ∈
      blockMerges (Policy 1) twoTileParams (smemInit (Policy 1) (zeroSmem 0 b)) 0 b := by
    rw [mem_blockMerges]
    exact ⟨0, by decide, by decide, 0, by decide, by decide, rfl⟩
  rw [h] at this
  exact absurd this (List.not_mem_nil _)

/-- The merges of the grid of `twoTileParams`, in grid order. -/
theorem twoTile_grid :
    gridMerges (Policy 1) twoTileParams zeroSmem 1 2 =
      blockMerges (Policy 1) twoTileParams (smemInit (Policy 1) (zeroSmem 0 0)) 0 0 ++
      blockMerges (Policy 1) twoTileParams (smemInit (Policy 1) (zeroSmem 0 1)) 0 1 := by
  simp [gridMerges, List.range_succ]

/-- The call of `fusedL2NN` on `twoTileParams` launches both kernels. -/
theorem twoTile_run (sched : List (Merge Int) → List (Merge Int)) :
    fusedL2NN twoTileParams zeroSmem sched zeroOut =
      (runMerges (sched (gridMerges (Policy 1) twoTileParams zeroSmem 1 2))
        (initOut twoTileParams zeroOut)).map
        (fun o3 => ⟨o3, [⟨1, 1, 256⟩, ⟨1, 2, 256⟩], cudaError_t.cudaSuccess⟩) := by
  rw [fusedL2NN_eq, fusedL2NNImpl_cases]
  rfl

/-- C5 (counterexample): one row of `x` at distance 0 from all 65 rows of `y`, so that the
two tiles along N offer the same distance 0 for row 0 (with the indices 0 and 64). When the
merges run in grid order `min[0]` ends as 0, when they run in the reverse order it ends
as 64. -/
theorem merge_order_counterexample :
    (fusedL2NN twoTileParams zeroSmem id zeroOut).map (fun r => (r.out.min 0, r.out.minDist 0)) =
      some (0, 0) ∧
    (fusedL2NN twoTileParams zeroSmem List.reverse zeroOut).map
      (fun r => (r.out.min 0, r.out.minDist 0)) = some (64, 0) := by
  have hinit := (initOut_spec twoTileParams zeroOut).1 0 (by decide)
  have hM : twoTileParams.maxVal = 100 := rfl
  rw [hM] at hinit
  constructor
  · rw [twoTile_run, twoTile_grid]
    obtain ⟨o', h1, h2, h3⟩ := runMerges_uniform
      (id (blockMerges (Policy 1) twoTileParams (smemInit (Policy 1) (zeroSmem 0 0)) 0 0 ++
        blockMerges (Policy 1) twoTileParams (smemInit (Policy 1) (zeroSmem 0 1)) 0 1))
      (initOut twoTileParams zeroOut) 0 ⟨0, 0⟩
      (by simp [twoTile_nonempty]) hinit.2.2
      (fun e he => by
        rcases List.mem_append.1 he with h | h
        · exact (twoTile_events 0 (by decide) e h).1
        · exact (twoTile_events 1 (by decide) e h).1)
      (fun e he => by
        rcases List.mem_append.1 he with h | h
        · rw [(twoTile_events 0 (by decide) e h).2]
        · rw [(twoTile_events 1 (by decide) e h).2])
      (fun e he => by
        have hmem : e ∈ blockMerges (Policy 1) twoTileParams
            (smemInit (Policy 1) (zeroSmem 0 0)) 0 0 := by
          cases hB : blockMerges (Policy 1) twoTileParams
              (smemInit (Policy 1) (zeroSmem 0 0)) 0 0 with
          | nil => exact absurd hB (twoTile_nonempty 0)
          | cons a l =>
            rw [hB] at he
            simp only [id, List.cons_append, List.head?_cons, Option.some.injEq] at he
            rw [← he]; exact List.mem_cons_self _ _
        rw [(twoTile_events 0 (by decide) e hmem).2]; rfl)
      (by rw [hinit.2.1]; decide)
    rw [h1, Option.map_some', Option.map_some', h2, h3]
  · rw [twoTile_run, twoTile_grid, List.reverse_append]
    obtain ⟨o', h1, h2, h3⟩ := runMerges_uniform
      ((blockMerges (Policy 1) twoTileParams (smemInit (Policy 1) (zeroSmem 0 1)) 0 1).reverse ++
        (blockMerges (Policy 1) twoTileParams (smemInit (Policy 1) (zeroSmem 0 0)) 0 0).reverse)
      (initOut twoTileParams zeroOut) 0 ⟨64, 0⟩
      (by simp [twoTile_nonempty]) hinit.2.2
      (fun e he => by
        rcases List.mem_append.1 he with h | h
        · exact (twoTile_events 1 (by decide) e (List.mem_reverse.1 h)).1
        · exact (twoTile_events 0 (by decide) e (List.mem_reverse.1 h)).1)
      (fun e he => by
        rcases List.mem_append.1 he with h | h
        · rw [(twoTile_events 1 (by decide) e (List.mem_reverse.1 h)).2]
        · rw [(twoTile_events 0 (by decide) e (List.mem_reverse.1 h)).2])
      (fun e he => by
        have hmem : e ∈ (blockMerges (Policy 1) twoTileParams
            (smemInit (Policy 1) (zeroSmem 0 1)) 0 1).reverse := by
          cases hB : (blockMerges (Policy 1) twoTileParams
              (smemInit (Policy 1) (zeroSmem 0 1)) 0 1).reverse with
          | nil =>
            exact absurd (List.reverse_eq_nil_iff.1 hB) (twoTile_nonempty 1)
          | cons a l =>
            rw [hB] at he
            simp only [List.cons_append, List.head?_cons, Option.some.injEq] at he
            rw [← he]; exact List.mem_cons_self _ _
        rw [(twoTile_events 1 (by decide) e (List.mem_reverse.1 hmem)).2]; rfl)
      (by rw [hinit.2.1]; decide)
    rw [h1, Option.map_some', Option.map_some', h2, h3]

section
variable {α : Type} [LinearOrderedCommRing α]

/-- C6: after initialisation, in every sequence of merges of rows below `m`, every merge
step returns and leaves `minDist[i]` (for `i < m`) less than or equal to its value before the
step; the value changes only when the step is a merge of row `i` whose candidate is strictly
smaller, and then it becomes that candidate; the value before the step is at most `maxVal`,
and the rest of the run does not raise it again. -/
theorem minDist_nonincreasing (A : Params α) (o : Out α) (pre post : List (Merge α))
    (e : Merge α) (i : Nat) (hrid : ∀ e' ∈ pre ++ e :: post, e'.rid < A.m) (hi : i < A.m) :
    ∃ o1 o2 o3, runMerges pre (initOut A o) = some o1 ∧ mergeStep e o1 = some o2 ∧
      runMerges post o2 = some o3 ∧
      o2.minDist i ≤ o1.minDist i ∧
      (o2.minDist i = o1.minDist i ∨
        (e.rid = i ∧ o2.minDist i = e.val.v ∧ e.val.v < o1.minDist i)) ∧
      o1.minDist i ≤ A.maxVal ∧ o3.minDist i ≤ o2.minDist i := by
  obtain ⟨hin, _⟩ := initOut_spec A o
  have hmem : ∀ e', e' ∈ pre ∨ e' = e ∨ e' ∈ post → e'.rid < A.m := by
    intro e' h
    apply hrid e'
    rw [List.mem_append, List.mem_cons]
    exact h
  obtain ⟨o1, a1, a2, a3, _, _⟩ := runMerges_spec pre (initOut A o)
    (fun e' he' => (hin _ (hmem e' (Or.inl he'))).2.2)
  have hmut : ∀ j, j < A.m → o1.mutex j = 0 := fun j hj => by rw [a2]; exact (hin j hj).2.2
  have he := hmut e.rid (hmem e (Or.inr (Or.inl rfl)))
  obtain ⟨o3, c1, _, c3, _, _⟩ := runMerges_spec post
    { min := if e.val.v < o1.minDist e.rid then Function.update o1.min e.rid e.val.k
        else o1.min,
      minDist := if e.val.v < o1.minDist e.rid then Function.update o1.minDist e.rid e.val.v
        else o1.minDist,
      mutex := o1.mutex } (fun e' he' => hmut _ (hmem e' (Or.inr (Or.inr he'))))
  refine ⟨o1, _, o3, a1, mergeStep_eq e o1 he, c1, ?_, ?_, ?_, c3 i⟩
  · show (if e.val.v < o1.minDist e.rid then Function.update o1.minDist e.rid e.val.v
      else o1.minDist) i ≤ o1.minDist i
    split_ifs with hlt
    · by_cases hie : i = e.rid
      · subst hie; rw [Function.update_same]; exact le_of_lt hlt
      · rw [Function.update_noteq hie]
    · exact le_refl _
  · show (if e.val.v < o1.minDist e.rid then Function.update o1.minDist e.rid e.val.v
      else o1.minDist) i = o1.minDist i ∨ (e.rid = i ∧
      (if e.val.v < o1.minDist e.rid then Function.update o1.minDist e.rid e.val.v
      else o1.minDist) i = e.val.v ∧ e.val.v < o1.minDist i)
    split_ifs with hlt
    · by_cases hie : i = e.rid
      · subst hie
        exact Or.inr ⟨rfl, Function.update_same _ _ _, hlt⟩
      · exact Or.inl (Function.update_noteq hie _ _)
    · exact Or.inl rfl
  · exact le_trans (a3 i) (le_of_eq (hin i hi).2.1)

/-- C7: for `m ≥ 1` and `n = 0`, `fusedL2NN` returns with `min[i] = -1` and
`minDist[i] = maxVal` for every `i < m`. -/
theorem degenerate_no_columns (A : Params α) (s : Nat → Nat → Nat → α)
    (sched : List (Merge α) → List (Merge α)) (o : Out α) (hm : 1 ≤ A.m) (hn : A.n = 0) :
    ∃ r, fusedL2NN A s sched o = some r ∧
      ∀ i, i < A.m → r.out.min i = -1 ∧ r.out.minDist i = A.maxVal := by
  rw [fusedL2NN_eq, fusedL2NNImpl_cases, if_neg (by omega), if_pos hn]
  obtain ⟨hin, _⟩ := initOut_spec A o
  exact ⟨_, rfl, fun i hi => ⟨(hin i hi).1, (hin i hi).2.1⟩⟩

/-- C8 (as amended): `fusedL2NN` checks no shape before it launches. When `m ≥ 1` and
`n ≥ 1` it submits `initKernel` on `ceildiv(m, Nthreads)` blocks and `fusedL2NNkernel` on a
`ceildiv(m, Mblk) × ceildiv(n, Nblk)` grid, none of these extents being 0. When `m = 0` it
submits `initKernel` on 0 blocks; when `m ≥ 1` and `n = 0` it submits `initKernel` and then
`fusedL2NNkernel` on a grid whose second extent is 0; in both cases the call ends with the
error of that launch. -/
theorem launch_extents (A : Params α) (s : Nat → Nat → Nat → α)
    (sched : List (Merge α) → List (Merge α)) (o : Out α) (hsched : ∀ l, (sched l).Perm l) :
    ∃ r, fusedL2NN A s sched o = some r ∧
      (1 ≤ A.m → 1 ≤ A.n →
        r.launches = [⟨ceildiv A.m 256, 1, 256⟩, ⟨ceildiv A.m 64, ceildiv A.n 64, 256⟩] ∧
        r.status = cudaError_t.cudaSuccess ∧
        ∀ l ∈ r.launches, l.gridX ≠ 0 ∧ l.gridY ≠ 0 ∧ l.blk ≠ 0) ∧
      (A.m = 0 → r.launches = [⟨0, 1, 256⟩] ∧
        r.status = cudaError_t.cudaErrorInvalidConfiguration) ∧
      (1 ≤ A.m → A.n = 0 →
        r.launches = [⟨ceildiv A.m 256, 1, 256⟩, ⟨ceildiv A.m 64, 0, 256⟩] ∧
        r.status = cudaError_t.cudaErrorInvalidConfiguration) := by
  have z1 := ceildiv_eq_zero A.m 256 (by omega)
  have z2 := ceildiv_eq_zero A.m 64 (by omega)
  have z3 := ceildiv_eq_zero A.n 64 (by omega)
  rw [fusedL2NN_eq, fusedL2NNImpl_cases]
  by_cases hm : A.m = 0
  · rw [if_pos hm]
    refine ⟨_, rfl, fun h => by omega, fun _ => ⟨?_, rfl⟩, fun h => by omega⟩
    show [(⟨ceildiv A.m 256, 1, 256⟩ : Launch)] = [⟨0, 1, 256⟩]
    rw [z1.2 hm]
  · rw [if_neg hm]
    by_cases hn : A.n = 0
    · rw [if_pos hn]
      refine ⟨_, rfl, fun _ h => by omega, fun h => absurd h hm, fun _ _ => ⟨?_, rfl⟩⟩
      show [(⟨ceildiv A.m 256, 1, 256⟩ : Launch), ⟨ceildiv A.m 64, ceildiv A.n 64, 256⟩] = _
      rw [z3.2 hn]
    · rw [if_neg hn]
      obtain ⟨hin, _⟩ := initOut_spec A o
      obtain ⟨o3, h1, _⟩ := kernel_run (Policy (chooseVeclen A.k)) A s sched hsched
        (ceildiv A.m 64) (ceildiv A.n 64) (initOut A o) (fun i hi => (hin i hi).2.2)
      rw [h1]
      refine ⟨_, rfl, fun _ _ => ⟨rfl, rfl, ?_⟩, fun h => absurd h hm, fun _ h => absurd h hn⟩
      intro l hl
      have hl' : l = ⟨ceildiv A.m 256, 1, 256⟩ ∨ l = ⟨ceildiv A.m 64, ceildiv A.n 64, 256⟩ := by
        simpa using hl
      rcases hl' with rfl | rfl
      · exact ⟨fun h => hm (z1.1 h), Nat.one_ne_zero, by show (256 : Nat) ≠ 0; omega⟩
      · exact ⟨fun h => hm (z2.1 h), fun h => hn (z3.1 h), by show (256 : Nat) ≠ 0; omega⟩

end

/-- Three merges of row 0 of `unitParams` with the distances 7, 4 and 9. -/
theorem minDist_nonincreasing_witness :
    ∃ o1 o2 o3, runMerges [⟨0, ⟨0, 7⟩⟩] (initOut unitParams zeroOut) = some o1 ∧
      mergeStep ⟨0, ⟨0, 4⟩⟩ o1 = some o2 ∧
      runMerges [⟨0, ⟨0, 9⟩⟩] o2 = some o3 ∧
      o2.minDist 0 ≤ o1.minDist 0 ∧
      (o2.minDist 0 = o1.minDist 0 ∨
        ((⟨0, ⟨0, 4⟩⟩ : Merge Int).rid = 0 ∧ o2.minDist 0 = (⟨0, ⟨0, 4⟩⟩ : Merge Int).val.v ∧
          (⟨0, ⟨0, 4⟩⟩ : Merge Int).val.v < o1.minDist 0)) ∧
      o1.minDist 0 ≤ unitParams.maxVal ∧ o3.minDist 0 ≤ o2.minDist 0 :=
  minDist_nonincreasing unitParams zeroOut [⟨0, ⟨0, 7⟩⟩] [⟨0, ⟨0, 9⟩⟩] ⟨0, ⟨0, 4⟩⟩ 0
    (by decide) (by decide)

/-- Two rows of `x`, no row of `y`. -/
theorem degenerate_no_columns_witness :
    ∃ r, fusedL2NN noColsParams zeroSmem id zeroOut = some r ∧
      ∀ i, i < noColsParams.m → r.out.min i = -1 ∧ r.out.minDist i = noColsParams.maxVal :=
  degenerate_no_columns noColsParams zeroSmem id zeroOut (by decide) (by decide)

/-- The launches of the call on `unitParams`. -/
theorem launch_extents_witness :
    ∃ r, fusedL2NN unitParams zeroSmem id zeroOut = some r ∧
      (1 ≤ unitParams.m → 1 ≤ unitParams.n →
        r.launches = [⟨ceildiv unitParams.m 256, 1, 256⟩,
          ⟨ceildiv unitParams.m 64, ceildiv unitParams.n 64, 256⟩] ∧
        r.status = cudaError_t.cudaSuccess ∧
        ∀ l ∈ r.launches, l.gridX ≠ 0 ∧ l.gridY ≠ 0 ∧ l.blk ≠ 0) ∧
      (unitParams.m = 0 → r.launches = [⟨0, 1, 256⟩] ∧
        r.status = cudaError_t.cudaErrorInvalidConfiguration) ∧
      (1 ≤ unitParams.m → unitParams.n = 0 →
        r.launches = [⟨ceildiv unitParams.m 256, 1, 256⟩, ⟨ceildiv unitParams.m 64, 0, 256⟩] ∧
        r.status = cudaError_t.cudaErrorInvalidConfiguration) :=
  launch_extents unitParams zeroSmem id zeroOut (fun l => List.Perm.refl l)

/-- C8 (counterexample): called with `m = 0` the dispatcher submits `initKernel` on a grid of
0 blocks, and called with `m = 2`, `n = 0` it submits `fusedL2NNkernel` on a `1 × 0` grid. -/
theorem launch_extents_counterexample :
    (fusedL2NN noRowsParams zeroSmem id zeroOut).map (fun r => r.launches) =
      some [⟨0, 1, 256⟩] ∧
    (fusedL2NN noColsParams zeroSmem id zeroOut).map (fun r => r.launches) =
      some [⟨1, 1, 256⟩, ⟨1, 0, 256⟩] := by
  constructor
  · rw [fusedL2NN_eq, fusedL2NNImpl_cases]
    rfl
  · rw [fusedL2NN_eq, fusedL2NNImpl_cases]
    rfl

section
variable {α : Type} [LinearOrderedCommRing α]

/-- C9: with the vector width that `fusedL2NN` chooses for `k`, for every block, thread,
K-offset `kidx` that is a multiple of 32 and load slot `i`: when the guard of `ldgstsX`
(resp. `ldgstsY`) holds, the registers `data[i]` are the `Veclen` elements read at the load
address, this address is the one of row `xrowid + i * LdgRowsX` at column `koffset`, the
`Veclen` columns read stay inside the row (`koffset + Veclen ≤ k`) and the `Veclen` positions
read lie below `m * k` (resp. `n * k`); when the guard fails, the staged values are all
zero. -/
theorem loader_in_bounds (A : Params α) (blkX blkY tid kidx i : Nat) (hkidx : kidx % 32 = 0) :
    (ldgGuardX (Policy (chooseVeclen A.k)) A.m A.k blkX tid kidx i →
      ldgDataX (Policy (chooseVeclen A.k)) A blkX tid kidx i =
        ldg A.x (ldgAddrX (Policy (chooseVeclen A.k)) A.k blkX tid kidx i) ∧
      ldgAddrX (Policy (chooseVeclen A.k)) A.k blkX tid kidx i =
        (xrowid (Policy (chooseVeclen A.k)) blkX tid +
          i * (Policy (chooseVeclen A.k)).LdgRowsX) * A.k +
          (kidx + scolid (Policy (chooseVeclen A.k)) tid) ∧
      kidx + scolid (Policy (chooseVeclen A.k)) tid + (Policy (chooseVeclen A.k)).Veclen ≤ A.k ∧
      ldgAddrX (Policy (chooseVeclen A.k)) A.k blkX tid kidx i +
        (Policy (chooseVeclen A.k)).Veclen ≤ A.m * A.k) ∧
    (¬ ldgGuardX (Policy (chooseVeclen A.k)) A.m A.k blkX tid kidx i →
      ∀ v, ldgDataX (Policy (chooseVeclen A.k)) A blkX tid kidx i v = 0) ∧
    (ldgGuardY (Policy (chooseVeclen A.k)) A.n A.k blkY tid kidx i →
      ldgDataY (Policy (chooseVeclen A.k)) A blkY tid kidx i =
        ldg A.y (ldgAddrY (Policy (chooseVeclen A.k)) A.k blkY tid kidx i) ∧
      ldgAddrY (Policy (chooseVeclen A.k)) A.k blkY tid kidx i =
        (yrowid (Policy (chooseVeclen A.k)) blkY tid +
          i * (Policy (chooseVeclen A.k)).LdgRowsY) * A.k +
          (kidx + scolid (Policy (chooseVeclen A.k)) tid) ∧
      kidx + scolid (Policy (chooseVeclen A.k)) tid + (Policy (chooseVeclen A.k)).Veclen ≤ A.k ∧
      ldgAddrY (Policy (chooseVeclen A.k)) A.k blkY tid kidx i +
        (Policy (chooseVeclen A.k)).Veclen ≤ A.n * A.k) ∧
    (¬ ldgGuardY (Policy (chooseVeclen A.k)) A.n A.k blkY tid kidx i →
      ∀ v, ldgDataY (Policy (chooseVeclen A.k)) A blkY tid kidx i v = 0) := by
  have hV := chooseVeclen_mem A.k
  have hk := chooseVeclen_dvd A.k
  refine ⟨?_, ?_, ?_, ?_⟩
  · intro hg
    exact ⟨by unfold ldgDataX; rw [if_pos hg],
      ldgX_bounds _ hV A.m A.k hk blkX tid kidx i hkidx hg⟩
  · intro hg v
    unfold ldgDataX; rw [if_neg hg]
  · intro hg
    exact ⟨by unfold ldgDataY; rw [if_pos hg],
      ldgX_bounds _ hV A.n A.k hk blkY tid kidx i hkidx hg⟩
  · intro hg v
    unfold ldgDataY; rw [if_neg hg]

/-- C10: `fusedL2NN` runs `fusedL2NNImpl` (hence every tile of the grid) with one vector
width, which is 4 if `k` is divisible by 4, else 2 if `k` is divisible by 2, else 1; this
width divides `k` and no element of `{1, 2, 4}` dividing `k` is larger. -/
theorem veclen_choice (A : Params α) (s : Nat → Nat → Nat → α)
    (sched : List (Merge α) → List (Merge α)) (o : Out α) :
    fusedL2NN A s sched o = fusedL2NNImpl (chooseVeclen A.k) A s sched o ∧
    chooseVeclen A.k = (if A.k % 4 = 0 then 4 else if A.k % 2 = 0 then 2 else 1) ∧
    chooseVeclen A.k ∣ A.k ∧
    (chooseVeclen A.k = 1 ∨ chooseVeclen A.k = 2 ∨ chooseVeclen A.k = 4) ∧
    ∀ v, (v = 1 ∨ v = 2 ∨ v = 4) → v ∣ A.k → v ≤ chooseVeclen A.k := by
  refine ⟨fusedL2NN_eq A s sched o, rfl, chooseVeclen_dvd A.k, chooseVeclen_mem A.k, ?_⟩
  intro v hv hd
  unfold chooseVeclen
  rcases hv with rfl | rfl | rfl
  · split_ifs <;> decide
  · have : A.k % 2 = 0 := Nat.mod_eq_zero_of_dvd hd
    split_ifs <;> omega
  · have : A.k % 4 = 0 := Nat.mod_eq_zero_of_dvd hd
    rw [if_pos this]

end

/-- Thread 16 of block `(0, 0)` on the input of the scenario, first load slot, `kidx = 0`. -/
theorem loader_in_bounds_witness :
    (ldgGuardX (Policy (chooseVeclen (scenarioParams 1000).k)) (scenarioParams 1000).m
        (scenarioParams 1000).k 0 16 0 0 →
      ldgDataX (Policy (chooseVeclen (scenarioParams 1000).k)) (scenarioParams 1000) 0 16 0 0 =
        ldg (scenarioParams 1000).x
          (ldgAddrX (Policy (chooseVeclen (scenarioParams 1000).k)) (scenarioParams 1000).k
            0 16 0 0) ∧
      ldgAddrX (Policy (chooseVeclen (scenarioParams 1000).k)) (scenarioParams 1000).k 0 16 0 0 =
        (xrowid (Policy (chooseVeclen (scenarioParams 1000).k)) 0 16 +
          0 * (Policy (chooseVeclen (scenarioParams 1000).k)).LdgRowsX) *
            (scenarioParams 1000).k +
          (0 + scolid (Policy (chooseVeclen (scenarioParams 1000).k)) 16) ∧
      0 + scolid (Policy (chooseVeclen (scenarioParams 1000).k)) 16 +
        (Policy (chooseVeclen (scenarioParams 1000).k)).Veclen ≤ (scenarioParams 1000).k ∧
      ldgAddrX (Policy (chooseVeclen (scenarioParams 1000).k)) (scenarioParams 1000).k 0 16 0 0 +
        (Policy (chooseVeclen (scenarioParams 1000).k)).Veclen ≤
        (scenarioParams 1000).m * (scenarioParams 1000).k) ∧
    (¬ ldgGuardX (Policy (chooseVeclen (scenarioParams 1000).k)) (scenarioParams 1000).m
        (scenarioParams 1000).k 0 16 0 0 →
      ∀ v, ldgDataX (Policy (chooseVeclen (scenarioParams 1000).k)) (scenarioParams 1000)
        0 16 0 0 v = 0) ∧
    (ldgGuardY (Policy (chooseVeclen (scenarioParams 1000).k)) (scenarioParams 1000).n
        (scenarioParams 1000).k 0 16 0 0 →
      ldgDataY (Policy (chooseVeclen (scenarioParams 1000).k)) (scenarioParams 1000) 0 16 0 0 =
        ldg (scenarioParams 1000).y
          (ldgAddrY (Policy (chooseVeclen (scenarioParams 1000).k)) (scenarioParams 1000).k
            0 16 0 0) ∧
      ldgAddrY (Policy (chooseVeclen (scenarioParams 1000).k)) (scenarioParams 1000).k 0 16 0 0 =
        (yrowid (Policy (chooseVeclen (scenarioParams 1000).k)) 0 16 +
          0 * (Policy (chooseVeclen (scenarioParams 1000).k)).LdgRowsY) *
            (scenarioParams 1000).k +
          (0 + scolid (Policy (chooseVeclen (scenarioParams 1000).k)) 16) ∧
      0 + scolid (Policy (chooseVeclen (scenarioParams 1000).k)) 16 +
        (Policy (chooseVeclen (scenarioParams 1000).k)).Veclen ≤ (scenarioParams 1000).k ∧
      ldgAddrY (Policy (chooseVeclen (scenarioParams 1000).k)) (scenarioParams 1000).k 0 16 0 0 +
        (Policy (chooseVeclen (scenarioParams 1000).k)).Veclen ≤
        (scenarioParams 1000).n * (scenarioParams 1000).k) ∧
    (¬ ldgGuardY (Policy (chooseVeclen (scenarioParams 1000).k)) (scenarioParams 1000).n
        (scenarioParams 1000).k 0 16 0 0 →
      ∀ v, ldgDataY (Policy (chooseVeclen (scenarioParams 1000).k)) (scenarioParams 1000)
        0 16 0 0 v = 0) :=
  loader_in_bounds (scenarioParams 1000) 0 0 16 0 0 (by decide)

section
variable {α : Type}

/-- C11: for `m ≥ 1`, the launch of `initKernel` on `ceildiv(m, Nthreads)` blocks of
`Nthreads` threads is accepted and, after the memset of the workspace and `initKernel`, every
row `i < m` has `min[i] = -1`, `minDist[i] = maxVal` and `mutex[i] = 0`; every row `i < m` is
the global index `blockIdx.x * blockDim.x + threadIdx.x` of a thread of the launch; the
entries of `min` and `minDist` at indices `≥ m` are as before. -/
theorem initializer_postcondition (V : Nat) (A : Params α) (o : Out α) (hm : 1 ≤ A.m) :
    (⟨ceildiv A.m (Policy V).Nthreads, 1, (Policy V).Nthreads⟩ : Launch).status =
      cudaError_t.cudaSuccess ∧
    (∀ i, i < A.m →
      (initKernel A.m A.maxVal (ceildiv A.m (Policy V).Nthreads) (Policy V).Nthreads
        (memsetWorkspace A.m o)).min i = -1 ∧
      (initKernel A.m A.maxVal (ceildiv A.m (Policy V).Nthreads) (Policy V).Nthreads
        (memsetWorkspace A.m o)).minDist i = A.maxVal ∧
      (initKernel A.m A.maxVal (ceildiv A.m (Policy V).Nthreads) (Policy V).Nthreads
        (memsetWorkspace A.m o)).mutex i = 0) ∧
    (∀ i, i < A.m → ∃ blk t, blk < ceildiv A.m (Policy V).Nthreads ∧ t < (Policy V).Nthreads ∧
      blk * (Policy V).Nthreads + t = i) ∧
    (∀ i, A.m ≤ i →
      (initKernel A.m A.maxVal (ceildiv A.m (Policy V).Nthreads) (Policy V).Nthreads
        (memsetWorkspace A.m o)).min i = o.min i ∧
      (initKernel A.m A.maxVal (ceildiv A.m (Policy V).Nthreads) (Policy V).Nthreads
        (memsetWorkspace A.m o)).minDist i = o.minDist i) := by
  have hT : (Policy V).Nthreads = 256 := rfl
  rw [hT]
  obtain ⟨hin, hout⟩ := initOut_spec A o
  have hle := le_ceildiv_mul_gen A.m 256 (by omega)
  refine ⟨?_, hin, ?_, fun i hi => ⟨(hout i hi).1, (hout i hi).2.1⟩⟩
  · have h0 : ceildiv A.m 256 ≠ 0 := fun h => by
      have := (ceildiv_eq_zero A.m 256 (by omega)).1 h
      omega
    simp [Launch.status, h0]
  · intro i hi
    refine ⟨i / 256, i % 256, ?_, Nat.mod_lt _ (by omega), by omega⟩
    have : i < ceildiv A.m 256 * 256 := by omega
    omega

end

/-- C12: for every parameter tuple `(Veclen, Kblk, rpt, cpt, tr, tc)` and every element size,
`KernelPolicy` yields `Nthreads = tr * tc`, `Mblk = rpt * tr`, `Nblk = cpt * tc`,
`SmemStride = Kblk + Veclen` and `SmemSize = SmemStride * (Mblk + Nblk) * sizeof(DataT)`; for
the policy of the dispatcher this is `Nthreads = 256`, `Mblk = Nblk = 64` and
`SmemSize = (32 + Veclen) * 128 * sizeof(DataT)`. -/
theorem tile_config (veclen kblk rpt cpt tr tc sizeofDataT : Nat) :
    (KernelPolicy.mk veclen kblk rpt cpt tr tc).Nthreads = tr * tc ∧
    (KernelPolicy.mk veclen kblk rpt cpt tr tc).Mblk = rpt * tr ∧
    (KernelPolicy.mk veclen kblk rpt cpt tr tc).Nblk = cpt * tc ∧
    (KernelPolicy.mk veclen kblk rpt cpt tr tc).SmemStride = kblk + veclen ∧
    (KernelPolicy.mk veclen kblk rpt cpt tr tc).SmemSize sizeofDataT =
      (KernelPolicy.mk veclen kblk rpt cpt tr tc).SmemStride *
        ((KernelPolicy.mk veclen kblk rpt cpt tr tc).Mblk +
          (KernelPolicy.mk veclen kblk rpt cpt tr tc).Nblk) * sizeofDataT ∧
    (Policy veclen).Nthreads = 256 ∧ (Policy veclen).Mblk = 64 ∧ (Policy veclen).Nblk = 64 ∧
    (Policy veclen).SmemSize sizeofDataT = (32 + veclen) * 128 * sizeofDataT := by
  refine ⟨rfl, rfl, rfl, rfl, ?_, rfl, rfl, rfl, ?_⟩
  · simp only [KernelPolicy.SmemSize, KernelPolicy.SmemPage, KernelPolicy.SmemPageX,
      KernelPolicy.SmemPageY]
    ring
  · simp only [KernelPolicy.SmemSize, KernelPolicy.SmemPage, KernelPolicy.SmemPageX,
      KernelPolicy.SmemPageY, KernelPolicy.SmemStride, KernelPolicy.Mblk, KernelPolicy.Nblk,
      Policy]
    ring

theorem div_floor (a b : Nat) (hb : b ≠ 0) :
    a / b * b ≤ a ∧ a < (a / b + 1) * b ∧ (a % b ≠ 0 → a / b * b < a) := by
  have h1 := Nat.div_add_mod a b
  have h2 := Nat.mod_lt a (Nat.pos_of_ne_zero hb)
  have h3 : (a / b + 1) * b = b * (a / b) + b := by ring
  have h4 : a / b * b = b * (a / b) := Nat.mul_comm _ _
  rw [h3, h4]
  refine ⟨by omega, by omega, fun h => by omega⟩

theorem policy_divisors (V : Nat) (hV : V = 1 ∨ V = 2 ∨ V = 4) :
    ((Policy V).Veclen ≠ 0 ∧ (Policy V).Nthreads ≠ 0 ∧ (Policy V).LdgPerThX ≠ 0 ∧
      (Policy V).LdgPerThY ≠ 0) ∧
    (Policy V).LdgThK * (Policy V).Veclen = (Policy V).Kblk ∧
    (Policy V).LdgPerThX * (Policy V).Nthreads = (Policy V).Mblk * (Policy V).LdgThK ∧
    (Policy V).LdgPerThY * (Policy V).Nthreads = (Policy V).Nblk * (Policy V).LdgThK ∧
    (Policy V).LdgRowsX * (Policy V).LdgPerThX = (Policy V).Mblk ∧
    (Policy V).LdgRowsY * (Policy V).LdgPerThY = (Policy V).Nblk := by
  rcases hV with rfl | rfl | rfl <;> decide

/-- C13 (as amended): `KernelPolicy` has no check of its parameters. For every parameter tuple
whose divisors `Veclen`, `Nthreads`, `LdgPerThX` and `LdgPerThY` are not zero (the tuples for
which the enum is well-formed), the load geometry is the integer quotient rounded down:
`LdgThK = Kblk / Veclen`, `LdgPerThX = Mblk * LdgThK / Nthreads`,
`LdgPerThY = Nblk * LdgThK / Nthreads`, `LdgRowsX = Mblk / LdgPerThX`,
`LdgRowsY = Nblk / LdgPerThY`, and it falls short of the exact quotient whenever `Kblk` is
not divisible by `Veclen` or `Mblk * LdgThK` (`Nblk * LdgThK`) is not divisible by
`Nthreads`. For the policies that the dispatcher instantiates (`Veclen` 1, 2 or 4) no
divisor is zero and every one of these divisions is exact. -/
theorem policy_load_geometry (P : KernelPolicy) (V : Nat) (hVec : P.Veclen ≠ 0)
    (hT : P.Nthreads ≠ 0) (hX : P.LdgPerThX ≠ 0) (hY : P.LdgPerThY ≠ 0)
    (hV : V = 1 ∨ V = 2 ∨ V = 4) :
    (P.LdgThK * P.Veclen ≤ P.Kblk ∧ P.Kblk < (P.LdgThK + 1) * P.Veclen ∧
      (P.Kblk % P.Veclen ≠ 0 → P.LdgThK * P.Veclen < P.Kblk)) ∧
    (P.LdgPerThX * P.Nthreads ≤ P.Mblk * P.LdgThK ∧
      P.Mblk * P.LdgThK < (P.LdgPerThX + 1) * P.Nthreads ∧
      ((P.Mblk * P.LdgThK) % P.Nthreads ≠ 0 →
        P.LdgPerThX * P.Nthreads < P.Mblk * P.LdgThK)) ∧
    (P.LdgPerThY * P.Nthreads ≤ P.Nblk * P.LdgThK ∧
      P.Nblk * P.LdgThK < (P.LdgPerThY + 1) * P.Nthreads ∧
      ((P.Nblk * P.LdgThK) % P.Nthreads ≠ 0 →
        P.LdgPerThY * P.Nthreads < P.Nblk * P.LdgThK)) ∧
    (P.LdgRowsX * P.LdgPerThX ≤ P.Mblk ∧ P.Mblk < (P.LdgRowsX + 1) * P.LdgPerThX) ∧
    (P.LdgRowsY * P.LdgPerThY ≤ P.Nblk ∧ P.Nblk < (P.LdgRowsY + 1) * P.LdgPerThY) ∧
    ((Policy V).Veclen ≠ 0 ∧ (Policy V).Nthreads ≠ 0 ∧ (Policy V).LdgPerThX ≠ 0 ∧
      (Policy V).LdgPerThY ≠ 0) ∧
    (Policy V).LdgThK * (Policy V).Veclen = (Policy V).Kblk ∧
    (Policy V).LdgPerThX * (Policy V).Nthreads = (Policy V).Mblk * (Policy V).LdgThK ∧
    (Policy V).LdgPerThY * (Policy V).Nthreads = (Policy V).Nblk * (Policy V).LdgThK ∧
    (Policy V).LdgRowsX * (Policy V).LdgPerThX = (Policy V).Mblk ∧
    (Policy V).LdgRowsY * (Policy V).LdgPerThY = (Policy V).Nblk := by
  refine ⟨div_floor P.Kblk P.Veclen hVec, div_floor (P.Mblk * P.LdgThK) P.Nthreads hT,
    div_floor (P.Nblk * P.LdgThK) P.Nthreads hT,
    ⟨(div_floor P.Mblk P.LdgPerThX hX).1, (div_floor P.Mblk P.LdgPerThX hX).2.1⟩,
    ⟨(div_floor P.Nblk P.LdgPerThY hY).1, (div_floor P.Nblk P.LdgPerThY hY).2.1⟩,
    policy_divisors V hV⟩

/-- The tuple `(3, 32, 4, 4, 16, 16)`, whose divisors are not zero and whose divisions are not
exact, and the policy of the dispatcher with `Veclen = 2`. -/
theorem policy_load_geometry_witness :
    (truncPolicy.LdgThK * truncPolicy.Veclen ≤ truncPolicy.Kblk ∧ truncPolicy.Kblk <
      (truncPolicy.LdgThK + 1) * truncPolicy.Veclen ∧
      (truncPolicy.Kblk % truncPolicy.Veclen ≠ 0 → truncPolicy.LdgThK * truncPolicy.Veclen <
        truncPolicy.Kblk)) ∧
    (truncPolicy.LdgPerThX * truncPolicy.Nthreads ≤ truncPolicy.Mblk * truncPolicy.LdgThK ∧
      truncPolicy.Mblk * truncPolicy.LdgThK < (truncPolicy.LdgPerThX + 1) * truncPolicy.Nthreads ∧
      ((truncPolicy.Mblk * truncPolicy.LdgThK) % truncPolicy.Nthreads ≠ 0 →
        truncPolicy.LdgPerThX * truncPolicy.Nthreads < truncPolicy.Mblk * truncPolicy.LdgThK)) ∧
    (truncPolicy.LdgPerThY * truncPolicy.Nthreads ≤ truncPolicy.Nblk * truncPolicy.LdgThK ∧
      truncPolicy.Nblk * truncPolicy.LdgThK < (truncPolicy.LdgPerThY + 1) * truncPolicy.Nthreads ∧
      ((truncPolicy.Nblk * truncPolicy.LdgThK) % truncPolicy.Nthreads ≠ 0 →
        truncPolicy.LdgPerThY * truncPolicy.Nthreads < truncPolicy.Nblk * truncPolicy.LdgThK)) ∧
    (truncPolicy.LdgRowsX * truncPolicy.LdgPerThX ≤ truncPolicy.Mblk ∧ truncPolicy.Mblk <
      (truncPolicy.LdgRowsX + 1) * truncPolicy.LdgPerThX) ∧
    (truncPolicy.LdgRowsY * truncPolicy.LdgPerThY ≤ truncPolicy.Nblk ∧ truncPolicy.Nblk <
      (truncPolicy.LdgRowsY + 1) * truncPolicy.LdgPerThY) ∧
    ((Policy 2).Veclen ≠ 0 ∧ (Policy 2).Nthreads ≠ 0 ∧ (Policy 2).LdgPerThX ≠ 0 ∧
      (Policy 2).LdgPerThY ≠ 0) ∧
    (Policy 2).LdgThK * (Policy 2).Veclen = (Policy 2).Kblk ∧
    (Policy 2).LdgPerThX * (Policy 2).Nthreads = (Policy 2).Mblk * (Policy 2).LdgThK ∧
    (Policy 2).LdgPerThY * (Policy 2).Nthreads = (Policy 2).Nblk * (Policy 2).LdgThK ∧
    (Policy 2).LdgRowsX * (Policy 2).LdgPerThX = (Policy 2).Mblk ∧
    (Policy 2).LdgRowsY * (Policy 2).LdgPerThY = (Policy 2).Nblk :=
  policy_load_geometry truncPolicy 2 (by decide) (by decide) (by decide) (by decide) (by decide)

/-- C13 (counterexample): the tuple `(Veclen, Kblk, rpt, cpt, tr, tc) = (3, 32, 4, 4, 16, 16)`
has `Kblk` not divisible by `Veclen` and `Mblk * (Kblk / Veclen) = 640` not divisible by
`Nthreads = 256`; the policy is built all the same, with the truncated values `LdgThK = 10`,
`LdgPerThX = LdgPerThY = 2` and `LdgRowsX = LdgRowsY = 32`. -/
theorem policy_validation_counterexample :
    (KernelPolicy.mk 3 32 4 4 16 16).Kblk % (KernelPolicy.mk 3 32 4 4 16 16).Veclen ≠ 0 ∧
    ((KernelPolicy.mk 3 32 4 4 16 16).Mblk *
      ((KernelPolicy.mk 3 32 4 4 16 16).Kblk / (KernelPolicy.mk 3 32 4 4 16 16).Veclen)) %
      (KernelPolicy.mk 3 32 4 4 16 16).Nthreads ≠ 0 ∧
    (KernelPolicy.mk 3 32 4 4 16 16).LdgThK = 10 ∧
    (KernelPolicy.mk 3 32 4 4 16 16).LdgPerThX = 2 ∧
    (KernelPolicy.mk 3 32 4 4 16 16).LdgPerThY = 2 ∧
    (KernelPolicy.mk 3 32 4 4 16 16).LdgRowsX = 32 ∧
    (KernelPolicy.mk 3 32 4 4 16 16).LdgRowsY = 32 := by
  decide

/-- The initial state for one row of `x`. -/
theorem initializer_postcondition_witness :
    (⟨ceildiv unitParams.m (Policy 1).Nthreads, 1, (Policy 1).Nthreads⟩ : Launch).status =
      cudaError_t.cudaSuccess ∧
    (∀ i, i < unitParams.m →
      (initKernel unitParams.m unitParams.maxVal (ceildiv unitParams.m (Policy 1).Nthreads)
        (Policy 1).Nthreads (memsetWorkspace unitParams.m zeroOut)).min i = -1 ∧
      (initKernel unitParams.m unitParams.maxVal (ceildiv unitParams.m (Policy 1).Nthreads)
        (Policy 1).Nthreads (memsetWorkspace unitParams.m zeroOut)).minDist i =
          unitParams.maxVal ∧
      (initKernel unitParams.m unitParams.maxVal (ceildiv unitParams.m (Policy 1).Nthreads)
        (Policy 1).Nthreads (memsetWorkspace unitParams.m zeroOut)).mutex i = 0) ∧
    (∀ i, i < unitParams.m → ∃ blk t, blk < ceildiv unitParams.m (Policy 1).Nthreads ∧
      t < (Policy 1).Nthreads ∧ blk * (Policy 1).Nthreads + t = i) ∧
    (∀ i, unitParams.m ≤ i →
      (initKernel unitParams.m unitParams.maxVal (ceildiv unitParams.m (Policy 1).Nthreads)
        (Policy 1).Nthreads (memsetWorkspace unitParams.m zeroOut)).min i = zeroOut.min i ∧
      (initKernel unitParams.m unitParams.maxVal (ceildiv unitParams.m (Policy 1).Nthreads)
        (Policy 1).Nthreads (memsetWorkspace unitParams.m zeroOut)).minDist i =
          zeroOut.minDist i) :=
  initializer_postcondition 1 unitParams zeroOut (by decide)

theorem stsAddrX_eq (V tid i v : Nat) :
    stsAddrX (Policy V) tid i v =
      srowid (Policy V) tid * (Policy V).SmemStride + scolid (Policy V) tid +
        i * (Policy V).LdgRowsX * (Policy V).SmemStride + v := by
  simp [stsAddrX, sx, pageWr]

theorem stsAddrY_eq (V tid i v : Nat) :
    stsAddrY (Policy V) tid i v = 64 * (32 + V) + stsAddrX (Policy V) tid i v := by
  have h : (Policy V).LdgRowsY = (Policy V).LdgRowsX := rfl
  have hS : (Policy V).SmemStride = 32 + V := rfl
  have hP : (Policy V).SmemPageX = (32 + V) * 64 := rfl
  unfold stsAddrY stsAddrX sy sx pageWr
  rw [h, hS, hP]
  ring

theorem stsAddrX_slot (V : Nat) (hV : V = 1 ∨ V = 2 ∨ V = 4) (r c : Nat) (hr : r < 64)
    (hc : c < 32) :
    ∃! p : Nat × Nat × Nat, p.1 < 256 ∧ p.2.1 < (Policy V).LdgPerThX ∧ p.2.2 < V ∧
      stsAddrX (Policy V) p.1 p.2.1 p.2.2 = r * (32 + V) + c := by
  refine ⟨(stagingThread V r c, r / (8 * V), c % V), ?_, ?_⟩
  · simp only [stsAddrX_eq]
    rcases hV with rfl | rfl | rfl <;>
      simp only [Policy, KernelPolicy.SmemStride, KernelPolicy.LdgRowsX,
        KernelPolicy.LdgPerThX, KernelPolicy.LdgThK, KernelPolicy.Mblk,
        KernelPolicy.Nthreads, srowid, scolid, stagingThread, Nat.reduceMul,
        Nat.reduceDiv, Nat.reduceAdd] <;> omega
  · rintro ⟨tid, i, v⟩ ⟨h1, h2, h3, h4⟩
    dsimp only at h1 h2 h3 h4
    rw [stsAddrX_eq] at h4
    obtain ⟨hd1, hd2⟩ := sts_addr_decomp V hV tid i r c v hc h3 h4
    clear h4
    simp only [Prod.mk.injEq]
    rcases hV with rfl | rfl | rfl <;>
      simp only [Policy, KernelPolicy.SmemStride, KernelPolicy.LdgRowsX,
        KernelPolicy.LdgPerThX, KernelPolicy.LdgThK, KernelPolicy.Mblk,
        KernelPolicy.Nthreads, srowid, scolid, stagingThread, Nat.reduceMul,
        Nat.reduceDiv, Nat.reduceAdd] at h2 hd1 hd2 ⊢ <;> omega

section
variable {α : Type} [LinearOrderedCommRing α]

theorem padDot_eq_dotXY (A : Params α) (r c : Nat) (hr : r < A.m) (hc : c < A.n) :
    padDot A r c = dotXY A r c := by
  unfold padDot dotXY
  apply Finset.sum_congr rfl
  intro t ht
  have ht' : t < A.k := Finset.mem_range.1 ht
  unfold padX padY
  rw [if_pos ⟨hr, ht'⟩, if_pos ⟨hc, ht'⟩]

/-- C14: in exact arithmetic, for `Veclen` in `{1, 2, 4}` dividing `k` (any `k ≥ 0`), every
block, thread and local `(i, j)` whose global row `r` is below `m` and global column `c` is
below `n`, after `prolog` and `loop` the accumulator `acc[i][j]` is the sum over `t < k` of
`X[r][t] * Y[c][t]`. At every K-offset the staging phase leaves in slot `(r, c)` of the X
page (resp. Y page) the element of row `r` of the tile at column `kidx + c`, zero beyond `m`
(resp. `n`) and beyond `k`; each slot is stored by exactly one thread, load slot and vector
lane. -/
theorem k_loop_dot_product (V : Nat) (A : Params α) (s : Nat → α) (blkX blkY tid i j : Nat)
    (hV : V = 1 ∨ V = 2 ∨ V = 4) (hk : V ∣ A.k) (htid : tid < (Policy V).Nthreads)
    (hi : i < (Policy V).AccRowsPerTh) (hj : j < (Policy V).AccColsPerTh)
    (hr : blkX * (Policy V).Mblk + accrowid (Policy V) tid + i * (Policy V).AccThRows < A.m)
    (hc : blkY * (Policy V).Nblk + acccolid (Policy V) tid + j * (Policy V).AccThCols < A.n) :
    (mainLoop (Policy V) A blkX blkY (smemInit (Policy V) s)).acc tid i j =
      dotXY A (blkX * (Policy V).Mblk + accrowid (Policy V) tid + i * (Policy V).AccThRows)
        (blkY * (Policy V).Nblk + acccolid (Policy V) tid + j * (Policy V).AccThCols) ∧
    (∀ it r c (s1 : List α), s1.length = (Policy V).SmemPage → r < (Policy V).Mblk →
      c < (Policy V).Kblk →
      (ldgstsBlock (Policy V) A blkX blkY (it * (Policy V).Kblk) s1).getD
          (sx (Policy V) + r * (Policy V).SmemStride + c) 0 =
        (if blkX * (Policy V).Mblk + r < A.m ∧ it * (Policy V).Kblk + c < A.k then
          A.x ((blkX * (Policy V).Mblk + r) * A.k + (it * (Policy V).Kblk + c)) else 0) ∧
      (ldgstsBlock (Policy V) A blkX blkY (it * (Policy V).Kblk) s1).getD
          (sy (Policy V) + r * (Policy V).SmemStride + c) 0 =
        (if blkY * (Policy V).Nblk + r < A.n ∧ it * (Policy V).Kblk + c < A.k then
          A.y ((blkY * (Policy V).Nblk + r) * A.k + (it * (Policy V).Kblk + c)) else 0)) ∧
    (∀ r c, r < (Policy V).Mblk → c < (Policy V).Kblk →
      (∃! p : Nat × Nat × Nat, p.1 < (Policy V).Nthreads ∧ p.2.1 < (Policy V).LdgPerThX ∧
        p.2.2 < (Policy V).Veclen ∧
        stsAddrX (Policy V) p.1 p.2.1 p.2.2 = sx (Policy V) + r * (Policy V).SmemStride + c) ∧
      (∃! p : Nat × Nat × Nat, p.1 < (Policy V).Nthreads ∧ p.2.1 < (Policy V).LdgPerThY ∧
        p.2.2 < (Policy V).Veclen ∧
        stsAddrY (Policy V) p.1 p.2.1 p.2.2 = sy (Policy V) + r * (Policy V).SmemStride + c)) := by
  have hM : (Policy V).Mblk = 64 := rfl
  have hN : (Policy V).Nblk = 64 := rfl
  have hT : (Policy V).Nthreads = 256 := rfl
  have hK : (Policy V).Kblk = 32 := rfl
  have hS : (Policy V).SmemStride = 32 + V := rfl
  have hVec : (Policy V).Veclen = V := rfl
  have hRX : (Policy V).AccRowsPerTh = 4 := rfl
  have hCX : (Policy V).AccColsPerTh = 4 := rfl
  have hPY : (Policy V).LdgPerThY = (Policy V).LdgPerThX := rfl
  have hsx : sx (Policy V) = 0 := rfl
  have hsy : sy (Policy V) = 64 * (32 + V) := by
    simp only [sy, sx, KernelPolicy.SmemPageX, hS, hM]; ring
  have hrow : blkX * (Policy V).Mblk + accrowid (Policy V) tid + i * (Policy V).AccThRows =
      blkX * 64 + (tid / 16 + i * 16) := by
    simp only [Policy, KernelPolicy.Mblk, accrowid]; omega
  have hcol : blkY * (Policy V).Nblk + acccolid (Policy V) tid + j * (Policy V).AccThCols =
      blkY * 64 + (tid % 16 + j * 16) := by
    simp only [Policy, KernelPolicy.Nblk, acccolid]; omega
  rw [hT] at htid
  rw [hRX] at hi
  rw [hCX] at hj
  refine ⟨?_, ?_, ?_⟩
  · rw [hrow] at hr ⊢
    rw [hcol] at hc ⊢
    rw [mainLoop_acc V hV A hk blkX blkY _ (smemInit_length _ _) tid i j htid hi hj,
      padDot_eq_dotXY A _ _ hr hc]
  · intro it r c s1 hs1 hr' hc'
    rw [hM] at hr'
    rw [hK] at hc' ⊢
    rw [hsx, hsy, hS, hM, hN]
    constructor
    · have := ldgstsBlock_getD_X V hV A hk blkX blkY (it * 32) r c (by omega) hr' hc' s1 hs1
      rw [Nat.zero_add, this]
      rfl
    · have := ldgstsBlock_getD_Y V hV A hk blkX blkY (it * 32) r c (by omega) hr' hc' s1 hs1
      rw [this]
      rfl
  · intro r c hr' hc'
    rw [hM] at hr'
    rw [hK] at hc'
    rw [hT, hPY, hVec, hsx, hsy, hS]
    obtain ⟨p, hp, huniq⟩ := stsAddrX_slot V hV r c hr' hc'
    constructor
    · refine ⟨p, ?_, ?_⟩
      · obtain ⟨h1, h2, h3, h4⟩ := hp
        exact ⟨h1, h2, h3, by rw [h4]; omega⟩
      · rintro q ⟨h1, h2, h3, h4⟩
        exact huniq q ⟨h1, h2, h3, by rw [h4]; omega⟩
    · refine ⟨p, ?_, ?_⟩
      · obtain ⟨h1, h2, h3, h4⟩ := hp
        exact ⟨h1, h2, h3, by rw [stsAddrY_eq, h4]; omega⟩
      · rintro q ⟨h1, h2, h3, h4⟩
        refine huniq q ⟨h1, h2, h3, ?_⟩
        rw [stsAddrY_eq] at h4
        omega

end

/-- Thread 17 of block `(0, 0)` on the input of the scenario: it owns row 1 and column 1. -/
theorem k_loop_dot_product_witness :
    (mainLoop (Policy 2) (scenarioParams 1000) 0 0 (smemInit (Policy 2) (zeroSmem 0 0))).acc 17 0 0 =
      dotXY (scenarioParams 1000) (0 * (Policy 2).Mblk + accrowid (Policy 2) 17 + 0 * (Policy 2).AccThRows)
        (0 * (Policy 2).Nblk + acccolid (Policy 2) 17 + 0 * (Policy 2).AccThCols) ∧
    (∀ it r c (s1 : List Int), s1.length = (Policy 2).SmemPage → r < (Policy 2).Mblk →
      c < (Policy 2).Kblk →
      (ldgstsBlock (Policy 2) (scenarioParams 1000) 0 0 (it * (Policy 2).Kblk) s1).getD
          (sx (Policy 2) + r * (Policy 2).SmemStride + c) 0 =
        (if 0 * (Policy 2).Mblk + r < (scenarioParams 1000).m ∧ it * (Policy 2).Kblk + c < (scenarioParams 1000).k then
          (scenarioParams 1000).x ((0 * (Policy 2).Mblk + r) * (scenarioParams 1000).k + (it * (Policy 2).Kblk + c)) else 0) ∧
      (ldgstsBlock (Policy 2) (scenarioParams 1000) 0 0 (it * (Policy 2).Kblk) s1).getD
          (sy (Policy 2) + r * (Policy 2).SmemStride + c) 0 =
        (if 0 * (Policy 2).Nblk + r < (scenarioParams 1000).n ∧ it * (Policy 2).Kblk + c < (scenarioParams 1000).k then
          (scenarioParams 1000).y ((0 * (Policy 2).Nblk + r) * (scenarioParams 1000).k + (it * (Policy 2).Kblk + c)) else 0)) ∧
    (∀ r c, r < (Policy 2).Mblk → c < (Policy 2).Kblk →
      (∃! p : Nat × Nat × Nat, p.1 < (Policy 2).Nthreads ∧ p.2.1 < (Policy 2).LdgPerThX ∧
        p.2.2 < (Policy 2).Veclen ∧
        stsAddrX (Policy 2) p.1 p.2.1 p.2.2 = sx (Policy 2) + r * (Policy 2).SmemStride + c) ∧
      (∃! p : Nat × Nat × Nat, p.1 < (Policy 2).Nthreads ∧ p.2.1 < (Policy 2).LdgPerThY ∧
        p.2.2 < (Policy 2).Veclen ∧
        stsAddrY (Policy 2) p.1 p.2.1 p.2.2 = sy (Policy 2) + r * (Policy 2).SmemStride + c)) :=
  k_loop_dot_product 2 (scenarioParams 1000) (zeroSmem 0 0) 0 0 17 0 0 (by decide) (by decide)
    (by decide) (by decide) (by decide) (by decide) (by decide)

section
variable {α : Type} [LinearOrderedCommRing α]

theorem shflStepWith_eq (sh : (Nat → KVP α) → Nat → Nat → KVP α)
    (hsh : ∀ (f : Nat → KVP α) t src, src < WarpSize → sh f t src = f (t / WarpSize * WarpSize + src))
    (val : Nat → KVP α) (j tid : Nat) (h : tid % 32 + j < 32) :
    shflStepWith sh val j tid = sel (val tid) (val (tid + j)) := by
  have hsrc : tid / WarpSize * WarpSize + (tid % WarpSize + j) = tid + j := by
    unfold WarpSize; omega
  have hlt : tid % WarpSize + j < WarpSize := h
  unfold shflStepWith sel
  simp only [hsh val tid _ hlt, hsrc]

theorem shflReduceWith_leader (sh : (Nat → KVP α) → Nat → Nat → KVP α)
    (hsh : ∀ (f : Nat → KVP α) t src, src < WarpSize → sh f t src = f (t / WarpSize * WarpSize + src))
    (V : Nat) (val : Nat → KVP α) (tid : Nat) (h : tid % 16 = 0) :
    shflReduceWith sh (Policy V) val tid = red4 val tid := by
  have hoff : shflOffsets (Policy V).AccThCols ((Policy V).AccThCols / 2) = [8, 4, 2, 1] := by
    simp [Policy, shflOffsets]
  unfold shflReduceWith
  rw [hoff]
  simp only [List.foldl_cons, List.foldl_nil]
  have h1 : ∀ t, t % 32 + 8 < 32 → shflStepWith sh val 8 t = red1 val t :=
    fun t ht => shflStepWith_eq sh hsh val 8 t ht
  have h2 : ∀ t, t % 32 + 12 < 32 →
      shflStepWith sh (shflStepWith sh val 8) 4 t = red2 val t := by
    intro t ht
    rw [shflStepWith_eq sh hsh _ 4 t (by omega), h1 t (by omega), h1 (t + 4) (by omega)]; rfl
  have h3 : ∀ t, t % 32 + 14 < 32 →
      shflStepWith sh (shflStepWith sh (shflStepWith sh val 8) 4) 2 t = red3 val t := by
    intro t ht
    rw [shflStepWith_eq sh hsh _ 2 t (by omega), h2 t (by omega), h2 (t + 2) (by omega)]; rfl
  rw [shflStepWith_eq sh hsh _ 1 tid (by omega), h3 tid (by omega), h3 (tid + 1) (by omega)]; rfl

/-- C15: with 16 lanes per group in a 32-lane warp, for every state `val` of the candidates
before the shuffle loop and every group leader `tid` (`lid % AccThCols == 0`): after the loop
`j = 8, 4, 2, 1` the leader holds the candidate of one of the 16 lanes `tid .. tid + 15` of
its own group, and its distance is at most the distance of each of these lanes; the result
is the same for every state that agrees with `val` on these 16 lanes, and for every exchange
primitive that, like `shfl`, hands over the value of the source lane whenever that lane is
below 32 (whatever it does for source lanes `≥ 32`). -/
theorem intra_group_reduction (V : Nat) (sh : (Nat → KVP α) → Nat → Nat → KVP α)
    (val : Nat → KVP α) (tid : Nat)
    (hsh : ∀ (f : Nat → KVP α) t src, src < WarpSize →
      sh f t src = f (t / WarpSize * WarpSize + src))
    (hl : tid % WarpSize % (Policy V).AccThCols = 0) :
    (∀ q, q < 16 → (shflReduceWith sh (Policy V) val tid).v ≤ (val (tid + q)).v) ∧
    (∃ q, q < 16 ∧ shflReduceWith sh (Policy V) val tid = val (tid + q)) ∧
    (∀ val' : Nat → KVP α, (∀ q, q < 16 → val' (tid + q) = val (tid + q)) →
      shflReduceWith sh (Policy V) val' tid = shflReduceWith sh (Policy V) val tid) ∧
    shflReduceWith sh (Policy V) val tid = shflReduce (Policy V) val tid := by
  have hl' : tid % 16 = 0 := by
    have : tid % 32 % 16 = 0 := hl
    omega
  refine ⟨?_, ?_, ?_, ?_⟩
  · intro q hq
    rw [shflReduceWith_leader sh hsh V val tid hl']
    exact red4_le val tid q hq
  · rw [shflReduceWith_leader sh hsh V val tid hl']
    exact red4_mem val tid
  · intro val' hval
    rw [shflReduceWith_leader sh hsh V val tid hl', shflReduceWith_leader sh hsh V val' tid hl']
    exact red4_congr val' val tid hval
  · rw [shflReduceWith_leader sh hsh V val tid hl', shflReduce_leader V val tid hl']

theorem sqDist_nonneg (A : Params α) (r c : Nat) : 0 ≤ sqDist A r c := by
  unfold sqDist
  exact Finset.sum_nonneg (fun t _ => sq_nonneg _)

theorem sqDist_eq_zero (A : Params α) (r c : Nat)
    (h : ∀ t, t < A.k → A.x (r * A.k + t) = A.y (c * A.k + t)) : sqDist A r c = 0 := by
  unfold sqDist
  apply Finset.sum_eq_zero
  intro t ht
  rw [h t (Finset.mem_range.1 ht), sub_self]
  exact zero_pow (by decide)

theorem norms_sub_dot (A : Params α) (r c : Nat) :
    sqNorm A.x A.k r + sqNorm A.y A.k c - 2 * dotXY A r c = sqDist A r c := by
  unfold sqNorm dotXY sqDist
  rw [Finset.mul_sum, ← Finset.sum_add_distrib, ← Finset.sum_sub_distrib]
  apply Finset.sum_congr rfl
  intro t _
  ring

/-- C16: in exact arithmetic, for every thread of a block and local `(i, j)` whose global
row `r` is below `m` and global column `c` is below `n`, the compute loop of `epilog` (run on
the norms staged by the block) replaces `acc[i][j]` by `xn[r] + yn[c] - 2 * acc[i][j]`; when
`acc[i][j]` is the dot product of the two rows and `xn[r]`, `yn[c]` are their squared norms,
this is the sum over `t` of `(X[r][t] - Y[c][t])^2`, which is never negative and is 0 when
the two rows are equal element-wise. -/
theorem epilogue_distance (V : Nat) (A : Params α) (blkX blkY tid i j : Nat) (s : List α)
    (acc : Nat → Nat → α) (hs : s.length = (Policy V).SmemPage)
    (htid : tid < (Policy V).Nthreads)
    (hi : i < (Policy V).AccRowsPerTh) (hj : j < (Policy V).AccColsPerTh)
    (hr : blkX * (Policy V).Mblk + accrowid (Policy V) tid + i * (Policy V).AccThRows < A.m)
    (hc : blkY * (Policy V).Nblk + acccolid (Policy V) tid + j * (Policy V).AccThCols < A.n) :
    epilogAcc (Policy V) tid (stageNormsBlock (Policy V) A blkX blkY s) acc i j =
      A.xn (blkX * (Policy V).Mblk + accrowid (Policy V) tid + i * (Policy V).AccThRows) +
      A.yn (blkY * (Policy V).Nblk + acccolid (Policy V) tid + j * (Policy V).AccThCols) -
      2 * acc i j ∧
    (A.xn (blkX * (Policy V).Mblk + accrowid (Policy V) tid + i * (Policy V).AccThRows) =
        sqNorm A.x A.k
          (blkX * (Policy V).Mblk + accrowid (Policy V) tid + i * (Policy V).AccThRows) →
      A.yn (blkY * (Policy V).Nblk + acccolid (Policy V) tid + j * (Policy V).AccThCols) =
        sqNorm A.y A.k
          (blkY * (Policy V).Nblk + acccolid (Policy V) tid + j * (Policy V).AccThCols) →
      acc i j = dotXY A
          (blkX * (Policy V).Mblk + accrowid (Policy V) tid + i * (Policy V).AccThRows)
          (blkY * (Policy V).Nblk + acccolid (Policy V) tid + j * (Policy V).AccThCols) →
      epilogAcc (Policy V) tid (stageNormsBlock (Policy V) A blkX blkY s) acc i j =
        sqDist A (blkX * (Policy V).Mblk + accrowid (Policy V) tid + i * (Policy V).AccThRows)
          (blkY * (Policy V).Nblk + acccolid (Policy V) tid + j * (Policy V).AccThCols) ∧
      0 ≤ epilogAcc (Policy V) tid (stageNormsBlock (Policy V) A blkX blkY s) acc i j ∧
      ((∀ t, t < A.k →
          A.x ((blkX * (Policy V).Mblk + accrowid (Policy V) tid +
            i * (Policy V).AccThRows) * A.k + t) =
          A.y ((blkY * (Policy V).Nblk + acccolid (Policy V) tid +
            j * (Policy V).AccThCols) * A.k + t)) →
        epilogAcc (Policy V) tid (stageNormsBlock (Policy V) A blkX blkY s) acc i j = 0)) := by
  have hT : (Policy V).Nthreads = 256 := rfl
  have hRX : (Policy V).AccRowsPerTh = 4 := rfl
  have hCX : (Policy V).AccColsPerTh = 4 := rfl
  rw [hT] at htid
  have h128 : 128 ≤ s.length := by rw [hs, smemPage_eq]; omega
  have e1 : sxNorm (Policy V) + (i * (Policy V).AccThRows + accrowid (Policy V) tid) =
      tid / 16 + i * 16 := by
    simp only [sxNorm, accrowid, Policy]; omega
  have e2 : syNorm (Policy V) + (j * (Policy V).AccThCols + acccolid (Policy V) tid) =
      64 + (tid % 16 + j * 16) := by
    simp only [syNorm, sxNorm, acccolid, Policy, KernelPolicy.Mblk]; omega
  have hrow : blkX * (Policy V).Mblk + accrowid (Policy V) tid + i * (Policy V).AccThRows =
      blkX * 64 + (tid / 16 + i * 16) := by
    simp only [Policy, KernelPolicy.Mblk, accrowid]; omega
  have hcol : blkY * (Policy V).Nblk + acccolid (Policy V) tid + j * (Policy V).AccThCols =
      blkY * 64 + (tid % 16 + j * 16) := by
    simp only [Policy, KernelPolicy.Nblk, acccolid]; omega
  have hmain : epilogAcc (Policy V) tid (stageNormsBlock (Policy V) A blkX blkY s) acc i j =
      A.xn (blkX * (Policy V).Mblk + accrowid (Policy V) tid + i * (Policy V).AccThRows) +
      A.yn (blkY * (Policy V).Nblk + acccolid (Policy V) tid + j * (Policy V).AccThCols) -
      2 * acc i j := by
    rw [hRX] at hi
    rw [hCX] at hj
    rw [hrow] at hr ⊢
    rw [hcol] at hc ⊢
    unfold epilogAcc
    simp only []
    rw [if_pos ⟨hi, hj⟩, e1, e2, stageNormsBlock_getD_X V A blkX blkY _ (by omega) _ h128,
      stageNormsBlock_getD_Y V A blkX blkY _ (by omega) _ h128]
    unfold padXn padYn
    rw [if_pos hr, if_pos hc]
  refine ⟨hmain, ?_⟩
  intro hxn hyn hacc
  have hsq : epilogAcc (Policy V) tid (stageNormsBlock (Policy V) A blkX blkY s) acc i j =
      sqDist A (blkX * (Policy V).Mblk + accrowid (Policy V) tid + i * (Policy V).AccThRows)
        (blkY * (Policy V).Nblk + acccolid (Policy V) tid + j * (Policy V).AccThCols) := by
    rw [hmain, hxn, hyn, hacc, norms_sub_dot]
  refine ⟨hsq, ?_, ?_⟩
  · rw [hsq]; exact sqDist_nonneg A _ _
  · intro heq
    rw [hsq]; exact sqDist_eq_zero A _ _ heq

end

/-- The leader of the first group of the second warp, with `shfl` as the exchange primitive. -/
theorem intra_group_reduction_witness :
    (∀ q, q < 16 → (shflReduceWith shfl (Policy 1) descVal 32).v ≤ (descVal (32 + q)).v) ∧
    (∃ q, q < 16 ∧ shflReduceWith shfl (Policy 1) descVal 32 = descVal (32 + q)) ∧
    (∀ val' : Nat → KVP Int, (∀ q, q < 16 → val' (32 + q) = descVal (32 + q)) →
      shflReduceWith shfl (Policy 1) val' 32 = shflReduceWith shfl (Policy 1) descVal 32) ∧
    shflReduceWith shfl (Policy 1) descVal 32 = shflReduce (Policy 1) descVal 32 :=
  intra_group_reduction 1 shfl descVal 32
    (fun _ _ src h => by unfold shfl; rw [Nat.mod_eq_of_lt h]) (by decide)

/-- Thread 17 of block `(0, 0)` on the input of the scenario, with the accumulators that the
main loop leaves. -/
theorem epilogue_distance_witness :
    epilogAcc (Policy 2) 17 (stageNormsBlock (Policy 2) (scenarioParams 1000) 0 0 (smemInit (Policy 2) (zeroSmem 0 0))) ((mainLoop (Policy 2) (scenarioParams 1000) 0 0 (smemInit (Policy 2) (zeroSmem 0 0))).acc 17) 0 0 =
      (scenarioParams 1000).xn (0 * (Policy 2).Mblk + accrowid (Policy 2) 17 + 0 * (Policy 2).AccThRows) +
      (scenarioParams 1000).yn (0 * (Policy 2).Nblk + acccolid (Policy 2) 17 + 0 * (Policy 2).AccThCols) -
      2 * ((mainLoop (Policy 2) (scenarioParams 1000) 0 0 (smemInit (Policy 2) (zeroSmem 0 0))).acc 17) 0 0 ∧
    ((scenarioParams 1000).xn (0 * (Policy 2).Mblk + accrowid (Policy 2) 17 + 0 * (Policy 2).AccThRows) =
        sqNorm (scenarioParams 1000).x (scenarioParams 1000).k
          (0 * (Policy 2).Mblk + accrowid (Policy 2) 17 + 0 * (Policy 2).AccThRows) →
      (scenarioParams 1000).yn (0 * (Policy 2).Nblk + acccolid (Policy 2) 17 + 0 * (Policy 2).AccThCols) =
        sqNorm (scenarioParams 1000).y (scenarioParams 1000).k
          (0 * (Policy 2).Nblk + acccolid (Policy 2) 17 + 0 * (Policy 2).AccThCols) →
      ((mainLoop (Policy 2) (scenarioParams 1000) 0 0 (smemInit (Policy 2) (zeroSmem 0 0))).acc 17) 0 0 = dotXY (scenarioParams 1000)
          (0 * (Policy 2).Mblk + accrowid (Policy 2) 17 + 0 * (Policy 2).AccThRows)
          (0 * (Policy 2).Nblk + acccolid (Policy 2) 17 + 0 * (Policy 2).AccThCols) →
      epilogAcc (Policy 2) 17 (stageNormsBlock (Policy 2) (scenarioParams 1000) 0 0 (smemInit (Policy 2) (zeroSmem 0 0))) ((mainLoop (Policy 2) (scenarioParams 1000) 0 0 (smemInit (Policy 2) (zeroSmem 0 0))).acc 17) 0 0 =
        sqDist (scenarioParams 1000) (0 * (Policy 2).Mblk + accrowid (Policy 2) 17 + 0 * (Policy 2).AccThRows)
          (0 * (Policy 2).Nblk + acccolid (Policy 2) 17 + 0 * (Policy 2).AccThCols) ∧
      0 ≤ epilogAcc (Policy 2) 17 (stageNormsBlock (Policy 2) (scenarioParams 1000) 0 0 (smemInit (Policy 2) (zeroSmem 0 0))) ((mainLoop (Policy 2) (scenarioParams 1000) 0 0 (smemInit (Policy 2) (zeroSmem 0 0))).acc 17) 0 0 ∧
      ((∀ t, t < (scenarioParams 1000).k →
          (scenarioParams 1000).x ((0 * (Policy 2).Mblk + accrowid (Policy 2) 17 +
            0 * (Policy 2).AccThRows) * (scenarioParams 1000).k + t) =
          (scenarioParams 1000).y ((0 * (Policy 2).Nblk + acccolid (Policy 2) 17 +
            0 * (Policy 2).AccThCols) * (scenarioParams 1000).k + t)) →
        epilogAcc (Policy 2) 17 (stageNormsBlock (Policy 2) (scenarioParams 1000) 0 0 (smemInit (Policy 2) (zeroSmem 0 0))) ((mainLoop (Policy 2) (scenarioParams 1000) 0 0 (smemInit (Policy 2) (zeroSmem 0 0))).acc 17) 0 0 = 0)) :=
  epilogue_distance 2 (scenarioParams 1000) 0 0 17 0 0 (smemInit (Policy 2) (zeroSmem 0 0))
    ((mainLoop (Policy 2) (scenarioParams 1000) 0 0 (smemInit (Policy 2) (zeroSmem 0 0))).acc 17)
    (smemInit_length _ _) (by decide) (by decide) (by decide) (by decide) (by decide)

theorem countP_flatMap_range_zero {β : Type} (p : β → Bool) (f : Nat → List β) (n : Nat)
    (hzero : ∀ t, t < n → List.countP p (f t) = 0) :
    List.countP p ((List.range n).flatMap f) = 0 := by
  induction n with
  | zero => simp
  | succ n ih =>
    rw [List.range_succ, List.flatMap_append, List.countP_append,
      ih (fun t ht => hzero t (Nat.lt_succ_of_lt ht))]
    simp [hzero n (Nat.lt_succ_self n)]

theorem countP_flatMap_range_single {β : Type} (p : β → Bool) (f : Nat → List β) (n t0 : Nat)
    (h0 : t0 < n) (hone : List.countP p (f t0) = 1)
    (hzero : ∀ t, t < n → t ≠ t0 → List.countP p (f t) = 0) :
    List.countP p ((List.range n).flatMap f) = 1 := by
  induction n with
  | zero => omega
  | succ n ih =>
    rw [List.range_succ, List.flatMap_append, List.countP_append]
    by_cases h : t0 = n
    · subst h
      rw [countP_flatMap_range_zero p f t0
        (fun t ht => hzero t (Nat.lt_succ_of_lt ht) (by omega))]
      simp [hone]
    · rw [ih (by omega) (fun t ht hne => hzero t (Nat.lt_succ_of_lt ht) hne)]
      simp [hzero n (Nat.lt_succ_self n) (fun h' => h h'.symm)]

theorem owner_unique (m n r c : Nat) (hr : r < m) (hc : c < n) :
    ∃! p : Nat × Nat × Nat × Nat × Nat,
      p.1 < ceildiv m 64 ∧ p.2.1 < ceildiv n 64 ∧ p.2.2.1 < 256 ∧ p.2.2.2.1 < 4 ∧
      p.2.2.2.2 < 4 ∧ r = p.1 * 64 + p.2.2.1 / 16 + p.2.2.2.1 * 16 ∧
      c = p.2.1 * 64 + p.2.2.1 % 16 + p.2.2.2.2 * 16 := by
  refine ⟨(r / 64, c / 64, r % 16 * 16 + c % 16, r % 64 / 16, c % 64 / 16), ?_, ?_⟩
  · dsimp only
    unfold ceildiv
    refine ⟨by omega, by omega, by omega, by omega, by omega, by omega, by omega⟩
  · rintro ⟨bx, bY, tid, i, j⟩ ⟨h1, h2, h3, h4, h5, h6, h7⟩
    dsimp only at h1 h2 h3 h4 h5 h6 h7
    simp only [Prod.mk.injEq]
    refine ⟨by omega, by omega, by omega, by omega, by omega⟩

theorem leader_unique (m r : Nat) (hr : r < m) :
    ∃! p : Nat × Nat × Nat,
      p.1 < ceildiv m 64 ∧ p.2.1 < 256 ∧ p.2.1 % 32 % 16 = 0 ∧ p.2.2 < 4 ∧
      p.1 * 64 + p.2.1 / 16 + p.2.2 * 16 = r := by
  refine ⟨(r / 64, r % 16 * 16, r % 64 / 16), ?_, ?_⟩
  · dsimp only
    unfold ceildiv
    refine ⟨by omega, by omega, by omega, by omega, by omega⟩
  · rintro ⟨bx, tid, i⟩ ⟨h1, h2, h3, h4, h5⟩
    dsimp only at h1 h2 h3 h4 h5
    simp only [Prod.mk.injEq]
    refine ⟨by omega, by omega, by omega⟩

section
variable {α : Type} [LinearOrderedCommRing α]

theorem threadMerges_countP (V : Nat) (A : Params α) (blkX blkY : Nat) (s : List α)
    (tid r : Nat) (hr : r < A.m) (htid : tid < 256) :
    List.countP (fun e => decide (e.rid = r)) (threadMerges (Policy V) A blkX blkY s tid) =
      if blkX = r / 64 ∧ tid = r % 16 * 16 then 1 else 0 := by
  have hR : (Policy V).AccRowsPerTh = 4 := rfl
  have hr4 : List.range 4 = [0, 1, 2, 3] := rfl
  have hrow : ∀ i, blkX * (Policy V).Mblk + accrowid (Policy V) tid + i * (Policy V).AccThRows =
      blkX * 64 + tid / 16 + i * 16 := fun i => rfl
  unfold threadMerges
  simp only [hR, hr4, hrow]
  by_cases hl : tid % WarpSize % (Policy V).AccThCols = 0
  · rw [if_pos hl]
    have hl' : tid % 32 % 16 = 0 := hl
    simp only [List.filterMap_cons, List.filterMap_nil]
    by_cases h0 : blkX * 64 + tid / 16 + 0 * 16 < A.m <;>
    by_cases h1 : blkX * 64 + tid / 16 + 1 * 16 < A.m <;>
    by_cases h2 : blkX * 64 + tid / 16 + 2 * 16 < A.m <;>
    by_cases h3 : blkX * 64 + tid / 16 + 3 * 16 < A.m <;>
    simp only [h0, h1, h2, h3, if_true, if_false, List.countP_cons, List.countP_nil,
      decide_eq_true_eq] <;>
    split_ifs <;> omega
  · rw [if_neg hl]
    have hl' : ¬ tid % 32 % 16 = 0 := hl
    have : ¬ (blkX = r / 64 ∧ tid = r % 16 * 16) := by
      rintro ⟨_, h⟩; apply hl'; omega
    simp [this]

theorem blockMerges_countP (V : Nat) (A : Params α) (blkX blkY : Nat) (s : List α)
    (r : Nat) (hr : r < A.m) :
    List.countP (fun e => decide (e.rid = r)) (blockMerges (Policy V) A s blkX blkY) =
      if blkX = r / 64 then 1 else 0 := by
  have hT : (Policy V).Nthreads = 256 := rfl
  unfold blockMerges
  rw [hT]
  split_ifs with h
  · apply countP_flatMap_range_single _ _ 256 (r % 16 * 16) (by omega)
    · rw [threadMerges_countP V A blkX blkY s _ r hr (by omega), if_pos ⟨h, rfl⟩]
    · intro t ht hne
      rw [threadMerges_countP V A blkX blkY s t r hr ht, if_neg (fun h' => hne h'.2)]
  · apply countP_flatMap_range_zero
    intro t ht
    rw [threadMerges_countP V A blkX blkY s t r hr ht, if_neg (fun h' => h h'.1)]

/-- C17: with the grid `(ceildiv(m, Mblk), ceildiv(n, Nblk))` and `Nthreads` threads per
block, every pair `(r, c)` with `r < m` and `c < n` is owned by exactly one
`(blockIdx.x, blockIdx.y, threadIdx.x, i, j)`, and for every tile column `blockIdx.y` of the
grid exactly one `(blockIdx.x, leader thread, i)` merges row `r`: the merges of a block
contain exactly one merge of row `r` when the block is in tile row `r / Mblk`, and none
otherwise. -/
theorem output_partition (V : Nat) (A : Params α) (r c : Nat) (hr : r < A.m) (hc : c < A.n) :
    (∃! p : Nat × Nat × Nat × Nat × Nat,
      p.1 < ceildiv A.m (Policy V).Mblk ∧ p.2.1 < ceildiv A.n (Policy V).Nblk ∧
      p.2.2.1 < (Policy V).Nthreads ∧ p.2.2.2.1 < (Policy V).AccRowsPerTh ∧
      p.2.2.2.2 < (Policy V).AccColsPerTh ∧
      r = p.1 * (Policy V).Mblk + accrowid (Policy V) p.2.2.1 +
        p.2.2.2.1 * (Policy V).AccThRows ∧
      c = p.2.1 * (Policy V).Nblk + acccolid (Policy V) p.2.2.1 +
        p.2.2.2.2 * (Policy V).AccThCols) ∧
    (∀ blkY, blkY < ceildiv A.n (Policy V).Nblk →
      ∃! p : Nat × Nat × Nat,
        p.1 < ceildiv A.m (Policy V).Mblk ∧ p.2.1 < (Policy V).Nthreads ∧
        p.2.1 % WarpSize % (Policy V).AccThCols = 0 ∧ p.2.2 < (Policy V).AccRowsPerTh ∧
        p.1 * (Policy V).Mblk + accrowid (Policy V) p.2.1 + p.2.2 * (Policy V).AccThRows = r) ∧
    (∀ blkX blkY (s : List α),
      List.countP (fun e => decide (e.rid = r)) (blockMerges (Policy V) A s blkX blkY) =
        if blkX = r / (Policy V).Mblk then 1 else 0) ∧
    r / (Policy V).Mblk < ceildiv A.m (Policy V).Mblk := by
  refine ⟨owner_unique A.m A.n r c hr hc, fun _ _ => leader_unique A.m r hr,
    fun blkX blkY s => blockMerges_countP V A blkX blkY s r hr, ?_⟩
  show r / 64 < ceildiv A.m 64
  unfold ceildiv
  omega

end

/-- Row 2 and column 1 of the input of the scenario. -/
theorem output_partition_witness :
    (∃! p : Nat × Nat × Nat × Nat × Nat,
      p.1 < ceildiv (scenarioParams 1000).m (Policy 2).Mblk ∧ p.2.1 < ceildiv (scenarioParams 1000).n (Policy 2).Nblk ∧
      p.2.2.1 < (Policy 2).Nthreads ∧ p.2.2.2.1 < (Policy 2).AccRowsPerTh ∧
      p.2.2.2.2 < (Policy 2).AccColsPerTh ∧
      2 = p.1 * (Policy 2).Mblk + accrowid (Policy 2) p.2.2.1 +
        p.2.2.2.1 * (Policy 2).AccThRows ∧
      1 = p.2.1 * (Policy 2).Nblk + acccolid (Policy 2) p.2.2.1 +
        p.2.2.2.2 * (Policy 2).AccThCols) ∧
    (∀ blkY, blkY < ceildiv (scenarioParams 1000).n (Policy 2).Nblk →
      ∃! p : Nat × Nat × Nat,
        p.1 < ceildiv (scenarioParams 1000).m (Policy 2).Mblk ∧ p.2.1 < (Policy 2).Nthreads ∧
        p.2.1 % WarpSize % (Policy 2).AccThCols = 0 ∧ p.2.2 < (Policy 2).AccRowsPerTh ∧
        p.1 * (Policy 2).Mblk + accrowid (Policy 2) p.2.1 + p.2.2 * (Policy 2).AccThRows = 2) ∧
    (∀ blkX blkY (s : List Int),
      List.countP (fun e => decide (e.rid = 2)) (blockMerges (Policy 2) (scenarioParams 1000) s blkX blkY) =
        if blkX = 2 / (Policy 2).Mblk then 1 else 0) ∧
    2 / (Policy 2).Mblk < ceildiv (scenarioParams 1000).m (Policy 2).Mblk :=
  output_partition 2 (scenarioParams 1000) 2 1 (by decide) (by decide)

section
variable {α : Type} [LinearOrderedCommRing α]

theorem mergeStep_frame (e : Merge α) (o : Out α) (hm : o.mutex e.rid = 0) :
    ∃ o', mergeStep e o = some o' ∧
      (e.val.v < o.minDist e.rid → o'.min e.rid = e.val.k ∧ o'.minDist e.rid = e.val.v) ∧
      (¬ e.val.v < o.minDist e.rid →
        o'.min e.rid = o.min e.rid ∧ o'.minDist e.rid = o.minDist e.rid) ∧
      o'.mutex e.rid = 0 ∧
      ∀ i, i ≠ e.rid →
        o'.min i = o.min i ∧ o'.minDist i = o.minDist i ∧ o'.mutex i = o.mutex i := by
  refine ⟨_, mergeStep_eq e o hm, ?_, ?_, hm, ?_⟩
  · intro h
    simp [h]
  · intro h
    simp [h]
  · intro i hi
    by_cases h : e.val.v < o.minDist e.rid
    · simp [h, Function.update_noteq hi]
    · simp [h]

/-- C18: for every row `rid` with `mutex[rid] = 0` and every candidate `(k, v)`, one pass of
a leader through the critical section of `epilog` returns, leaves
`(min[rid], minDist[rid]) = (k, v)` if `v` is below the old `minDist[rid]` and unchanged
otherwise, leaves `mutex[rid] = 0`, and changes no entry of `min`, `minDist` or `mutex` at
another row. -/
theorem merge_step_frame (rid : Nat) (k : Int) (v : α) (o : Out α) (hm : o.mutex rid = 0) :
    ∃ o', mergeStep ⟨rid, ⟨k, v⟩⟩ o = some o' ∧
      (v < o.minDist rid → o'.min rid = k ∧ o'.minDist rid = v) ∧
      (¬ v < o.minDist rid → o'.min rid = o.min rid ∧ o'.minDist rid = o.minDist rid) ∧
      o'.mutex rid = 0 ∧
      ∀ i, i ≠ rid →
        o'.min i = o.min i ∧ o'.minDist i = o.minDist i ∧ o'.mutex i = o.mutex i :=
  mergeStep_frame ⟨rid, ⟨k, v⟩⟩ o hm

theorem prefix_consistent (V : Nat) (hV : V = 1 ∨ V = 2 ∨ V = 4) (A : Params α) (hk : V ∣ A.k)
    (s : Nat → Nat → Nat → α) (gx gy : Nat) (o : Out α) (es : List (Merge α))
    (hes : ∀ e ∈ es, e ∈ gridMerges (Policy V) A s gx gy) :
    ∃ o1, runMerges es (initOut A o) = some o1 ∧
      ∀ i, i < A.m →
        (o1.min i = -1 ↔ o1.minDist i = A.maxVal) ∧
        (o1.min i ≠ -1 → ∃ c : Nat, c < A.n ∧ o1.min i = (c : Int) ∧
          o1.minDist i = A.xn i + A.yn c - 2 * dotXY A i c) := by
  have hinit := (initOut_spec A o).1
  obtain ⟨o1, hrun, _, _, _, hprov⟩ := runMerges_spec es (initOut A o)
    (fun e he => (hinit e.rid (gridMerges_rid_lt _ A s gx gy e (hes e he))).2.2)
  refine ⟨o1, hrun, fun i hi => ?_⟩
  have hcase : (o1.min i = -1 ∧ o1.minDist i = A.maxVal) ∨
      ∃ c : Nat, c < A.n ∧ o1.min i = (c : Int) ∧ o1.minDist i = epiDist A i c ∧
        epiDist A i c < A.maxVal := by
    rcases hprov i with ⟨h1, h2⟩ | ⟨e, he, hrid, h1, h2⟩
    · exact Or.inl ⟨by rw [h1]; exact (hinit i hi).1, by rw [h2]; exact (hinit i hi).2.1⟩
    · obtain ⟨_, _, hl⟩ := gridMerges_leader V hV A hk s gx gy e (hes e he)
      rw [hrid] at hl
      rcases hl with ⟨h3, h4⟩ | ⟨c, hc, h3, h4, h5⟩
      · exact Or.inl ⟨by rw [h1, h3], by rw [h2, h4]⟩
      · exact Or.inr ⟨c, hc, by rw [h1, h3], by rw [h2, h4], h5⟩
  rcases hcase with ⟨h1, h2⟩ | ⟨c, hc, h1, h2, h3⟩
  · exact ⟨⟨fun _ => h2, fun _ => h1⟩, fun h => absurd h1 h⟩
  · have hne : o1.min i ≠ -1 := by rw [h1]; omega
    have hne2 : o1.minDist i ≠ A.maxVal := by rw [h2]; exact ne_of_lt h3
    refine ⟨⟨fun h => absurd h hne, fun h => absurd h hne2⟩, fun _ => ⟨c, hc, h1, ?_⟩⟩
    rw [h2]
    unfold epiDist padXn padYn
    rw [if_pos hi, if_pos hc, padDot_eq_dotXY A i c hi hc]

/-- C19: for `Veclen` in `{1, 2, 4}` dividing `k`, after the memset and `initKernel` and
after every further number `t` of merge steps of the kernel (in any order of the merges),
for every row `i < m`: `min[i] = -1` if and only if `minDist[i] = maxVal`, and whenever
`min[i] ≠ -1` it is a column `c < n` and `minDist[i]` is the epilogue distance
`xn[i] + yn[c] - 2 * dot(X[i], Y[c])` of that column. -/
theorem index_distance_consistent (V : Nat) (A : Params α) (s : Nat → Nat → Nat → α)
    (sched : List (Merge α) → List (Merge α)) (gx gy : Nat) (o : Out α) (t : Nat)
    (hV : V = 1 ∨ V = 2 ∨ V = 4) (hk : V ∣ A.k) (hsched : ∀ l, (sched l).Perm l) :
    ∃ o1, runMerges ((sched (gridMerges (Policy V) A s gx gy)).take t) (initOut A o) = some o1 ∧
      ∀ i, i < A.m →
        (o1.min i = -1 ↔ o1.minDist i = A.maxVal) ∧
        (o1.min i ≠ -1 → ∃ c : Nat, c < A.n ∧ o1.min i = (c : Int) ∧
          o1.minDist i = A.xn i + A.yn c - 2 * dotXY A i c) :=
  prefix_consistent V hV A hk s gx gy o _
    (fun _ he => (hsched _).mem_iff.1 (List.mem_of_mem_take he))

end

/-- A candidate `(1, 4)` for row 0 after the initialisation on `unitParams`. -/
theorem merge_step_frame_witness :
    ∃ o', mergeStep ⟨0, ⟨1, 4⟩⟩ (initOut unitParams zeroOut) = some o' ∧
      ((4 : Int) < (initOut unitParams zeroOut).minDist 0 → o'.min 0 = 1 ∧ o'.minDist 0 = 4) ∧
      (¬ (4 : Int) < (initOut unitParams zeroOut).minDist 0 →
        o'.min 0 = (initOut unitParams zeroOut).min 0 ∧
          o'.minDist 0 = (initOut unitParams zeroOut).minDist 0) ∧
      o'.mutex 0 = 0 ∧
      ∀ i, i ≠ 0 →
        o'.min i = (initOut unitParams zeroOut).min i ∧
          o'.minDist i = (initOut unitParams zeroOut).minDist i ∧
          o'.mutex i = (initOut unitParams zeroOut).mutex i :=
  merge_step_frame 0 1 4 (initOut unitParams zeroOut)
    ((initOut_spec unitParams zeroOut).1 0 (by decide)).2.2

/-- The input of the scenario after the first two merges of the grid in reverse order. -/
theorem index_distance_consistent_witness :
    ∃ o1, runMerges ((List.reverse (gridMerges (Policy 2) (scenarioParams 1000) zeroSmem 1 1)).take 2)
        (initOut (scenarioParams 1000) zeroOut) = some o1 ∧
      ∀ i, i < (scenarioParams 1000).m →
        (o1.min i = -1 ↔ o1.minDist i = (scenarioParams 1000).maxVal) ∧
        (o1.min i ≠ -1 → ∃ c : Nat, c < (scenarioParams 1000).n ∧ o1.min i = (c : Int) ∧
          o1.minDist i = (scenarioParams 1000).xn i + (scenarioParams 1000).yn c -
            2 * dotXY (scenarioParams 1000) i c) :=
  index_distance_consistent 2 (scenarioParams 1000) zeroSmem List.reverse 1 1 zeroOut 2
    (by decide) (by decide) (fun l => List.reverse_perm l)

theorem scratch_bounds (V : Nat) (hV : V = 1 ∨ V = 2 ∨ V = 4) (tid : Nat) (htid : tid < 256) :
    (∀ i v, i < (Policy V).LdgPerThX → v < V →
      stsAddrX (Policy V) tid i v < (Policy V).SmemPageX ∧
      stsAddrX (Policy V) tid i v % (Policy V).SmemStride < (Policy V).Kblk) ∧
    (∀ i v, i < (Policy V).LdgPerThY → v < V →
      (Policy V).SmemPageX ≤ stsAddrY (Policy V) tid i v ∧
      stsAddrY (Policy V) tid i v < (Policy V).SmemPage ∧
      (stsAddrY (Policy V) tid i v - sy (Policy V)) % (Policy V).SmemStride < (Policy V).Kblk) ∧
    (∀ it i v, it < ceildiv (Policy V).Kblk V → i < 4 → v < V →
      ldsAddrX (Policy V) tid (it * V) i v < (Policy V).SmemPageX ∧
      ldsAddrX (Policy V) tid (it * V) i v % (Policy V).SmemStride < (Policy V).Kblk) ∧
    (∀ it i v, it < ceildiv (Policy V).Kblk V → i < 4 → v < V →
      (Policy V).SmemPageX ≤ ldsAddrY (Policy V) tid (it * V) i v ∧
      ldsAddrY (Policy V) tid (it * V) i v < (Policy V).SmemPage ∧
      (ldsAddrY (Policy V) tid (it * V) i v - sy (Policy V)) % (Policy V).SmemStride <
        (Policy V).Kblk) := by
  rcases hV with rfl | rfl | rfl
  all_goals
    simp only [Policy, stsAddrX, stsAddrY, ldsAddrX, ldsAddrY, sx, sy, pageWr, srowid, scolid,
      accrowid, acccolid, ceildiv, KernelPolicy.SmemPage, KernelPolicy.SmemPageX,
      KernelPolicy.SmemPageY, KernelPolicy.SmemStride, KernelPolicy.Mblk, KernelPolicy.Nblk,
      KernelPolicy.LdgPerThX, KernelPolicy.LdgPerThY, KernelPolicy.LdgRowsX,
      KernelPolicy.LdgRowsY, KernelPolicy.LdgThK, KernelPolicy.Nthreads,
      Nat.reduceMul, Nat.reduceDiv, Nat.reduceAdd, Nat.reduceSub, Nat.zero_mul, Nat.zero_add,
      Nat.add_zero]
    refine ⟨?_, ?_, ?_, ?_⟩ <;> intros <;> omega

section
variable {α : Type} [LinearOrderedCommRing α]

theorem ldgstsX_stores (P : KernelPolicy) (A : Params α) (blkX tid kidx : Nat) (s : List α) :
    ldgstsX P A blkX tid kidx (sx P + pageWr * P.SmemPage) s =
      (List.range P.LdgPerThX).foldl
        (fun s i => (List.range P.Veclen).foldl
          (fun s v => s.set (stsAddrX P tid i v) (ldgDataX P A blkX tid kidx i v)) s) s := rfl

theorem ldgstsY_stores (P : KernelPolicy) (A : Params α) (blkY tid kidx : Nat) (s : List α) :
    ldgstsY P A blkY tid kidx (sy P + pageWr * P.SmemPage) s =
      (List.range P.LdgPerThY).foldl
        (fun s i => (List.range P.Veclen).foldl
          (fun s v => s.set (stsAddrY P tid i v) (ldgDataY P A blkY tid kidx i v)) s) s := rfl

theorem ldsX_reads (P : KernelPolicy) (tid kidx : Nat) (s : List α) (i v : Nat) :
    ldsX P tid kidx (sx P + pageWr * P.SmemPage) s i v = s.getD (ldsAddrX P tid kidx i v) 0 :=
  rfl

theorem ldsY_reads (P : KernelPolicy) (tid kidx : Nat) (s : List α) (i v : Nat) :
    ldsY P tid kidx (sy P + pageWr * P.SmemPage) s i v = s.getD (ldsAddrY P tid kidx i v) 0 :=
  rfl

theorem norm_bounds (V : Nat) (tid : Nat) (htid : tid < 256) :
    (∀ i ∈ strided tid (Policy V).Mblk (Policy V).Nthreads,
      i < (Policy V).Mblk ∧ sxNorm (Policy V) + i < (Policy V).SmemPageX) ∧
    (∀ i ∈ strided tid (Policy V).Nblk (Policy V).Nthreads,
      i < (Policy V).Nblk ∧ syNorm (Policy V) + i < (Policy V).SmemPage) ∧
    (∀ i, i < (Policy V).AccRowsPerTh →
      i * (Policy V).AccThRows + accrowid (Policy V) tid < (Policy V).Mblk ∧
      sxNorm (Policy V) + (i * (Policy V).AccThRows + accrowid (Policy V) tid) <
        (Policy V).SmemPageX) ∧
    (∀ i, i < (Policy V).AccColsPerTh →
      i * (Policy V).AccThCols + acccolid (Policy V) tid < (Policy V).Nblk ∧
      syNorm (Policy V) + (i * (Policy V).AccThCols + acccolid (Policy V) tid) <
        (Policy V).SmemPage) := by
  have hM : (Policy V).Mblk = 64 := rfl
  have hN : (Policy V).Nblk = 64 := rfl
  have hT : (Policy V).Nthreads = 256 := rfl
  have hPX : (Policy V).SmemPageX = (32 + V) * 64 := rfl
  have hP : (Policy V).SmemPage = 128 * (32 + V) := smemPage_eq V
  have hR : (Policy V).AccRowsPerTh = 4 := rfl
  have hC : (Policy V).AccColsPerTh = 4 := rfl
  have hTR : (Policy V).AccThRows = 16 := rfl
  have hTC : (Policy V).AccThCols = 16 := rfl
  have hsx : sxNorm (Policy V) = 0 := rfl
  have hsy : syNorm (Policy V) = 64 := rfl
  have har : accrowid (Policy V) tid = tid / 16 := rfl
  have hac : acccolid (Policy V) tid = tid % 16 := rfl
  rw [hM, hN, hT, hPX, hP, hR, hC, hTR, hTC, hsx, hsy, har, hac, strided_eq tid htid]
  refine ⟨?_, ?_, ?_, ?_⟩
  · intro i hi
    split_ifs at hi with h
    · simp at hi; omega
    · simp at hi
  · intro i hi
    split_ifs at hi with h
    · simp at hi; omega
    · simp at hi
  · intro i hi; omega
  · intro i hi; omega

/-- C20: for the policy of the dispatcher with `Veclen` in `{1, 2, 4}` and every thread
`threadIdx.x < Nthreads`: `SmemPage = SmemStride * (Mblk + Nblk)`; the stores of `ldgstsX`
and the reads of `ldsX` (at `kidx = it * Veclen < Kblk`) touch only indices below
`SmemPageX`, those of `ldgstsY` and `ldsY` only indices from `SmemPageX` up to below
`SmemPage`, and all of them only the first `Kblk` columns of a row of `SmemStride` elements;
the staged norms `sxNorm[i]` (`i < Mblk`) and `syNorm[i]` (`i < Nblk`), as written and as
read back, lie below `SmemPageX` and `SmemPage`. -/
theorem scratch_footprint (V tid : Nat) (A : Params α) (hV : V = 1 ∨ V = 2 ∨ V = 4)
    (htid : tid < (Policy V).Nthreads) :
    (Policy V).SmemPage = (Policy V).SmemStride * ((Policy V).Mblk + (Policy V).Nblk) ∧
    (∀ blkX kidx (s : List α),
      ldgstsX (Policy V) A blkX tid kidx (sx (Policy V) + pageWr * (Policy V).SmemPage) s =
        (List.range (Policy V).LdgPerThX).foldl
          (fun s i => (List.range (Policy V).Veclen).foldl
            (fun s v => s.set (stsAddrX (Policy V) tid i v)
              (ldgDataX (Policy V) A blkX tid kidx i v)) s) s) ∧
    (∀ blkY kidx (s : List α),
      ldgstsY (Policy V) A blkY tid kidx (sy (Policy V) + pageWr * (Policy V).SmemPage) s =
        (List.range (Policy V).LdgPerThY).foldl
          (fun s i => (List.range (Policy V).Veclen).foldl
            (fun s v => s.set (stsAddrY (Policy V) tid i v)
              (ldgDataY (Policy V) A blkY tid kidx i v)) s) s) ∧
    (∀ kidx (s : List α) i v,
      ldsX (Policy V) tid kidx (sx (Policy V) + pageWr * (Policy V).SmemPage) s i v =
        s.getD (ldsAddrX (Policy V) tid kidx i v) 0 ∧
      ldsY (Policy V) tid kidx (sy (Policy V) + pageWr * (Policy V).SmemPage) s i v =
        s.getD (ldsAddrY (Policy V) tid kidx i v) 0) ∧
    (∀ i v, i < (Policy V).LdgPerThX → v < (Policy V).Veclen →
      stsAddrX (Policy V) tid i v < (Policy V).SmemPageX ∧
      stsAddrX (Policy V) tid i v % (Policy V).SmemStride < (Policy V).Kblk) ∧
    (∀ i v, i < (Policy V).LdgPerThY → v < (Policy V).Veclen →
      (Policy V).SmemPageX ≤ stsAddrY (Policy V) tid i v ∧
      stsAddrY (Policy V) tid i v < (Policy V).SmemPage ∧
      (stsAddrY (Policy V) tid i v - sy (Policy V)) % (Policy V).SmemStride <
        (Policy V).Kblk) ∧
    (∀ it i v, it < ceildiv (Policy V).Kblk (Policy V).Veclen →
      i < (Policy V).AccRowsPerTh → v < (Policy V).Veclen →
      ldsAddrX (Policy V) tid (it * (Policy V).Veclen) i v < (Policy V).SmemPageX ∧
      ldsAddrX (Policy V) tid (it * (Policy V).Veclen) i v % (Policy V).SmemStride <
        (Policy V).Kblk) ∧
    (∀ it i v, it < ceildiv (Policy V).Kblk (Policy V).Veclen →
      i < (Policy V).AccColsPerTh → v < (Policy V).Veclen →
      (Policy V).SmemPageX ≤ ldsAddrY (Policy V) tid (it * (Policy V).Veclen) i v ∧
      ldsAddrY (Policy V) tid (it * (Policy V).Veclen) i v < (Policy V).SmemPage ∧
      (ldsAddrY (Policy V) tid (it * (Policy V).Veclen) i v - sy (Policy V)) %
        (Policy V).SmemStride < (Policy V).Kblk) ∧
    (∀ i ∈ strided tid (Policy V).Mblk (Policy V).Nthreads,
      i < (Policy V).Mblk ∧ sxNorm (Policy V) + i < (Policy V).SmemPageX) ∧
    (∀ i ∈ strided tid (Policy V).Nblk (Policy V).Nthreads,
      i < (Policy V).Nblk ∧ syNorm (Policy V) + i < (Policy V).SmemPage) ∧
    (∀ i, i < (Policy V).AccRowsPerTh →
      i * (Policy V).AccThRows + accrowid (Policy V) tid < (Policy V).Mblk ∧
      sxNorm (Policy V) + (i * (Policy V).AccThRows + accrowid (Policy V) tid) <
        (Policy V).SmemPageX) ∧
    (∀ i, i < (Policy V).AccColsPerTh →
      i * (Policy V).AccThCols + acccolid (Policy V) tid < (Policy V).Nblk ∧
      syNorm (Policy V) + (i * (Policy V).AccThCols + acccolid (Policy V) tid) <
        (Policy V).SmemPage) := by
  have htid' : tid < 256 := htid
  obtain ⟨b1, b2, b3, b4⟩ := scratch_bounds V hV tid htid'
  obtain ⟨n1, n2, n3, n4⟩ := norm_bounds V tid htid'
  refine ⟨?_, fun blkX kidx s => ldgstsX_stores _ A blkX tid kidx s,
    fun blkY kidx s => ldgstsY_stores _ A blkY tid kidx s,
    fun kidx s i v => ⟨ldsX_reads _ tid kidx s i v, ldsY_reads _ tid kidx s i v⟩,
    b1, b2, b3, b4, n1, n2, n3, n4⟩
  simp only [KernelPolicy.SmemPage, KernelPolicy.SmemPageX, KernelPolicy.SmemPageY]
  ring

end

/-- The last thread of a block, for `Veclen = 4`. -/
theorem scratch_footprint_witness :
    (Policy 4).SmemPage = (Policy 4).SmemStride * ((Policy 4).Mblk + (Policy 4).Nblk) ∧
    (∀ blkX kidx (s : List Int),
      ldgstsX (Policy 4) (scenarioParams 1000) blkX 255 kidx (sx (Policy 4) + pageWr * (Policy 4).SmemPage) s =
        (List.range (Policy 4).LdgPerThX).foldl
          (fun s i => (List.range (Policy 4).Veclen).foldl
            (fun s v => s.set (stsAddrX (Policy 4) 255 i v)
              (ldgDataX (Policy 4) (scenarioParams 1000) blkX 255 kidx i v)) s) s) ∧
    (∀ blkY kidx (s : List Int),
      ldgstsY (Policy 4) (scenarioParams 1000) blkY 255 kidx (sy (Policy 4) + pageWr * (Policy 4).SmemPage) s =
        (List.range (Policy 4).LdgPerThY).foldl
          (fun s i => (List.range (Policy 4).Veclen).foldl
            (fun s v => s.set (stsAddrY (Policy 4) 255 i v)
              (ldgDataY (Policy 4) (scenarioParams 1000) blkY 255 kidx i v)) s) s) ∧
    (∀ kidx (s : List Int) i v,
      ldsX (Policy 4) 255 kidx (sx (Policy 4) + pageWr * (Policy 4).SmemPage) s i v =
        s.getD (ldsAddrX (Policy 4) 255 kidx i v) 0 ∧
      ldsY (Policy 4) 255 kidx (sy (Policy 4) + pageWr * (Policy 4).SmemPage) s i v =
        s.getD (ldsAddrY (Policy 4) 255 kidx i v) 0) ∧
    (∀ i v, i < (Policy 4).LdgPerThX → v < (Policy 4).Veclen →
      stsAddrX (Policy 4) 255 i v < (Policy 4).SmemPageX ∧
      stsAddrX (Policy 4) 255 i v % (Policy 4).SmemStride < (Policy 4).Kblk) ∧
    (∀ i v, i < (Policy 4).LdgPerThY → v < (Policy 4).Veclen →
      (Policy 4).SmemPageX ≤ stsAddrY (Policy 4) 255 i v ∧
      stsAddrY (Policy 4) 255 i v < (Policy 4).SmemPage ∧
      (stsAddrY (Policy 4) 255 i v - sy (Policy 4)) % (Policy 4).SmemStride <
        (Policy 4).Kblk) ∧
    (∀ it i v, it < ceildiv (Policy 4).Kblk (Policy 4).Veclen →
      i < (Policy 4).AccRowsPerTh → v < (Policy 4).Veclen →
      ldsAddrX (Policy 4) 255 (it * (Policy 4).Veclen) i v < (Policy 4).SmemPageX ∧
      ldsAddrX (Policy 4) 255 (it * (Policy 4).Veclen) i v % (Policy 4).SmemStride <
        (Policy 4).Kblk) ∧
    (∀ it i v, it < ceildiv (Policy 4).Kblk (Policy 4).Veclen →
      i < (Policy 4).AccColsPerTh → v < (Policy 4).Veclen →
      (Policy 4).SmemPageX ≤ ldsAddrY (Policy 4) 255 (it * (Policy 4).Veclen) i v ∧
      ldsAddrY (Policy 4) 255 (it * (Policy 4).Veclen) i v < (Policy 4).SmemPage ∧
      (ldsAddrY (Policy 4) 255 (it * (Policy 4).Veclen) i v - sy (Policy 4)) %
        (Policy 4).SmemStride < (Policy 4).Kblk) ∧
    (∀ i ∈ strided 255 (Policy 4).Mblk (Policy 4).Nthreads,
      i < (Policy 4).Mblk ∧ sxNorm (Policy 4) + i < (Policy 4).SmemPageX) ∧
    (∀ i ∈ strided 255 (Policy 4).Nblk (Policy 4).Nthreads,
      i < (Policy 4).Nblk ∧ syNorm (Policy 4) + i < (Policy 4).SmemPage) ∧
    (∀ i, i < (Policy 4).AccRowsPerTh →
      i * (Policy 4).AccThRows + accrowid (Policy 4) 255 < (Policy 4).Mblk ∧
      sxNorm (Policy 4) + (i * (Policy 4).AccThRows + accrowid (Policy 4) 255) <
        (Policy 4).SmemPageX) ∧
    (∀ i, i < (Policy 4).AccColsPerTh →
      i * (Policy 4).AccThCols + acccolid (Policy 4) 255 < (Policy 4).Nblk ∧
      syNorm (Policy 4) + (i * (Policy 4).AccThCols + acccolid (Policy 4) 255) <
        (Policy 4).SmemPage) :=
  scratch_footprint 4 255 (scenarioParams 1000) (by decide) (by decide)

end Distance
end MLCommon
